import Mathlib

/-!
Verification development for the `differentiation` repository: a miniature
computation-graph library (Tensor / Op / Graph / Session) with symbolic
reverse-mode differentiation, driven by the XOR training driver in
`src/main.py`.

Only the driver `main.py` is present under `src/`; the library modules it
imports (`graph.py`, `tensor.py`, `ops.py`, `session.py`) are absent, so the
Graph / Op / Session core below is modelled from the specification, as noted
in each doc comment.  Numeric values are modelled over the rationals; the
sigmoid activation's scalar function is a parameter of the evaluator, since
no claim depends on its transcendental value.
-/

namespace Diff

/-- Shape of a stored value: scalar, an r-by-c matrix, or the sentinel
shape of a `group` output (no meaningful value). -/
inductive Shape where
  | sc : Shape
  | mt : Nat → Nat → Shape
  | un : Shape
deriving DecidableEq, Repr

/-- A matrix is a list of rows of rationals. -/
abbrev Mat := List (List ℚ)

/-- Number of rows of a matrix. -/
def Mat.rows (m : Mat) : Nat := m.length

/-- Number of columns of a matrix (length of the first row). -/
def Mat.cols (m : Mat) : Nat := (m.headD []).length

/-- Modelled from the spec: a numeric value is a scalar or a fixed 2-D
matrix; `un` is the meaningless sentinel value carried by a `group` output. -/
inductive Value where
  | sc : ℚ → Value
  | mt : Mat → Value
  | un : Value
deriving DecidableEq, Repr

/-- The implicit shape of a value. -/
def Value.shape : Value → Shape
  | .sc _ => .sc
  | .mt m => .mt m.rows m.cols
  | .un => .un

/-- Elementwise combination of two matrices of identical dimensions. -/
def zipMat (f : ℚ → ℚ → ℚ) (a b : Mat) : Mat :=
  List.zipWith (fun r s => List.zipWith f r s) a b

/-- Map a scalar function over every entry of a matrix. -/
def mapMat (f : ℚ → ℚ) (m : Mat) : Mat := m.map (fun r => r.map f)

/-- Transpose of a matrix. -/
def transposeMat (m : Mat) : Mat :=
  (List.range m.cols).map (fun j => m.map (fun r => r.getD j 0))

/-- Dot product of two vectors. -/
def dotVec (a b : List ℚ) : ℚ := (List.zipWith (· * ·) a b).sum

/-- Matrix product. -/
def dotMat (a b : Mat) : Mat :=
  a.map (fun r => (transposeMat b).map (fun c => dotVec r c))

/-- Sum of all entries of a matrix. -/
def sumMat (m : Mat) : ℚ := (m.map (fun r => r.sum)).sum

/-- A constant matrix of the given dimensions. -/
def constMat (r c : Nat) (x : ℚ) : Mat :=
  (List.range r).map (fun _ => (List.range c).map (fun _ => x))

/-- Modelled from the spec: elementwise binary operation on two values,
requiring identical shapes or one scalar operand (the only broadcasting the
system supports). -/
def ew2 (f : ℚ → ℚ → ℚ) : Value → Value → Option Value
  | .sc a, .sc b => some (.sc (f a b))
  | .sc a, .mt m => some (.mt (m.map (fun r => r.map (fun x => f a x))))
  | .mt m, .sc b => some (.mt (m.map (fun r => r.map (fun x => f x b))))
  | .mt m, .mt n =>
      if m.rows = n.rows ∧ m.cols = n.cols then some (.mt (zipMat f m n)) else none
  | _, _ => none

/-- Elementwise unary operation on a value. -/
def ew1 (f : ℚ → ℚ) : Value → Option Value
  | .sc a => some (.sc (f a))
  | .mt m => some (.mt (mapMat f m))
  | .un => none

/-- The zero value of a given shape (used for disconnected gradients). -/
def zeroValue : Shape → Value
  | .sc => .sc 0
  | .mt r c => .mt (constMat r c 0)
  | .un => .un

/-- The all-ones value of a given shape (used to seed the loss gradient). -/
def oneValue : Shape → Value
  | .sc => .sc 1
  | .mt r c => .mt (constMat r c 1)
  | .un => .un

/-- Modelled from the spec: the closed, fixed set of operation kinds. -/
inductive OpKind where
  | add | sub | mul | dot | transpose | sigmoid | square | mean | assign | group
deriving DecidableEq, Repr

/-- The differentiable kinds; `assign` and `group` have no gradient. -/
def OpKind.differentiable : OpKind → Bool
  | .assign => false
  | .group => false
  | _ => true

/-- Modelled from the spec: a Tensor node — unique id, optional producer Op
id (absent means leaf), a mutable stored value (`none` when not yet
resolved), and its shape.  The spec derives the shape implicitly from the
stored value; it is recorded explicitly here because shape validation of a
composite input happens before its value is ever resolved. -/
structure Tensor where
  id : Nat
  producer : Option Nat
  value : Option Value
  shape : Shape
deriving DecidableEq, Repr

/-- Modelled from the spec: an Op node — unique id, kind tag, ordered input
Tensor ids (borrowed), and the id of its owned output Tensor. -/
structure Op where
  id : Nat
  kind : OpKind
  inputs : List Nat
  out : Nat
deriving DecidableEq, Repr

/-- Modelled from the spec: the Graph is an append-only registry of all
Tensor and Op nodes, with a shared strictly increasing id counter. -/
structure Graph where
  tensors : List Tensor
  ops : List Op
  nextId : Nat
deriving DecidableEq, Repr

/-- The empty graph. -/
def Graph.empty : Graph := { tensors := [], ops := [], nextId := 0 }

/-- Look up a tensor by id. -/
def Graph.findTensor (g : Graph) (tid : Nat) : Option Tensor :=
  g.tensors.find? (fun t => t.id = tid)

/-- Look up an op by id. -/
def Graph.findOp (g : Graph) (oid : Nat) : Option Op :=
  g.ops.find? (fun o => o.id = oid)

/-- The producer op of a tensor, when both exist. -/
def Graph.producerOf (g : Graph) (tid : Nat) : Option Op :=
  match g.findTensor tid with
  | some t => match t.producer with
    | some oid => g.findOp oid
    | none => none
  | none => none

/-- Overwrite the stored value of the tensor with the given id (the only
in-place mutation in the system). -/
def Graph.setValue (g : Graph) (tid : Nat) (v : Value) : Graph :=
  { g with tensors := g.tensors.map (fun t => if t.id = tid then { t with value := some v } else t) }

/-- Register a new leaf tensor holding `v`; returns the new graph and the
fresh tensor id. -/
def Graph.addLeaf (g : Graph) (v : Value) : Graph × Nat :=
  ({ g with tensors := g.tensors ++ [{ id := g.nextId, producer := none, value := some v, shape := v.shape }],
            nextId := g.nextId + 1 }, g.nextId)

/-- Register a new op of the given kind together with its owned output
tensor (allocated with an as-yet-unresolved value); returns the new graph
and the output tensor's id.  The op's id precedes its output's id. -/
def Graph.addOpNode (g : Graph) (k : OpKind) (args : List Nat) (outShape : Shape) : Graph × Nat :=
  let oid := g.nextId
  let tid := g.nextId + 1
  ({ tensors := g.tensors ++ [{ id := tid, producer := some oid, value := none, shape := outShape }],
     ops := g.ops ++ [{ id := oid, kind := k, inputs := args, out := tid }],
     nextId := g.nextId + 2 }, tid)

/-- Elementwise shape contract: identical shapes or one scalar operand. -/
def ewShape : Shape → Shape → Option Shape
  | .sc, .sc => some .sc
  | .sc, .mt r c => some (.mt r c)
  | .mt r c, .sc => some (.mt r c)
  | .mt r c, .mt r' c' => if r = r' ∧ c = c' then some (.mt r c) else none
  | _, _ => none

/-- Modelled from the spec: each op kind's input-shape contract, returning
the output shape when the inputs conform and `none` (a ShapeError) when
they violate it. -/
def opShape : OpKind → List Shape → Option Shape
  | .add, [a, b] => ewShape a b
  | .sub, [a, b] => ewShape a b
  | .mul, [a, b] => ewShape a b
  | .dot, [.mt r n, .mt n' p] => if n = n' then some (.mt r p) else none
  | .transpose, [.mt r c] => some (.mt c r)
  | .sigmoid, [.sc] => some .sc
  | .sigmoid, [.mt r c] => some (.mt r c)
  | .square, [.sc] => some .sc
  | .square, [.mt r c] => some (.mt r c)
  | .mean, [.mt _ _] => some .sc
  | .assign, [t, s] => if t = s ∧ t ≠ Shape.un then some t else none
  | .group, ms => if ms.all (fun s => s ≠ .un) then some .un else none
  | _, _ => none

/-- Errors surfaced by graph construction and gradient synthesis. -/
inductive GErr where
  | shape : GErr
  | noGradient : GErr
  | missing : GErr
deriving DecidableEq, Repr

/-- Modelled from the spec: the generic operation factory — validates the
input tensors' shapes against the kind's contract, fails with a ShapeError
(registering no nodes) on violation, and otherwise registers the op and its
output tensor and returns the output tensor id. -/
def Graph.opFactory (g : Graph) (k : OpKind) (args : List Nat) : Except GErr (Graph × Nat) := do
  let shapes ← args.mapM (fun a =>
    match g.findTensor a with
    | some t => Except.ok t.shape
    | none => Except.error GErr.missing)
  match opShape k shapes with
  | some outS => Except.ok (g.addOpNode k args outS)
  | none => Except.error GErr.shape

/-- Factory `tensor(value)`: a new leaf tensor. -/
def Graph.tensor (g : Graph) (v : Value) : Graph × Nat := g.addLeaf v

/-- Factory for `add`. -/
def Graph.add (g : Graph) (a b : Nat) : Except GErr (Graph × Nat) := g.opFactory .add [a, b]

/-- Factory for `sub`. -/
def Graph.sub (g : Graph) (a b : Nat) : Except GErr (Graph × Nat) := g.opFactory .sub [a, b]

/-- Factory for `mul`. -/
def Graph.mul (g : Graph) (a b : Nat) : Except GErr (Graph × Nat) := g.opFactory .mul [a, b]

/-- Factory for `dot`. -/
def Graph.dot (g : Graph) (a b : Nat) : Except GErr (Graph × Nat) := g.opFactory .dot [a, b]

/-- Factory for `transpose`. -/
def Graph.transpose (g : Graph) (a : Nat) : Except GErr (Graph × Nat) := g.opFactory .transpose [a]

/-- Factory for `sigmoid`. -/
def Graph.sigmoid (g : Graph) (a : Nat) : Except GErr (Graph × Nat) := g.opFactory .sigmoid [a]

/-- Factory for `square`. -/
def Graph.square (g : Graph) (a : Nat) : Except GErr (Graph × Nat) := g.opFactory .square [a]

/-- Factory for `mean`. -/
def Graph.mean (g : Graph) (a : Nat) : Except GErr (Graph × Nat) := g.opFactory .mean [a]

/-- Factory for `assign(target, source)`. -/
def Graph.assign (g : Graph) (t s : Nat) : Except GErr (Graph × Nat) := g.opFactory .assign [t, s]

/-- Factory for `group(members)`. -/
def Graph.group (g : Graph) (ms : List Nat) : Except GErr (Graph × Nat) := g.opFactory .group ms

/-- Modelled from the spec: the numeric forward rule of each pure op kind
(`assign` is handled by the evaluator, which mutates the target; `group`
yields the meaningless sentinel value). -/
def forward (sig : ℚ → ℚ) : OpKind → List Value → Option Value
  | .add, [a, b] => ew2 (· + ·) a b
  | .sub, [a, b] => ew2 (· - ·) a b
  | .mul, [a, b] => ew2 (· * ·) a b
  | .dot, [.mt a, .mt b] => if a.cols = b.rows then some (.mt (dotMat a b)) else none
  | .transpose, [.mt a] => some (.mt (transposeMat a))
  | .sigmoid, [v] => ew1 sig v
  | .square, [v] => ew1 (fun x => x * x) v
  | .mean, [.mt a] => some (.sc (sumMat a / ((a.rows : ℚ) * (a.cols : ℚ))))
  | .group, _ => some .un
  | _, _ => none

/-- Modelled from the spec: the pure denotation of an expression node —
recursively evaluates the producer chain with no memoization and no side
effects; undefined for the effectful kinds `assign` and `group` and for
unresolved leaves.  Fuel-indexed to make the recursion structural. -/
def denoteT (sig : ℚ → ℚ) : Nat → Graph → Nat → Option Value
  | 0, _, _ => none
  | Nat.succ fuel, g, tid => do
    let t ← g.findTensor tid
    match t.producer with
    | none => t.value
    | some oid => do
      let o ← g.findOp oid
      if o.kind = OpKind.assign ∨ o.kind = OpKind.group then none
      else do
        let vs ← o.inputs.mapM (denoteT sig fuel g)
        forward sig o.kind vs

/-- The mean kind's backward rule: broadcast the incoming gradient divided
by the element count back to the input's shape (a constant matrix tensor
times the scalar gradient). -/
def meanBackward (g : Graph) (a gradOut : Nat) : Except GErr (Graph × List Nat) :=
  match g.findTensor a with
  | some t =>
    match t.shape with
    | .mt r c => do
      let t1 := g.tensor (.mt (constMat r c (1 / ((r : ℚ) * (c : ℚ)))))
      let p1 ← t1.1.mul gradOut t1.2
      .ok (p1.1, [p1.2])
    | _ => .error .shape
  | none => .error .missing

/-- Modelled from the spec: the per-kind backward rule, invoked during
gradient synthesis with the producing op and the accumulated gradient
tensor for its output; emits one gradient-expression tensor per input,
built with ordinary factory calls, and fails with NoGradientError for the
non-differentiable kinds `assign` and `group`. -/
def backward (g : Graph) (o : Op) (gradOut : Nat) : Except GErr (Graph × List Nat) :=
  match o.kind, o.inputs with
  | .add, [_, _] => .ok (g, [gradOut, gradOut])
  | .sub, [_, _] => do
      let t1 := g.tensor (.sc (-1))
      let p1 ← t1.1.mul t1.2 gradOut
      .ok (p1.1, [gradOut, p1.2])
  | .mul, [a, b] => do
      let p1 ← g.mul gradOut b
      let p2 ← p1.1.mul gradOut a
      .ok (p2.1, [p1.2, p2.2])
  | .dot, [a, b] => do
      let p1 ← g.transpose b
      let p2 ← p1.1.dot gradOut p1.2
      let p3 ← p2.1.transpose a
      let p4 ← p3.1.dot p3.2 gradOut
      .ok (p4.1, [p2.2, p4.2])
  | .transpose, [_] => do
      let p1 ← g.transpose gradOut
      .ok (p1.1, [p1.2])
  | .sigmoid, [_] => do
      let t1 := g.tensor (.sc 1)
      let p1 ← t1.1.sub t1.2 o.out
      let p2 ← p1.1.mul o.out p1.2
      let p3 ← p2.1.mul p2.2 gradOut
      .ok (p3.1, [p3.2])
  | .square, [a] => do
      let t1 := g.tensor (.sc 2)
      let p1 ← t1.1.mul t1.2 a
      let p2 ← p1.1.mul p1.2 gradOut
      .ok (p2.1, [p2.2])
  | .mean, [a] => meanBackward g a gradOut
  | .assign, _ => .error .noGradient
  | .group, _ => .error .noGradient
  | _, _ => .error .missing

/-- Running gradient accumulators: tensor id of an input, mapped to the
tensor id of its accumulated gradient expression. -/
abbrev AccMap := List (Nat × Nat)

/-- Look up the accumulator for a tensor id. -/
def lookupAcc (m : AccMap) (tid : Nat) : Option Nat :=
  (m.find? (fun p => p.1 = tid)).map (fun p => p.2)

/-- Replace (by shadowing) the accumulator for a tensor id. -/
def setAcc (m : AccMap) (tid aid : Nat) : AccMap := (tid, aid) :: m

/-- Modelled from the spec: add one produced gradient tensor to the running
accumulator for an input tensor; if the input already has an accumulator,
combine the old accumulator and the new contribution by `add`. -/
def accumGrad (g : Graph) (m : AccMap) (tid gid : Nat) : Except GErr (Graph × AccMap) :=
  match lookupAcc m tid with
  | some old => do
      let (g1, s) ← g.add old gid
      .ok (g1, setAcc m tid s)
  | none => .ok (g, setAcc m tid gid)

/-- Accumulate a list of (input tensor, produced gradient) pairs in order. -/
def accumList (g : Graph) (m : AccMap) : List (Nat × Nat) → Except GErr (Graph × AccMap)
  | [] => .ok (g, m)
  | (t, c) :: rest => do
      let (g1, m1) ← accumGrad g m t c
      accumList g1 m1 rest

/-- Modelled from the spec: the gradient-synthesis loop — process tensor
ids in reverse creation order; for each that has an accumulated gradient
and a producer op, invoke the kind's backward rule and accumulate each
produced gradient into the corresponding input's accumulator. -/
def gradLoop (g : Graph) (m : AccMap) : List Nat → Except GErr (Graph × AccMap)
  | [] => .ok (g, m)
  | tid :: rest =>
    match lookupAcc m tid, g.producerOf tid with
    | some gid, some o => do
        let (g1, contribs) ← backward g o gid
        let (g2, m2) ← accumList g1 m (o.inputs.zip contribs)
        gradLoop g2 m2 rest
    | _, _ => gradLoop g m rest

/-- Modelled from the spec: collect one result per `wrt` entry, in order —
the final accumulator, or a fresh zero-valued leaf of matching shape when
the entry was never reached from the loss. -/
def collectGrads (g : Graph) (m : AccMap) : List Nat → Except GErr (Graph × List Nat)
  | [] => .ok (g, [])
  | w :: rest =>
    match lookupAcc m w with
    | some a => do
        let (g1, l) ← collectGrads g m rest
        .ok (g1, a :: l)
    | none =>
      match g.findTensor w with
      | some t => do
          let (g1, z) := g.tensor (zeroValue t.shape)
          let (g2, l) ← collectGrads g1 m rest
          .ok (g2, z :: l)
      | none => .error .missing

/-- Modelled from the spec: `gradients(loss, wrt)` — seed the loss's own
accumulator with the constant one of the loss's shape, run the backward
loop over all tensors in reverse creation order, and collect one gradient
tensor per `wrt` entry in order. -/
def Graph.gradients (g : Graph) (loss : Nat) (wrt : List Nat) : Except GErr (Graph × List Nat) :=
  match g.findTensor loss with
  | none => .error .missing
  | some lt => do
    let ids := (g.tensors.map (fun t => t.id)).reverse
    let (g1, seed) := g.tensor (oneValue lt.shape)
    let (g2, m) ← gradLoop g1 (setAcc [] loss seed) ids
    collectGrads g2 m wrt

/-- Tensors reachable backward from the root via producer-to-input edges,
computed by one pass over ids in decreasing creation order (valid because
an op's inputs always predate its output). -/
def reachPass (g : Graph) (r : List Nat) : List Nat → List Nat
  | [] => r
  | tid :: rest =>
    if tid ∈ r then
      match g.producerOf tid with
      | some o => reachPass g (r ++ o.inputs) rest
      | none => reachPass g r rest
    else reachPass g r rest

/-- The relevant subgraph of a loss tensor: every tensor reachable backward
from it. -/
def Graph.reachableFrom (g : Graph) (root : Nat) : List Nat :=
  reachPass g [root] ((g.tensors.map (fun t => t.id)).reverse)

/-- Backward reachability (following producer-to-input edges), as an
inductive relation. -/
inductive Reaches (g : Graph) (root : Nat) : Nat → Prop where
  | refl : Reaches g root root
  | step {b c : Nat} {o : Op} : Reaches g root b → g.producerOf b = some o →
      c ∈ o.inputs → Reaches g root c

/-- Errors surfaced by session evaluation. -/
inductive EErr where
  | fuel | missing | unresolved | malformed | valueErr
deriving DecidableEq, Repr

/-- Per-call evaluator state: the graph (whose stored values may mutate),
the memo table of this call, and the trace of op ids whose forward rule has
been invoked, in order. -/
structure EvalSt where
  g : Graph
  memo : List (Nat × Value)
  trace : List Nat
deriving Repr

/-- Look up a memo entry. -/
def lookupMemo (m : List (Nat × Value)) (tid : Nat) : Option Value :=
  (m.find? (fun p => p.1 = tid)).map (fun p => p.2)

/-- Continuation of an `assign` resolution: after the source has resolved
to a value, overwrite the target's stored value with it, write it back into
the op's own output tensor, memoize the output, record the op invocation,
and return the value. -/
def applyAssign (tgt tid oid : Nat) : Value × EvalSt → Except EErr (Value × EvalSt)
  | (v, s1) => .ok (v, { g := (s1.g.setValue tgt v).setValue tid v,
                         memo := (tid, v) :: s1.memo,
                         trace := s1.trace ++ [oid] })

/-- Continuation of a pure op resolution: after the inputs have resolved,
invoke the kind's forward rule, write the result back into the output
tensor's stored value, memoize it, and record the op invocation. -/
def applyForward (sig : ℚ → ℚ) (k : OpKind) (oid tid : Nat) :
    List Value × EvalSt → Except EErr (Value × EvalSt)
  | (vs, s1) =>
    match forward sig k vs with
    | some v => .ok (v, { g := s1.g.setValue tid v,
                          memo := (tid, v) :: s1.memo,
                          trace := s1.trace ++ [oid] })
    | none => .error .valueErr

mutual

/-- Modelled from the spec: resolve one tensor in the session — return the
memo entry if present; read a leaf's stored value; otherwise resolve the
producer op's inputs, invoke its forward rule, memoize, and write the
result back into the tensor's own stored value.  The `assign` kind is the
effectful exception: it resolves only its source, overwrites the target's
stored value with the source's resolved value, and returns that value. -/
def evalT (sig : ℚ → ℚ) : Nat → EvalSt → Nat → Except EErr (Value × EvalSt)
  | 0, _, _ => .error .fuel
  | Nat.succ fuel, s, tid =>
    match lookupMemo s.memo tid with
    | some v => .ok (v, s)
    | none =>
      match s.g.findTensor tid with
      | none => .error .missing
      | some t =>
        match t.producer with
        | none =>
          match t.value with
          | some v => .ok (v, { s with memo := (tid, v) :: s.memo })
          | none => .error .unresolved
        | some oid =>
          match s.g.findOp oid with
          | none => .error .missing
          | some o =>
            match o.kind with
            | .assign =>
              match o.inputs with
              | [tgt, src] => (evalT sig fuel s src).bind (applyAssign tgt tid oid)
              | _ => .error .malformed
            | k => (evalArgs sig fuel s o.inputs).bind (applyForward sig k oid tid)
termination_by fuel s tid => (fuel, 0)

/-- Resolve a list of input tensors in order, threading the state. -/
def evalArgs (sig : ℚ → ℚ) : Nat → EvalSt → List Nat → Except EErr (List Value × EvalSt)
  | _, s, [] => .ok ([], s)
  | fuel, s, a :: rest => do
    let (v, s1) ← evalT sig fuel s a
    let (vs, s2) ← evalArgs sig fuel s1 rest
    .ok (v :: vs, s2)
termination_by fuel s l => (fuel, l.length + 1)

end

/-- Resolve a list of requested targets in order within one call, threading
the per-call state (memo and trace) across targets. -/
def runTargets (sig : ℚ → ℚ) (fuel : Nat) (s : EvalSt) : List Nat → Except EErr (List Value × EvalSt)
  | [] => .ok ([], s)
  | t :: rest => do
    let (v, s1) ← evalT sig fuel s t
    let (vs, s2) ← runTargets sig fuel s1 rest
    .ok (v :: vs, s2)

/-- Modelled from the spec: `Session.run(targets)` — one value per target,
positionally aligned, resolved in order against a fresh per-call memo table
(discarded at the end of the call, never reused); returns the values and
the possibly mutated graph. -/
def sessionRun (sig : ℚ → ℚ) (fuel : Nat) (g : Graph) (targets : List Nat) :
    Except EErr (List Value × Graph) :=
  match runTargets sig fuel { g := g, memo := [], trace := [] } targets with
  | .ok (vs, s) => .ok (vs, s.g)
  | .error e => .error e

/-- The static shape of a tensor id. -/
def Graph.shapeOf (g : Graph) (tid : Nat) : Option Shape :=
  (g.findTensor tid).map Tensor.shape

/-- The graph with every stored value erased; two graphs with the same
`stripVals` image have identical node structure (ids, producers, inputs,
shapes) and differ at most in stored values. -/
def Graph.stripVals (g : Graph) : Graph :=
  { g with tensors := g.tensors.map (fun t => { t with value := none }) }

/-- Structural well-formedness of a graph: ids are bounded by the counter,
strictly increasing in creation order within each node list and disjoint
across the two lists; every op's inputs are existing tensors with smaller
ids; every op's owned output tensor has a larger id and points back to the
op; and every tensor's producer link is mirrored by an op. -/
structure WFstruct (g : Graph) : Prop where
  tlt : ∀ t ∈ g.tensors, t.id < g.nextId
  olt : ∀ o ∈ g.ops, o.id < g.nextId
  tsort : (g.tensors.map Tensor.id).Pairwise (· < ·)
  osort : (g.ops.map Op.id).Pairwise (· < ·)
  tod : ∀ t ∈ g.tensors, ∀ o ∈ g.ops, t.id ≠ o.id
  oin : ∀ o ∈ g.ops, ∀ i ∈ o.inputs, (∃ t ∈ g.tensors, t.id = i) ∧ i < o.id
  oout : ∀ o ∈ g.ops, o.id < o.out ∧ ∃ t ∈ g.tensors, t.id = o.out ∧ t.producer = some o.id
  tprod : ∀ t ∈ g.tensors, ∀ oid, t.producer = some oid →
    ∃ o ∈ g.ops, o.id = oid ∧ o.out = t.id ∧ oid < t.id

/-- The op's recorded input and output shapes satisfy its kind's contract
(holds for every op built through a factory, which validated exactly this). -/
def Graph.opConforms (g : Graph) (o : Op) : Prop :=
  ∃ shapes t, o.inputs.mapM g.shapeOf = some shapes ∧
    g.findTensor o.out = some t ∧ opShape o.kind shapes = some t.shape

/-- Shape consistency of a graph: every op's shapes satisfy its contract. -/
def WFshape (g : Graph) : Prop := ∀ o ∈ g.ops, g.opConforms o

/-- No scalar-broadcast elementwise node: every binary elementwise op was
built from inputs of one identical shape (the driver's graphs satisfy
this).  Gradient accumulators then have exactly their tensor's shape. -/
def NoBroadcast (g : Graph) : Prop :=
  ∀ o ∈ g.ops, (o.kind = OpKind.add ∨ o.kind = OpKind.sub ∨ o.kind = OpKind.mul) →
    ∃ s, (∀ i ∈ o.inputs, g.shapeOf i = some s) ∧ g.shapeOf o.out = some s

/-- One graph extends another: node lists grow by appending fresh-id nodes
only, and the id counter never decreases. -/
structure Extends (g g' : Graph) : Prop where
  tens : ∃ l, g'.tensors = g.tensors ++ l ∧ ∀ t ∈ l, g.nextId ≤ t.id
  ops : ∃ l, g'.ops = g.ops ++ l ∧ ∀ o ∈ l, g.nextId ≤ o.id
  next : g.nextId ≤ g'.nextId

/-- Graphs reachable from the empty graph by public factory calls,
gradient synthesis, and session runs. -/
inductive Built : Graph → Prop where
  | empty : Built Graph.empty
  | leaf {g : Graph} {v : Value} {g' : Graph} {t : Nat} :
      Built g → g.tensor v = (g', t) → Built g'
  | factory {g : Graph} {k : OpKind} {args : List Nat} {g' : Graph} {t : Nat} :
      Built g → g.opFactory k args = .ok (g', t) → Built g'
  | grads {g : Graph} {loss : Nat} {wrt : List Nat} {g' : Graph} {l : List Nat} :
      Built g → g.gradients loss wrt = .ok (g', l) → Built g'
  | run {g : Graph} {sig : ℚ → ℚ} {fuel : Nat} {ts : List Nat} {vs : List Value} {g' : Graph} :
      Built g → sessionRun sig fuel g ts = .ok (vs, g') → Built g'

/-- The node-reference edges of the claim: an Op references each of its
input Tensors, and a Tensor references its producer Op. -/
inductive Refs (g : Graph) : Nat → Nat → Prop where
  | opIn {o : Op} {i : Nat} : o ∈ g.ops → i ∈ o.inputs → Refs g o.id i
  | tProd {t : Tensor} {oid : Nat} : t ∈ g.tensors → t.producer = some oid → Refs g t.id oid

/-- Domain of a memo table. -/
def memoKeys (m : List (Nat × Value)) : List Nat := m.map Prod.fst

/-- A tensor id currently holds a gradient accumulator. -/
def hasAcc (m : AccMap) (tid : Nat) : Prop := (lookupAcc m tid).isSome = true

/-- A value has positive matrix dimensions (degenerate empty matrices are
excluded where transposition must preserve recorded dimensions). -/
def Value.posDims : Value → Prop
  | .sc _ => True
  | .mt m => 0 < m.rows ∧ 0 < m.cols
  | .un => True

/-- Value-level transpose. -/
def transposeValue : Value → Option Value
  | .mt m => some (.mt (transposeMat m))
  | _ => none

/-- Value-level matrix product. -/
def dotValue : Value → Value → Option Value
  | .mt a, .mt b => if a.cols = b.rows then some (.mt (dotMat a b)) else none
  | _, _ => none

/-- Modelled from the spec (its per-kind backward-rule formulas, stated as
value-level semantics, to be compared with what `backward` emits):
add/sub pass the gradient through (negated for the subtracted operand);
mul multiplies by the other operand; dot uses the transposes; transpose
transposes the gradient; sigmoid uses output times one minus output;
square uses two times the input; mean broadcasts the gradient over the
element count back to the input's shape. -/
def gradFormula : OpKind → List Value → Value → Value → Option (List Value)
  | .add, [_, _], _, gv => some [gv, gv]
  | .sub, [_, _], _, gv => do
      let n ← ew1 (fun x => -x) gv
      some [gv, n]
  | .mul, [a, b], _, gv => do
      let ga ← ew2 (· * ·) gv b
      let gb ← ew2 (· * ·) gv a
      some [ga, gb]
  | .dot, [a, b], _, gv => do
      let bt ← transposeValue b
      let ga ← dotValue gv bt
      let ta ← transposeValue a
      let gb ← dotValue ta gv
      some [ga, gb]
  | .transpose, [_], _, gv => do
      let t ← transposeValue gv
      some [t]
  | .sigmoid, [_], ov, gv => do
      let om ← ew2 (· - ·) (Value.sc 1) ov
      let p ← ew2 (· * ·) ov om
      let r ← ew2 (· * ·) p gv
      some [r]
  | .square, [a], _, gv => do
      let t ← ew2 (· * ·) (Value.sc 2) a
      let r ← ew2 (· * ·) t gv
      some [r]
  | .mean, [a], _, gv =>
      match a with
      | .mt m => do
          let r ← ew2 (· * ·) gv (.mt (constMat m.rows m.cols (1 / ((m.rows : ℚ) * (m.cols : ℚ)))))
          some [r]
      | _ => none
  | _, _, _, _ => none

/-- Modelled from the spec's words in the claim under test: an op lies on
the path from a `wrt` tensor to the loss when its output is reachable
backward from the loss and one of its inputs reaches the `wrt` tensor. -/
def OnWrtPath (g : Graph) (loss w : Nat) (o : Op) : Prop :=
  Reaches g loss o.out ∧ ∃ i ∈ o.inputs, Reaches g i w

/-- The named results of building the driver's graph. -/
structure DriverOut where
  g : Graph
  xId : Nat
  yId : Nat
  w0Id : Nat
  w1Id : Nat
  lossId : Nat
  gradIds : List Nat
  updateId : Nat
deriving Repr

/-- The driver's build phase, mirroring `src/main.py` lines 68 to 94: the
XOR data, two weight tensors (their entries are the driver's random draws,
taken here as parameters), the two sigmoid layers, the mean-squared loss,
`gradients(loss, [weights0, weights1])`, and one `group` of one `assign`
per parameter setting it to itself minus its gradient. -/
def buildDriver (w0 w1 : Mat) : Except GErr DriverOut := do
  let (g1, x) := Graph.empty.tensor (.mt [[0, 0], [0, 1], [1, 0], [1, 1]])
  let (g2, y) := g1.tensor (.mt [[0, 1, 1, 0]])
  let (g3, p0) := g2.tensor (.mt w0)
  let (g4, p1) := g3.tensor (.mt w1)
  let (g5, d0) ← g4.dot x p0
  let (g6, a0) ← g5.sigmoid d0
  let (g7, d1) ← g6.dot a0 p1
  let (g8, a1) ← g7.sigmoid d1
  let (g9, ty) ← g8.transpose y
  let (g10, df) ← g9.sub ty a1
  let (g11, sq) ← g10.square df
  let (g12, loss) ← g11.mean sq
  let (g13, grads) ← g12.gradients loss [p0, p1]
  match grads with
  | [gr0, gr1] => do
      let (g14, n0) ← g13.sub p0 gr0
      let (g15, s0) ← g14.assign p0 n0
      let (g16, n1) ← g15.sub p1 gr1
      let (g17, s1) ← g16.assign p1 n1
      let (g18, upd) ← g17.group [s0, s1]
      .ok { g := g18, xId := x, yId := y, w0Id := p0, w1Id := p1,
            lossId := loss, gradIds := [gr0, gr1], updateId := upd }
  | _ => .error .missing

/-- A one-leaf example graph (witness material). -/
def exGraph1 : Graph := (Graph.empty.tensor (Value.sc 1)).1

/-- The example graph extended with a `square` op on the leaf. -/
def exGraph2 : Graph :=
  match exGraph1.square 0 with
  | .ok p => p.1
  | .error _ => Graph.empty

/-- A graph refuting the spec's wording of the NoGradientError condition:
two leaves, an `assign` whose inputs touch only the second leaf, and an
`add` of the first leaf with the assign's output.  The assign lies off
every path from the first leaf to the loss, yet is reachable from the
loss. -/
def cexGraph : Graph :=
  match ((Graph.empty.tensor (Value.sc 1)).1.tensor (Value.sc 2)).1.assign 1 1 with
  | .ok p =>
    match p.1.add 0 p.2 with
    | .ok q => q.1
    | .error _ => Graph.empty
  | .error _ => Graph.empty

/-- A graph with no `assign` at all: one leaf and a `group` op over it
(used to exhibit the evaluator's write-back mutation of stored values). -/
def gexGraph : Graph :=
  match (Graph.empty.tensor (Value.sc 1)).1.group [0] with
  | .ok p => p.1
  | .error _ => Graph.empty

/-- The pre-update parameter value of the update-visibility counterexample. -/
def c4M : Value := Value.mt [[1, 2], [3, 4]]

/-- Its transpose: the value the update writes into the parameter. -/
def c4VT : Value := Value.mt [[1, 3], [2, 4]]

/-- A graph refuting the update-before-loss visibility claim: a matrix
parameter, a `transpose` node serving as the loss, and an `assign` writing
the transpose back into the parameter.  Resolving the assign memoizes the
loss with its pre-update value. -/
def c4Graph : Graph :=
  match (Graph.empty.tensor c4M).1.transpose 0 with
  | .ok p =>
    match p.1.assign 0 p.2 with
    | .ok q => q.1
    | .error _ => Graph.empty
  | .error _ => Graph.empty

/-- The graph left behind by running the update and loss targets. -/
def c4After : Graph := ((c4Graph.setValue 2 c4VT).setValue 0 c4VT).setValue 4 c4VT

/-! ### Basic list and lookup lemmas -/

theorem mapM_except_ok_forall {α β γ : Type} (f : α → Except γ β) :
    ∀ {l : List α} {r : List β}, l.mapM f = .ok r → ∀ a ∈ l, ∃ b, f a = .ok b := by
  intro l
  induction l with
  | nil => intro r _ a ha; cases ha
  | cons x xs ih =>
    intro r hm a ha
    rw [List.mapM_cons] at hm
    cases hfx : f x with
    | error e => rw [hfx] at hm; cases hm
    | ok b =>
      rw [hfx] at hm
      cases hrest : xs.mapM f with
      | error e => rw [hrest] at hm; cases hm
      | ok bs =>
        rw [hrest] at hm
        rcases List.mem_cons.1 ha with rfl | ha
        · exact ⟨b, hfx⟩
        · exact ih hrest a ha

theorem mapM_option_some_forall {α β : Type} (f : α → Option β) :
    ∀ {l : List α} {r : List β}, l.mapM f = some r → ∀ a ∈ l, ∃ b, f a = some b := by
  intro l
  induction l with
  | nil => intro r _ a ha; cases ha
  | cons x xs ih =>
    intro r hm a ha
    rw [List.mapM_cons] at hm
    cases hfx : f x with
    | none => rw [hfx] at hm; cases hm
    | some b =>
      rw [hfx] at hm
      cases hrest : xs.mapM f with
      | none => rw [hrest] at hm; cases hm
      | some bs =>
        rw [hrest] at hm
        rcases List.mem_cons.1 ha with rfl | ha
        · exact ⟨b, hfx⟩
        · exact ih hrest a ha

theorem find?_key_unique {α : Type} (key : α → Nat) :
    ∀ (l : List α), (l.map key).Pairwise (· < ·) →
    ∀ a ∈ l, l.find? (fun x => key x = key a) = some a := by
  intro l
  induction l with
  | nil => intro _ a ha; cases ha
  | cons b rest ih =>
    intro hp a ha
    rw [List.map_cons, List.pairwise_cons] at hp
    rcases List.mem_cons.1 ha with rfl | ha
    · simp [List.find?_cons_of_pos]
    · have hlt : key b < key a := hp.1 (key a) (List.mem_map_of_mem key ha)
      have hne : ¬ (key b = key a) := Nat.ne_of_lt hlt
      rw [List.find?_cons_of_neg _ (by simpa using hne)]
      exact ih hp.2 a ha

/-! ### Lookup lemmas for graphs -/

theorem findTensor_some {g : Graph} {tid : Nat} {t : Tensor}
    (h : g.findTensor tid = some t) : t ∈ g.tensors ∧ t.id = tid := by
  refine ⟨List.mem_of_find?_eq_some h, ?_⟩
  have := List.find?_some h
  simpa using this

theorem findOp_some {g : Graph} {oid : Nat} {o : Op}
    (h : g.findOp oid = some o) : o ∈ g.ops ∧ o.id = oid := by
  refine ⟨List.mem_of_find?_eq_some h, ?_⟩
  have := List.find?_some h
  simpa using this

theorem findTensor_of_mem {g : Graph} (hw : WFstruct g) {t : Tensor}
    (ht : t ∈ g.tensors) : g.findTensor t.id = some t :=
  find?_key_unique Tensor.id g.tensors hw.tsort t ht

theorem findOp_of_mem {g : Graph} (hw : WFstruct g) {o : Op}
    (ho : o ∈ g.ops) : g.findOp o.id = some o :=
  find?_key_unique Op.id g.ops hw.osort o ho

/-! ### Extension lemmas -/

theorem Extends.rfl (g : Graph) : Extends g g :=
  ⟨⟨[], by simp⟩, ⟨[], by simp⟩, Nat.le_refl _⟩

theorem Extends.trans {g1 g2 g3 : Graph} (h12 : Extends g1 g2) (h23 : Extends g2 g3) :
    Extends g1 g3 := by
  obtain ⟨⟨l1, hl1, hf1⟩, ⟨m1, hm1, hg1⟩, hn1⟩ := h12
  obtain ⟨⟨l2, hl2, hf2⟩, ⟨m2, hm2, hg2⟩, hn2⟩ := h23
  refine ⟨⟨l1 ++ l2, by rw [hl2, hl1, List.append_assoc], ?_⟩,
          ⟨m1 ++ m2, by rw [hm2, hm1, List.append_assoc], ?_⟩, Nat.le_trans hn1 hn2⟩
  · intro t ht
    rcases List.mem_append.1 ht with h | h
    · exact hf1 t h
    · exact Nat.le_trans hn1 (hf2 t h)
  · intro o ho
    rcases List.mem_append.1 ho with h | h
    · exact hg1 o h
    · exact Nat.le_trans hn1 (hg2 o h)

theorem findTensor_extends {g g' : Graph} {tid : Nat} {t : Tensor}
    (he : Extends g g') (h : g.findTensor tid = some t) : g'.findTensor tid = some t := by
  obtain ⟨⟨l, hl, _⟩, _, _⟩ := he
  unfold Graph.findTensor at h ⊢
  rw [hl, List.find?_append, h]
  rfl

theorem findOp_extends {g g' : Graph} {oid : Nat} {o : Op}
    (he : Extends g g') (h : g.findOp oid = some o) : g'.findOp oid = some o := by
  obtain ⟨_, ⟨l, hl, _⟩, _⟩ := he
  unfold Graph.findOp at h ⊢
  rw [hl, List.find?_append, h]
  rfl

theorem findTensor_extends_rev {g g' : Graph} {tid : Nat}
    (he : Extends g g') (hlt : tid < g.nextId) : g'.findTensor tid = g.findTensor tid := by
  obtain ⟨⟨l, hl, hf⟩, _, _⟩ := he
  unfold Graph.findTensor
  rw [hl, List.find?_append]
  cases hfind : g.tensors.find? (fun t => t.id = tid) with
  | some t => rfl
  | none =>
    have : l.find? (fun t => t.id = tid) = none := by
      rw [List.find?_eq_none]
      intro t ht
      have := hf t ht
      simp only [decide_eq_true_eq]
      omega
    rw [this]
    rfl

theorem findOp_extends_rev {g g' : Graph} {oid : Nat}
    (he : Extends g g') (hlt : oid < g.nextId) : g'.findOp oid = g.findOp oid := by
  obtain ⟨_, ⟨l, hl, hf⟩, _⟩ := he
  unfold Graph.findOp
  rw [hl, List.find?_append]
  cases hfind : g.ops.find? (fun o => o.id = oid) with
  | some o => rfl
  | none =>
    have : l.find? (fun o => o.id = oid) = none := by
      rw [List.find?_eq_none]
      intro o ho
      have := hf o ho
      simp only [decide_eq_true_eq]
      omega
    rw [this]
    rfl

theorem shapeOf_extends {g g' : Graph} {tid : Nat} {s : Shape}
    (he : Extends g g') (h : g.shapeOf tid = some s) : g'.shapeOf tid = some s := by
  unfold Graph.shapeOf at h ⊢
  cases hft : g.findTensor tid with
  | none => rw [hft] at h; cases h
  | some t => rw [hft] at h; rw [findTensor_extends he hft]; exact h

/-! ### setValue lemmas -/

theorem stripVals_setValue (g : Graph) (tid : Nat) (v : Value) :
    (g.setValue tid v).stripVals = g.stripVals := by
  unfold Graph.setValue Graph.stripVals
  simp only [Graph.mk.injEq, List.map_map]
  refine ⟨List.map_congr_left ?_, trivial, trivial⟩
  intro t _
  by_cases h : t.id = tid <;> simp [h]

theorem findTensor_setValue (g : Graph) (tid : Nat) (v : Value) (u : Nat) :
    (g.setValue tid v).findTensor u =
      (g.findTensor u).map (fun t => if t.id = tid then { t with value := some v } else t) := by
  unfold Graph.setValue Graph.findTensor
  simp only [List.find?_map]
  have hp : ((fun t : Tensor => decide (t.id = u)) ∘
      fun t => if t.id = tid then { t with value := some v } else t) =
      fun t : Tensor => decide (t.id = u) := by
    funext t
    by_cases h : t.id = tid <;> simp [h]
  rw [hp]

theorem findOp_setValue (g : Graph) (tid : Nat) (v : Value) (u : Nat) :
    (g.setValue tid v).findOp u = g.findOp u := rfl

theorem shapeOf_setValue (g : Graph) (tid : Nat) (v : Value) (u : Nat) :
    (g.setValue tid v).shapeOf u = g.shapeOf u := by
  unfold Graph.shapeOf
  rw [findTensor_setValue]
  cases g.findTensor u with
  | none => rfl
  | some t => by_cases h : t.id = tid <;> simp [h]

theorem WFstruct_setValue {g : Graph} (hw : WFstruct g) (tid : Nat) (v : Value) :
    WFstruct (g.setValue tid v) := by
  have hmem : ∀ t', t' ∈ (g.setValue tid v).tensors →
      ∃ t ∈ g.tensors, t'.id = t.id ∧ t'.producer = t.producer := by
    intro t' ht'
    simp only [Graph.setValue, List.mem_map] at ht'
    obtain ⟨t, ht, rfl⟩ := ht'
    refine ⟨t, ht, ?_, ?_⟩ <;> by_cases h : t.id = tid <;> simp [h]
  constructor
  · intro t' ht'
    obtain ⟨t, ht, hid, _⟩ := hmem t' ht'
    rw [hid]
    exact hw.tlt t ht
  · exact hw.olt
  · have heq : (g.setValue tid v).tensors.map Tensor.id = g.tensors.map Tensor.id := by
      simp only [Graph.setValue, List.map_map]
      refine List.map_congr_left ?_
      intro t _
      by_cases h : t.id = tid <;> simp [h]
    rw [heq]
    exact hw.tsort
  · exact hw.osort
  · intro t' ht' o ho
    obtain ⟨t, ht, hid, _⟩ := hmem t' ht'
    rw [hid]
    exact hw.tod t ht o ho
  · intro o ho i hi
    refine ⟨?_, (hw.oin o ho i hi).2⟩
    obtain ⟨t, ht, hid⟩ := (hw.oin o ho i hi).1
    refine ⟨(fun t => if t.id = tid then { t with value := some v } else t) t, ?_, ?_⟩
    · simp only [Graph.setValue]
      exact List.mem_map_of_mem _ ht
    · by_cases h : t.id = tid <;> simp [h] <;> omega
  · intro o ho
    refine ⟨(hw.oout o ho).1, ?_⟩
    obtain ⟨t, ht, hid, hpr⟩ := (hw.oout o ho).2
    refine ⟨(fun t => if t.id = tid then { t with value := some v } else t) t, ?_, ?_, ?_⟩
    · simp only [Graph.setValue]
      exact List.mem_map_of_mem _ ht
    · by_cases h : t.id = tid <;> simp [h] <;> omega
    · by_cases h : t.id = tid <;> simp [h] <;> exact hpr
  · intro t' ht' oid hpr
    obtain ⟨t, ht, hid, hpr'⟩ := hmem t' ht'
    rw [hid]
    exact hw.tprod t ht oid (hpr' ▸ hpr)

/-! ### Registration primitives: extension and well-formedness -/

theorem addLeaf_extends (g : Graph) (v : Value) : Extends g (g.addLeaf v).1 := by
  refine ⟨⟨_, Eq.refl _, ?_⟩, ⟨[], by simp [Graph.addLeaf], ?_⟩, by simp [Graph.addLeaf]⟩
  · intro t ht
    simp only [List.mem_singleton] at ht
    subst ht
    exact Nat.le_refl _
  · intro o ho
    cases ho

theorem addOpNode_extends (g : Graph) (k : OpKind) (args : List Nat) (s : Shape) :
    Extends g (g.addOpNode k args s).1 := by
  refine ⟨⟨_, Eq.refl _, ?_⟩, ⟨_, Eq.refl _, ?_⟩, by simp [Graph.addOpNode]⟩
  · intro t ht
    simp only [List.mem_singleton] at ht
    subst ht
    exact Nat.le_succ _
  · intro o ho
    simp only [List.mem_singleton] at ho
    subst ho
    exact Nat.le_refl _

theorem addLeaf_wf {g : Graph} (hw : WFstruct g) (v : Value) : WFstruct (g.addLeaf v).1 := by
  constructor
  · intro t ht
    rcases List.mem_append.1 ht with h | h
    · exact Nat.lt_succ_of_lt (hw.tlt t h)
    · simp only [List.mem_singleton] at h
      subst h
      exact Nat.lt_succ_self _
  · intro o ho
    exact Nat.lt_succ_of_lt (hw.olt o ho)
  · simp only [Graph.addLeaf, List.map_append, List.map_cons, List.map_nil]
    rw [List.pairwise_append]
    refine ⟨hw.tsort, by simp, ?_⟩
    intro a ha b hb
    simp only [List.mem_singleton] at hb
    subst hb
    simp only [List.mem_map] at ha
    obtain ⟨t, ht, rfl⟩ := ha
    exact hw.tlt t ht
  · exact hw.osort
  · intro t ht o ho
    rcases List.mem_append.1 ht with h | h
    · exact hw.tod t h o ho
    · simp only [List.mem_singleton] at h
      subst h
      exact Nat.ne_of_gt (hw.olt o ho)
  · intro o ho i hi
    refine ⟨?_, (hw.oin o ho i hi).2⟩
    obtain ⟨t, ht, hid⟩ := (hw.oin o ho i hi).1
    exact ⟨t, List.mem_append.2 (Or.inl ht), hid⟩
  · intro o ho
    refine ⟨(hw.oout o ho).1, ?_⟩
    obtain ⟨t, ht, hid, hpr⟩ := (hw.oout o ho).2
    exact ⟨t, List.mem_append.2 (Or.inl ht), hid, hpr⟩
  · intro t ht oid hpr
    rcases List.mem_append.1 ht with h | h
    · obtain ⟨o, ho, h1, h2, h3⟩ := hw.tprod t h oid hpr
      exact ⟨o, ho, h1, h2, h3⟩
    · simp only [List.mem_singleton] at h
      subst h
      cases hpr

theorem addOpNode_wf {g : Graph} (hw : WFstruct g) (k : OpKind) (args : List Nat) (s : Shape)
    (hargs : ∀ i ∈ args, ∃ t ∈ g.tensors, t.id = i) : WFstruct (g.addOpNode k args s).1 := by
  constructor
  · intro t ht
    rcases List.mem_append.1 ht with h | h
    · have := hw.tlt t h
      simp only [Graph.addOpNode]
      omega
    · simp only [List.mem_singleton] at h
      subst h
      simp [Graph.addOpNode]
  · intro o ho
    rcases List.mem_append.1 ho with h | h
    · have := hw.olt o h
      simp only [Graph.addOpNode]
      omega
    · simp only [List.mem_singleton] at h
      subst h
      simp [Graph.addOpNode]
  · simp only [Graph.addOpNode, List.map_append, List.map_cons, List.map_nil]
    rw [List.pairwise_append]
    refine ⟨hw.tsort, by simp, ?_⟩
    intro a ha b hb
    simp only [List.mem_singleton] at hb
    subst hb
    simp only [List.mem_map] at ha
    obtain ⟨t, ht, rfl⟩ := ha
    exact Nat.lt_succ_of_lt (hw.tlt t ht)
  · simp only [Graph.addOpNode, List.map_append, List.map_cons, List.map_nil]
    rw [List.pairwise_append]
    refine ⟨hw.osort, by simp, ?_⟩
    intro a ha b hb
    simp only [List.mem_singleton] at hb
    subst hb
    simp only [List.mem_map] at ha
    obtain ⟨o, ho, rfl⟩ := ha
    exact hw.olt o ho
  · intro t ht o ho
    rcases List.mem_append.1 ht with h1 | h1 <;> rcases List.mem_append.1 ho with h2 | h2
    · exact hw.tod t h1 o h2
    · simp only [List.mem_singleton] at h2
      subst h2
      exact Nat.ne_of_lt (hw.tlt t h1)
    · simp only [List.mem_singleton] at h1
      subst h1
      have := hw.olt o h2
      simp only [Graph.addOpNode]
      omega
    · simp only [List.mem_singleton] at h1 h2
      subst h1
      subst h2
      simp [Graph.addOpNode]
  · intro o ho i hi
    rcases List.mem_append.1 ho with h | h
    · refine ⟨?_, (hw.oin o h i hi).2⟩
      obtain ⟨t, ht, hid⟩ := (hw.oin o h i hi).1
      exact ⟨t, List.mem_append.2 (Or.inl ht), hid⟩
    · simp only [List.mem_singleton] at h
      subst h
      simp only at hi
      obtain ⟨t, ht, hid⟩ := hargs i hi
      refine ⟨⟨t, List.mem_append.2 (Or.inl ht), hid⟩, ?_⟩
      have := hw.tlt t ht
      show i < g.nextId
      omega
  · intro o ho
    rcases List.mem_append.1 ho with h | h
    · refine ⟨(hw.oout o h).1, ?_⟩
      obtain ⟨t, ht, hid, hpr⟩ := (hw.oout o h).2
      exact ⟨t, List.mem_append.2 (Or.inl ht), hid, hpr⟩
    · simp only [List.mem_singleton] at h
      subst h
      refine ⟨by simp, ?_⟩
      refine ⟨_, List.mem_append.2 (Or.inr (List.mem_singleton.2 (Eq.refl _))), ?_, ?_⟩ <;> simp
  · intro t ht oid hpr
    rcases List.mem_append.1 ht with h | h
    · obtain ⟨o, ho, h1, h2, h3⟩ := hw.tprod t h oid hpr
      exact ⟨o, List.mem_append.2 (Or.inl ho), h1, h2, h3⟩
    · simp only [List.mem_singleton] at h
      subst h
      simp only at hpr
      cases hpr
      refine ⟨_, List.mem_append.2 (Or.inr (List.mem_singleton.2 (Eq.refl _))), ?_, ?_, ?_⟩ <;> simp

theorem addLeaf_findTensor_new {g : Graph} (hw : WFstruct g) (v : Value) :
    (g.addLeaf v).1.findTensor g.nextId =
      some { id := g.nextId, producer := none, value := some v, shape := v.shape } := by
  unfold Graph.addLeaf Graph.findTensor
  rw [List.find?_append]
  have h1 : g.tensors.find? (fun t => t.id = g.nextId) = none := by
    rw [List.find?_eq_none]
    intro t ht
    have := hw.tlt t ht
    simp only [decide_eq_true_eq]
    omega
  rw [h1]
  simp

theorem addOpNode_findTensor_new {g : Graph} (hw : WFstruct g) (k : OpKind) (args : List Nat) (s : Shape) :
    (g.addOpNode k args s).1.findTensor (g.nextId + 1) =
      some { id := g.nextId + 1, producer := some g.nextId, value := none, shape := s } := by
  unfold Graph.addOpNode Graph.findTensor
  rw [List.find?_append]
  have h1 : g.tensors.find? (fun t => t.id = g.nextId + 1) = none := by
    rw [List.find?_eq_none]
    intro t ht
    have := hw.tlt t ht
    simp only [decide_eq_true_eq]
    omega
  rw [h1]
  simp

theorem addOpNode_findOp_new {g : Graph} (hw : WFstruct g) (k : OpKind) (args : List Nat) (s : Shape) :
    (g.addOpNode k args s).1.findOp g.nextId =
      some { id := g.nextId, kind := k, inputs := args, out := g.nextId + 1 } := by
  unfold Graph.addOpNode Graph.findOp
  rw [List.find?_append]
  have h1 : g.ops.find? (fun o => o.id = g.nextId) = none := by
    rw [List.find?_eq_none]
    intro o ho
    have := hw.olt o ho
    simp only [decide_eq_true_eq]
    omega
  rw [h1]
  simp

/-! ### Factory characterization -/

theorem shapesExcept_eq_option (g : Graph) :
    ∀ (args : List Nat) (shapes : List Shape),
    (args.mapM (fun a => match g.findTensor a with
      | some t => Except.ok t.shape
      | none => Except.error GErr.missing) = Except.ok shapes) ↔
    args.mapM g.shapeOf = some shapes := by
  intro args
  induction args with
  | nil =>
    intro shapes
    rw [List.mapM_nil, List.mapM_nil]
    constructor <;> intro h
    · have h' : ([] : List Shape) = shapes := by
        have h2 : Except.ok ([] : List Shape) = Except.ok shapes := h
        injection h2
      rw [← h']
      rfl
    · have h' : ([] : List Shape) = shapes := by
        have h2 : some ([] : List Shape) = some shapes := h
        injection h2
      rw [← h']
      rfl
  | cons a rest ih =>
    intro shapes
    rw [List.mapM_cons, List.mapM_cons]
    cases hft : g.findTensor a with
    | none =>
      simp only [Graph.shapeOf, hft, Option.map_none]
      constructor <;> intro h
      · exact absurd h (by intro h2; exact Except.noConfusion h2)
      · exact absurd h (by intro h2; exact Option.noConfusion h2)
    | some t =>
      simp only [Graph.shapeOf, hft, Option.map_some]
      constructor
      · intro h
        cases hrest : rest.mapM (fun a => match g.findTensor a with
          | some t => Except.ok t.shape
          | none => Except.error GErr.missing) with
        | error e =>
          rw [hrest] at h
          exact absurd h (by intro h2; exact Except.noConfusion h2)
        | ok l =>
          rw [hrest] at h
          rw [(ih l).1 hrest]
          have h2 : Except.ok (t.shape :: l) = Except.ok shapes := h
          have h3 : t.shape :: l = shapes := by injection h2
          show some (t.shape :: l) = some shapes
          exact congrArg some h3
      · intro h
        cases hrest : rest.mapM g.shapeOf with
        | none =>
          rw [hrest] at h
          exact absurd h (by intro h2; exact Option.noConfusion h2)
        | some l =>
          rw [hrest] at h
          have he : rest.mapM (fun a => match g.findTensor a with
            | some t => Except.ok t.shape
            | none => Except.error GErr.missing) = Except.ok l := (ih l).2 hrest
          rw [he]
          have h2 : some (t.shape :: l) = some shapes := h
          have h3 : t.shape :: l = shapes := by injection h2
          show Except.ok (t.shape :: l) = Except.ok shapes
          exact congrArg Except.ok h3

theorem opFactory_ok_spec {g : Graph} {k : OpKind} {args : List Nat} {g' : Graph} {tid : Nat}
    (h : g.opFactory k args = .ok (g', tid)) :
    ∃ shapes outS, args.mapM g.shapeOf = some shapes ∧ opShape k shapes = some outS ∧
      (g', tid) = g.addOpNode k args outS := by
  unfold Graph.opFactory at h
  cases hm : args.mapM (fun a => match g.findTensor a with
      | some t => Except.ok t.shape
      | none => Except.error GErr.missing) with
  | error e =>
    rw [hm] at h
    exact absurd h (by intro h2; exact Except.noConfusion h2)
  | ok shapes =>
    rw [hm] at h
    have h' : (match opShape k shapes with
      | some outS => Except.ok (g.addOpNode k args outS)
      | none => Except.error GErr.shape) = Except.ok (g', tid) := h
    cases hos : opShape k shapes with
    | none =>
      rw [hos] at h'
      exact absurd h' (by intro h2; exact Except.noConfusion h2)
    | some outS =>
      rw [hos] at h'
      refine ⟨shapes, outS, (shapesExcept_eq_option g args shapes).1 hm, hos, ?_⟩
      have h3 : g.addOpNode k args outS = (g', tid) := by injection h'
      rw [h3]

theorem opFactory_args_exist {g : Graph} {k : OpKind} {args : List Nat} {g' : Graph} {tid : Nat}
    (h : g.opFactory k args = .ok (g', tid)) :
    ∀ i ∈ args, ∃ t ∈ g.tensors, t.id = i := by
  obtain ⟨shapes, outS, hm, _, _⟩ := opFactory_ok_spec h
  intro i hi
  obtain ⟨s, hs⟩ := mapM_option_some_forall g.shapeOf hm i hi
  unfold Graph.shapeOf at hs
  cases hft : g.findTensor i with
  | none => rw [hft] at hs; cases hs
  | some t =>
    obtain ⟨hmem, hid⟩ := findTensor_some hft
    exact ⟨t, hmem, hid⟩

theorem opFactory_extends {g : Graph} {k : OpKind} {args : List Nat} {g' : Graph} {tid : Nat}
    (h : g.opFactory k args = .ok (g', tid)) : Extends g g' := by
  obtain ⟨shapes, outS, _, _, heq⟩ := opFactory_ok_spec h
  have : g' = (g.addOpNode k args outS).1 := congrArg Prod.fst heq
  rw [this]
  exact addOpNode_extends g k args outS

theorem opFactory_wf {g : Graph} {k : OpKind} {args : List Nat} {g' : Graph} {tid : Nat}
    (hw : WFstruct g) (h : g.opFactory k args = .ok (g', tid)) : WFstruct g' := by
  obtain ⟨shapes, outS, _, _, heq⟩ := opFactory_ok_spec h
  have : g' = (g.addOpNode k args outS).1 := congrArg Prod.fst heq
  rw [this]
  exact addOpNode_wf hw k args outS (opFactory_args_exist h)

/-! ### Bind eliminators -/

theorem except_bind_ok {α β γ : Type} {x : Except γ α} {f : α → Except γ β} {b : β}
    (h : (x >>= f) = .ok b) : ∃ a, x = .ok a ∧ f a = .ok b := by
  cases x with
  | error e => exact absurd h (by intro h2; exact Except.noConfusion h2)
  | ok a => exact ⟨a, rfl, h⟩

theorem option_bind_some {α β : Type} {x : Option α} {f : α → Option β} {b : β}
    (h : (x >>= f) = some b) : ∃ a, x = some a ∧ f a = some b := by
  cases x with
  | none => exact absurd h (by intro h2; exact Option.noConfusion h2)
  | some a => exact ⟨a, rfl, h⟩

theorem except_ok_inj {α γ : Type} {a b : α} (h : (Except.ok a : Except γ α) = .ok b) : a = b := by
  injection h

/-! ### Extension and well-formedness through gradient synthesis -/

theorem backward_ok_basic {g : Graph} {o : Op} {gradOut : Nat} {g' : Graph} {cs : List Nat}
    (h : backward g o gradOut = .ok (g', cs)) :
    Extends g g' ∧ (WFstruct g → WFstruct g') ∧ cs.length = o.inputs.length := by
  obtain ⟨oid, k, inputs, oout⟩ := o
  cases k <;> simp only [backward] at h
  case add =>
    match inputs, h with
    | [x, y], h =>
      obtain ⟨rfl, rfl⟩ : g = g' ∧ [gradOut, gradOut] = cs := by
        have h2 := except_ok_inj h
        exact ⟨congrArg Prod.fst h2, congrArg Prod.snd h2⟩
      exact ⟨Extends.rfl g, fun hw => hw, rfl⟩
  case sub =>
    match inputs, h with
    | [x, y], h =>
      obtain ⟨⟨g2, gb⟩, h1, h2⟩ := except_bind_ok h
      have h3 := except_ok_inj h2
      obtain ⟨rfl, rfl⟩ : g2 = g' ∧ [gradOut, gb] = cs :=
        ⟨congrArg Prod.fst h3, congrArg Prod.snd h3⟩
      refine ⟨Extends.trans (addLeaf_extends g _) (opFactory_extends h1), ?_, rfl⟩
      intro hw
      exact opFactory_wf (addLeaf_wf hw _) h1
  case mul =>
    match inputs, h with
    | [a, b], h =>
      obtain ⟨⟨g1, ga⟩, h1, h⟩ := except_bind_ok h
      obtain ⟨⟨g2, gb⟩, h2, h⟩ := except_bind_ok h
      have h3 := except_ok_inj h
      obtain ⟨rfl, rfl⟩ : g2 = g' ∧ [ga, gb] = cs :=
        ⟨congrArg Prod.fst h3, congrArg Prod.snd h3⟩
      refine ⟨Extends.trans (opFactory_extends h1) (opFactory_extends h2), ?_, rfl⟩
      intro hw
      exact opFactory_wf (opFactory_wf hw h1) h2
  case dot =>
    match inputs, h with
    | [a, b], h =>
      obtain ⟨⟨g1, bt⟩, h1, h⟩ := except_bind_ok h
      obtain ⟨⟨g2, ga⟩, h2, h⟩ := except_bind_ok h
      obtain ⟨⟨g3, ta⟩, h3, h⟩ := except_bind_ok h
      obtain ⟨⟨g4, gb⟩, h4, h⟩ := except_bind_ok h
      have h5 := except_ok_inj h
      obtain ⟨rfl, rfl⟩ : g4 = g' ∧ [ga, gb] = cs :=
        ⟨congrArg Prod.fst h5, congrArg Prod.snd h5⟩
      refine ⟨Extends.trans (opFactory_extends h1) (Extends.trans (opFactory_extends h2)
        (Extends.trans (opFactory_extends h3) (opFactory_extends h4))), ?_, rfl⟩
      intro hw
      exact opFactory_wf (opFactory_wf (opFactory_wf (opFactory_wf hw h1) h2) h3) h4
  case transpose =>
    match inputs, h with
    | [a], h =>
      obtain ⟨⟨g1, gt⟩, h1, h⟩ := except_bind_ok h
      have h2 := except_ok_inj h
      obtain ⟨rfl, rfl⟩ : g1 = g' ∧ [gt] = cs :=
        ⟨congrArg Prod.fst h2, congrArg Prod.snd h2⟩
      exact ⟨opFactory_extends h1, fun hw => opFactory_wf hw h1, rfl⟩
  case sigmoid =>
    match inputs, h with
    | [a], h =>
      obtain ⟨⟨g2, om⟩, h1, h⟩ := except_bind_ok h
      obtain ⟨⟨g3, s1⟩, h2, h⟩ := except_bind_ok h
      obtain ⟨⟨g4, gi⟩, h3, h⟩ := except_bind_ok h
      have h4 := except_ok_inj h
      obtain ⟨rfl, rfl⟩ : g4 = g' ∧ [gi] = cs :=
        ⟨congrArg Prod.fst h4, congrArg Prod.snd h4⟩
      refine ⟨Extends.trans (addLeaf_extends g _) (Extends.trans (opFactory_extends h1)
        (Extends.trans (opFactory_extends h2) (opFactory_extends h3))), ?_, rfl⟩
      intro hw
      exact opFactory_wf (opFactory_wf (opFactory_wf (addLeaf_wf hw _) h1) h2) h3
  case square =>
    match inputs, h with
    | [a], h =>
      obtain ⟨⟨g2, ta⟩, h1, h⟩ := except_bind_ok h
      obtain ⟨⟨g3, gi⟩, h2, h⟩ := except_bind_ok h
      have h3 := except_ok_inj h
      obtain ⟨rfl, rfl⟩ : g3 = g' ∧ [gi] = cs :=
        ⟨congrArg Prod.fst h3, congrArg Prod.snd h3⟩
      refine ⟨Extends.trans (addLeaf_extends g _) (Extends.trans (opFactory_extends h1)
        (opFactory_extends h2)), ?_, rfl⟩
      intro hw
      exact opFactory_wf (opFactory_wf (addLeaf_wf hw _) h1) h2
  case mean =>
    match inputs, h with
    | [a], h =>
      replace h : meanBackward g a gradOut = .ok (g', cs) := h
      unfold meanBackward at h
      cases hft : g.findTensor a with
      | none => rw [hft] at h; exact absurd h (by intro h2; exact Except.noConfusion h2)
      | some t =>
        rw [hft] at h
        obtain ⟨tid2, tpr2, tval2, tsh2⟩ := t
        cases tsh2 with
        | sc => exact absurd h (by intro h2; exact Except.noConfusion h2)
        | un => exact absurd h (by intro h2; exact Except.noConfusion h2)
        | mt r c =>
          obtain ⟨⟨g2, gi⟩, h1, h⟩ := except_bind_ok h
          have h2 := except_ok_inj h
          obtain ⟨rfl, rfl⟩ : g2 = g' ∧ [gi] = cs :=
            ⟨congrArg Prod.fst h2, congrArg Prod.snd h2⟩
          refine ⟨Extends.trans (addLeaf_extends g _) (opFactory_extends h1), ?_, rfl⟩
          intro hw
          exact opFactory_wf (addLeaf_wf hw _) h1
  case assign => exact absurd h (by intro h2; exact Except.noConfusion h2)
  case group => exact absurd h (by intro h2; exact Except.noConfusion h2)

theorem accumGrad_ok_basic {g : Graph} {m : AccMap} {tid gid : Nat} {g' : Graph} {m' : AccMap}
    (h : accumGrad g m tid gid = .ok (g', m')) :
    Extends g g' ∧ (WFstruct g → WFstruct g') := by
  unfold accumGrad at h
  cases hl : lookupAcc m tid with
  | none =>
    rw [hl] at h
    have h2 := except_ok_inj h
    have : g = g' := congrArg Prod.fst h2
    rw [← this]
    exact ⟨Extends.rfl g, fun hw => hw⟩
  | some old =>
    rw [hl] at h
    obtain ⟨⟨g1, sacc⟩, h1, h⟩ := except_bind_ok h
    have h2 := except_ok_inj h
    have : g1 = g' := congrArg Prod.fst h2
    rw [← this]
    exact ⟨opFactory_extends h1, fun hw => opFactory_wf hw h1⟩

theorem accumList_ok_basic :
    ∀ {pairs : List (Nat × Nat)} {g : Graph} {m : AccMap} {g' : Graph} {m' : AccMap},
    accumList g m pairs = .ok (g', m') → Extends g g' ∧ (WFstruct g → WFstruct g') := by
  intro pairs
  induction pairs with
  | nil =>
    intro g m g' m' h
    have h2 := except_ok_inj h
    have : g = g' := congrArg Prod.fst h2
    rw [← this]
    exact ⟨Extends.rfl g, fun hw => hw⟩
  | cons p rest ih =>
    intro g m g' m' h
    obtain ⟨t, c⟩ := p
    simp only [accumList] at h
    obtain ⟨⟨g1, m1⟩, h1, h⟩ := except_bind_ok h
    obtain ⟨he1, hw1⟩ := accumGrad_ok_basic h1
    obtain ⟨he2, hw2⟩ := ih h
    exact ⟨Extends.trans he1 he2, fun hw => hw2 (hw1 hw)⟩

theorem gradLoop_ok_basic :
    ∀ {ids : List Nat} {g : Graph} {m : AccMap} {g' : Graph} {m' : AccMap},
    gradLoop g m ids = .ok (g', m') → Extends g g' ∧ (WFstruct g → WFstruct g') := by
  intro ids
  induction ids with
  | nil =>
    intro g m g' m' h
    have h2 := except_ok_inj h
    have : g = g' := congrArg Prod.fst h2
    rw [← this]
    exact ⟨Extends.rfl g, fun hw => hw⟩
  | cons tid rest ih =>
    intro g m g' m' h
    simp only [gradLoop] at h
    cases hl : lookupAcc m tid with
    | none =>
      rw [hl] at h
      exact ih h
    | some gid =>
      rw [hl] at h
      cases hp : g.producerOf tid with
      | none =>
        rw [hp] at h
        exact ih h
      | some o =>
        rw [hp] at h
        obtain ⟨⟨g1, contribs⟩, h1, h⟩ := except_bind_ok h
        obtain ⟨⟨g2, m2⟩, h2, h⟩ := except_bind_ok h
        obtain ⟨he1, hw1, _⟩ := backward_ok_basic h1
        obtain ⟨he2, hw2⟩ := accumList_ok_basic h2
        obtain ⟨he3, hw3⟩ := ih h
        exact ⟨Extends.trans he1 (Extends.trans he2 he3), fun hw => hw3 (hw2 (hw1 hw))⟩

theorem collectGrads_ok_basic :
    ∀ {wrt : List Nat} {g : Graph} {m : AccMap} {g' : Graph} {l : List Nat},
    collectGrads g m wrt = .ok (g', l) → Extends g g' ∧ (WFstruct g → WFstruct g') ∧ l.length = wrt.length := by
  intro wrt
  induction wrt with
  | nil =>
    intro g m g' l h
    have h2 := except_ok_inj h
    obtain ⟨rfl, rfl⟩ : g = g' ∧ ([] : List Nat) = l :=
      ⟨congrArg Prod.fst h2, congrArg Prod.snd h2⟩
    exact ⟨Extends.rfl g, fun hw => hw, rfl⟩
  | cons w rest ih =>
    intro g m g' l h
    simp only [collectGrads] at h
    cases hl : lookupAcc m w with
    | some a =>
      rw [hl] at h
      obtain ⟨⟨g1, l1⟩, h1, h⟩ := except_bind_ok h
      have h2 := except_ok_inj h
      obtain ⟨rfl, rfl⟩ : g1 = g' ∧ a :: l1 = l :=
        ⟨congrArg Prod.fst h2, congrArg Prod.snd h2⟩
      obtain ⟨he, hwp, hlen⟩ := ih h1
      exact ⟨he, hwp, by simpa using hlen⟩
    | none =>
      rw [hl] at h
      cases hft : g.findTensor w with
      | none => rw [hft] at h; exact absurd h (by intro h2; exact Except.noConfusion h2)
      | some t =>
        rw [hft] at h
        obtain ⟨⟨g2, l1⟩, h1, h⟩ := except_bind_ok h
        have h2 := except_ok_inj h
        obtain ⟨rfl, rfl⟩ : g2 = g' ∧ (g.tensor (zeroValue t.shape)).2 :: l1 = l :=
          ⟨congrArg Prod.fst h2, congrArg Prod.snd h2⟩
        obtain ⟨he, hwp, hlen⟩ := ih h1
        refine ⟨Extends.trans (addLeaf_extends g _) he, ?_, by simpa using hlen⟩
        intro hw
        exact hwp (addLeaf_wf hw _)

theorem gradients_ok_basic {g : Graph} {loss : Nat} {wrt : List Nat} {g' : Graph} {l : List Nat}
    (h : g.gradients loss wrt = .ok (g', l)) :
    Extends g g' ∧ (WFstruct g → WFstruct g') ∧ l.length = wrt.length := by
  unfold Graph.gradients at h
  cases hft : g.findTensor loss with
  | none => rw [hft] at h; exact absurd h (by intro h2; exact Except.noConfusion h2)
  | some lt =>
    rw [hft] at h
    obtain ⟨⟨g2, m⟩, h1, h2⟩ := except_bind_ok h
    obtain ⟨he1, hw1⟩ := gradLoop_ok_basic h1
    obtain ⟨he2, hw2, hlen⟩ := collectGrads_ok_basic h2
    refine ⟨Extends.trans (addLeaf_extends g _) (Extends.trans he1 he2), ?_, hlen⟩
    intro hw
    exact hw2 (hw1 (addLeaf_wf hw _))

/-! ### Structure transfer and uniqueness -/

theorem strip_eq_fields {t t' : Tensor}
    (h : ({ t with value := none } : Tensor) = { t' with value := none }) :
    t.id = t'.id ∧ t.producer = t'.producer ∧ t.shape = t'.shape := by
  have h1 := congrArg Tensor.id h
  have h2 := congrArg Tensor.producer h
  have h3 := congrArg Tensor.shape h
  exact ⟨h1, h2, h3⟩

theorem WFstruct_of_stripVals_eq {g g' : Graph}
    (h : g.stripVals = g'.stripVals) (hw : WFstruct g) : WFstruct g' := by
  have hts0 := congrArg Graph.tensors h
  have hts : g.tensors.map (fun t => { t with value := none }) =
      g'.tensors.map (fun t => { t with value := none }) := hts0
  have hos0 := congrArg Graph.ops h
  have hos : g.ops = g'.ops := hos0
  have hn0 := congrArg Graph.nextId h
  have hn : g.nextId = g'.nextId := hn0
  have hmem : ∀ t' ∈ g'.tensors, ∃ t ∈ g.tensors,
      t.id = t'.id ∧ t.producer = t'.producer ∧ t.shape = t'.shape := by
    intro t' ht'
    have : ({ t' with value := none } : Tensor) ∈
        g.tensors.map (fun t => { t with value := none }) := by
      rw [hts]
      exact List.mem_map_of_mem _ ht'
    obtain ⟨t, ht, heq⟩ := List.mem_map.1 this
    exact ⟨t, ht, strip_eq_fields heq⟩
  have hid : g'.tensors.map Tensor.id = g.tensors.map Tensor.id := by
    have e1 : g'.tensors.map Tensor.id =
        (g'.tensors.map (fun t => { t with value := none })).map Tensor.id := by
      rw [List.map_map]
      rfl
    have e2 : g.tensors.map Tensor.id =
        (g.tensors.map (fun t => { t with value := none })).map Tensor.id := by
      rw [List.map_map]
      rfl
    rw [e1, e2, hts]
  constructor
  · intro t' ht'
    obtain ⟨t, ht, h1, _, _⟩ := hmem t' ht'
    rw [← h1, ← hn]
    exact hw.tlt t ht
  · intro o ho
    rw [← hn]
    exact hw.olt o (hos ▸ ho)
  · rw [hid]
    exact hw.tsort
  · rw [← hos]
    exact hw.osort
  · intro t' ht' o ho
    obtain ⟨t, ht, h1, _, _⟩ := hmem t' ht'
    rw [← h1]
    exact hw.tod t ht o (hos ▸ ho)
  · intro o ho i hi
    have ho' : o ∈ g.ops := hos ▸ ho
    refine ⟨?_, (hw.oin o ho' i hi).2⟩
    obtain ⟨t, ht, hid2⟩ := (hw.oin o ho' i hi).1
    have : ({ t with value := none } : Tensor) ∈
        g'.tensors.map (fun t => { t with value := none }) := by
      rw [← hts]
      exact List.mem_map_of_mem _ ht
    obtain ⟨t', ht', heq⟩ := List.mem_map.1 this
    obtain ⟨e1, _, _⟩ := strip_eq_fields heq.symm
    exact ⟨t', ht', by rw [e1] at hid2; exact hid2⟩
  · intro o ho
    have ho' : o ∈ g.ops := hos ▸ ho
    refine ⟨(hw.oout o ho').1, ?_⟩
    obtain ⟨t, ht, hid2, hpr⟩ := (hw.oout o ho').2
    have : ({ t with value := none } : Tensor) ∈
        g'.tensors.map (fun t => { t with value := none }) := by
      rw [← hts]
      exact List.mem_map_of_mem _ ht
    obtain ⟨t', ht', heq⟩ := List.mem_map.1 this
    obtain ⟨e1, e2, _⟩ := strip_eq_fields heq.symm
    exact ⟨t', ht', by rw [e1] at hid2; exact hid2, by rw [e2] at hpr; exact hpr⟩
  · intro t' ht' oid hpr
    obtain ⟨t, ht, h1, h2, _⟩ := hmem t' ht'
    obtain ⟨o, ho, e1, e2, e3⟩ := hw.tprod t ht oid (by rw [h2]; exact hpr)
    exact ⟨o, hos ▸ ho, e1, by rw [← h1]; exact e2, by rw [← h1]; exact e3⟩

theorem ops_id_unique {g : Graph} (hw : WFstruct g) {o1 o2 : Op}
    (h1 : o1 ∈ g.ops) (h2 : o2 ∈ g.ops) (h : o1.id = o2.id) : o1 = o2 := by
  have f1 : g.findOp o1.id = some o1 := findOp_of_mem hw h1
  have f2 : g.findOp o2.id = some o2 := findOp_of_mem hw h2
  rw [h, f2] at f1
  injection f1 with he
  exact he.symm

theorem tensors_id_unique {g : Graph} (hw : WFstruct g) {t1 t2 : Tensor}
    (h1 : t1 ∈ g.tensors) (h2 : t2 ∈ g.tensors) (h : t1.id = t2.id) : t1 = t2 := by
  have f1 : g.findTensor t1.id = some t1 := findTensor_of_mem hw h1
  have f2 : g.findTensor t2.id = some t2 := findTensor_of_mem hw h2
  rw [h, f2] at f1
  injection f1 with he
  exact he.symm

theorem lookupMemo_cons_self (m : List (Nat × Value)) (tid : Nat) (v : Value) :
    lookupMemo ((tid, v) :: m) tid = some v := by
  unfold lookupMemo
  rw [List.find?_cons_of_pos _ (by simp)]
  rfl

/-! ### Master facts about one evaluator call -/

theorem memoKeys_append (a b : List (Nat × Value)) :
    memoKeys (a ++ b) = memoKeys a ++ memoKeys b := List.map_append _ a b

theorem memoKeys_cons (t : Nat) (v : Value) (m : List (Nat × Value)) :
    memoKeys ((t, v) :: m) = t :: memoKeys m := rfl

theorem evalMaster (sig : ℚ → ℚ) : ∀ fuel : Nat,
    (∀ s tid v s', WFstruct s.g → evalT sig fuel s tid = .ok (v, s') →
      s'.g.stripVals = s.g.stripVals ∧
      (∃ A, s'.memo = A ++ s.memo ∧ ∀ k ∈ memoKeys A, k ≤ tid) ∧
      (∃ D, s'.trace = s.trace ++ D) ∧
      lookupMemo s'.memo tid = some v) ∧
    (∀ s l vs s', WFstruct s.g → evalArgs sig fuel s l = .ok (vs, s') →
      s'.g.stripVals = s.g.stripVals ∧
      (∃ A, s'.memo = A ++ s.memo ∧ ∀ k ∈ memoKeys A, ∃ a ∈ l, k ≤ a) ∧
      (∃ D, s'.trace = s.trace ++ D)) := by
  intro fuel
  induction fuel with
  | zero =>
    constructor
    · intro s tid v s' _ h
      rw [evalT] at h
      exact absurd h (by intro h2; exact Except.noConfusion h2)
    · intro s l vs s' hw h
      cases l with
      | nil =>
        rw [evalArgs] at h
        have h2 := except_ok_inj h
        have hs : s = s' := congrArg Prod.snd h2
        subst hs
        exact ⟨rfl, ⟨[], by simp, by simp [memoKeys]⟩, ⟨[], by simp⟩⟩
      | cons a rest =>
        rw [evalArgs] at h
        obtain ⟨⟨v1, s1⟩, h1, h⟩ := except_bind_ok h
        rw [evalT] at h1
        exact absurd h1 (by intro h2; exact Except.noConfusion h2)
  | succ f ih =>
    obtain ⟨ihT, ihA⟩ := ih
    have hT : ∀ s tid v s', WFstruct s.g → evalT sig (f + 1) s tid = .ok (v, s') →
        s'.g.stripVals = s.g.stripVals ∧
        (∃ A, s'.memo = A ++ s.memo ∧ ∀ k ∈ memoKeys A, k ≤ tid) ∧
        (∃ D, s'.trace = s.trace ++ D) ∧
        lookupMemo s'.memo tid = some v := by
      intro s tid v s' hw h
      rw [evalT] at h
      split at h
      case _ v0 hmm =>
        have h2 := except_ok_inj h
        have hv : v0 = v := congrArg Prod.fst h2
        have hs : s = s' := congrArg Prod.snd h2
        subst hs
        subst hv
        exact ⟨rfl, ⟨[], by simp, by simp [memoKeys]⟩, ⟨[], by simp⟩, hmm⟩
      case _ hmm =>
        split at h
        case _ hft => exact absurd h (by intro h2; exact Except.noConfusion h2)
        case _ t hft =>
          split at h
          case _ hpr =>
            split at h
            case _ v0 hv =>
              have h2 := except_ok_inj h
              have hveq : v0 = v := congrArg Prod.fst h2
              have hs : ({ s with memo := (tid, v0) :: s.memo } : EvalSt) = s' := congrArg Prod.snd h2
              rw [← hs, ← hveq]
              exact ⟨rfl, ⟨[(tid, v0)], rfl, by simp [memoKeys]⟩, ⟨[], by simp⟩,
                lookupMemo_cons_self s.memo tid v0⟩
            case _ hv => exact absurd h (by intro h2; exact Except.noConfusion h2)
          case _ oid hpr =>
            split at h
            case _ hfo => exact absurd h (by intro h2; exact Except.noConfusion h2)
            case _ o hfo =>
              have htm := findTensor_some hft
              obtain ⟨o', ho', hoid', hout', hlt'⟩ := hw.tprod t htm.1 oid hpr
              have hom := findOp_some hfo
              have hoeq : o = o' := by
                apply ops_id_unique hw hom.1 ho'
                rw [hom.2, hoid']
              have hidlt : oid < tid := by
                rw [htm.2] at hlt'
                exact hlt'
              split at h
              case _ hk =>
                split at h
                case _ tgt src hinp =>
                  obtain ⟨⟨v1, s1⟩, h1, h⟩ := except_bind_ok h
                  rw [applyAssign] at h
                  have h2 := except_ok_inj h
                  have hveq : v1 = v := congrArg Prod.fst h2
                  have hs : _ = s' := congrArg Prod.snd h2
                  rw [← hs, ← hveq]
                  obtain ⟨e1, ⟨A1, hm1, hk1⟩, ⟨D1, ht1⟩, _⟩ := ihT s src v1 s1 hw h1
                  have hsrc : src < tid := by
                    have := (hw.oin o hom.1 src (by rw [hinp]; simp)).2
                    rw [hom.2] at this
                    omega
                  refine ⟨?_, ⟨(tid, v1) :: A1, by rw [hm1]; rfl, ?_⟩,
                    ⟨D1 ++ [oid], by rw [ht1, List.append_assoc]⟩, ?_⟩
                  · show ((s1.g.setValue tgt v1).setValue tid v1).stripVals = s.g.stripVals
                    rw [stripVals_setValue, stripVals_setValue]
                    exact e1
                  · intro k hkk
                    rw [memoKeys_cons] at hkk
                    rcases List.mem_cons.1 hkk with rfl | hke
                    · omega
                    · have := hk1 k hke
                      omega
                  · exact lookupMemo_cons_self s1.memo tid v1
                case _ hinp => exact absurd h (by intro h2; exact Except.noConfusion h2)
              case _ k hk =>
                obtain ⟨⟨vs1, s1⟩, h1, h⟩ := except_bind_ok h
                rw [applyForward] at h
                split at h
                case _ v0 hfw =>
                  have h2 := except_ok_inj h
                  have hveq : v0 = v := congrArg Prod.fst h2
                  have hs : _ = s' := congrArg Prod.snd h2
                  rw [← hs, ← hveq]
                  obtain ⟨e1, ⟨A1, hm1, hk1⟩, ⟨D1, ht1⟩⟩ := ihA s o.inputs vs1 s1 hw h1
                  refine ⟨?_, ⟨(tid, v0) :: A1, by rw [hm1]; rfl, ?_⟩,
                    ⟨D1 ++ [oid], by rw [ht1, List.append_assoc]⟩, ?_⟩
                  · show (s1.g.setValue tid v0).stripVals = s.g.stripVals
                    rw [stripVals_setValue]
                    exact e1
                  · intro k2 hkk
                    rw [memoKeys_cons] at hkk
                    rcases List.mem_cons.1 hkk with rfl | hke
                    · omega
                    · obtain ⟨a, ha, hle⟩ := hk1 k2 hke
                      have := (hw.oin o hom.1 a ha).2
                      rw [hom.2] at this
                      omega
                  · exact lookupMemo_cons_self s1.memo tid v0
                case _ hfw => exact absurd h (by intro h2; exact Except.noConfusion h2)
    refine ⟨hT, ?_⟩
    intro s l
    induction l generalizing s with
    | nil =>
      intro vs s' hw h
      rw [evalArgs] at h
      have h2 := except_ok_inj h
      have hs : s = s' := congrArg Prod.snd h2
      subst hs
      exact ⟨rfl, ⟨[], by simp, by simp [memoKeys]⟩, ⟨[], by simp⟩⟩
    | cons a rest ihl =>
      intro vs s' hw h
      rw [evalArgs] at h
      obtain ⟨⟨v1, s1⟩, h1, h⟩ := except_bind_ok h
      obtain ⟨⟨vs2, s2⟩, h2, h⟩ := except_bind_ok h
      have h3 := except_ok_inj h
      have hs : s2 = s' := congrArg Prod.snd h3
      subst hs
      obtain ⟨e1, ⟨A1, hm1, hk1⟩, ⟨D1, ht1⟩, _⟩ := hT s a v1 s1 hw h1
      have hw1 : WFstruct s1.g := WFstruct_of_stripVals_eq e1.symm hw
      obtain ⟨e2, ⟨A2, hm2, hk2⟩, ⟨D2, ht2⟩⟩ := ihl s1 vs2 s2 hw1 h2
      refine ⟨e2.trans e1, ⟨A2 ++ A1, by rw [hm2, hm1, List.append_assoc], ?_⟩,
        ⟨D1 ++ D2, by rw [ht2, ht1, List.append_assoc]⟩⟩
      intro k hk
      rw [memoKeys_append] at hk
      rcases List.mem_append.1 hk with hka | hka
      · obtain ⟨a2, ha2, hle⟩ := hk2 k hka
        exact ⟨a2, List.mem_cons_of_mem _ ha2, hle⟩
      · exact ⟨a, List.mem_cons_self _ _, hk1 k hka⟩

/-! ### Session-level structure preservation -/

theorem runTargets_strip (sig : ℚ → ℚ) (fuel : Nat) :
    ∀ {ts : List Nat} {s : EvalSt} {vs : List Value} {s' : EvalSt},
    WFstruct s.g → runTargets sig fuel s ts = .ok (vs, s') →
    s'.g.stripVals = s.g.stripVals := by
  intro ts
  induction ts with
  | nil =>
    intro s vs s' hw h
    rw [runTargets] at h
    have h2 := except_ok_inj h
    have hs : s = s' := congrArg Prod.snd h2
    rw [← hs]
  | cons t rest ih =>
    intro s vs s' hw h
    rw [runTargets] at h
    obtain ⟨⟨v1, s1⟩, h1, h⟩ := except_bind_ok h
    obtain ⟨⟨vs2, s2⟩, h2, h⟩ := except_bind_ok h
    have h3 := except_ok_inj h
    have hs : s2 = s' := congrArg Prod.snd h3
    obtain ⟨e1, _, _, _⟩ := (evalMaster sig fuel).1 s t v1 s1 hw h1
    have hw1 : WFstruct s1.g := WFstruct_of_stripVals_eq e1.symm hw
    have e2 := ih hw1 h2
    rw [← hs]
    exact e2.trans e1

theorem sessionRun_strip {sig : ℚ → ℚ} {fuel : Nat} {g : Graph} {ts : List Nat}
    {vs : List Value} {g' : Graph} (hw : WFstruct g)
    (h : sessionRun sig fuel g ts = .ok (vs, g')) : g'.stripVals = g.stripVals := by
  unfold sessionRun at h
  cases hrt : runTargets sig fuel { g := g, memo := [], trace := [] } ts with
  | error e => rw [hrt] at h; exact absurd h (by intro h2; exact Except.noConfusion h2)
  | ok p =>
    rw [hrt] at h
    obtain ⟨vs1, s1⟩ := p
    have h2 := except_ok_inj h
    have hg : s1.g = g' := congrArg Prod.snd h2
    rw [← hg]
    exact runTargets_strip sig fuel hw hrt

theorem sessionRun_wf {sig : ℚ → ℚ} {fuel : Nat} {g : Graph} {ts : List Nat}
    {vs : List Value} {g' : Graph} (hw : WFstruct g)
    (h : sessionRun sig fuel g ts = .ok (vs, g')) : WFstruct g' :=
  WFstruct_of_stripVals_eq (sessionRun_strip hw h).symm hw

/-! ### Well-formedness of every graph built through the public API -/

theorem WFstruct_empty : WFstruct Graph.empty := by
  constructor <;> simp [Graph.empty]

theorem Built_wf {g : Graph} (h : Built g) : WFstruct g := by
  induction h with
  | empty => exact WFstruct_empty
  | @leaf g2 v2 g3 t3 hb heq ih =>
    have hg : (g2.tensor v2).1 = g3 := congrArg Prod.fst heq
    rw [← hg]
    exact addLeaf_wf ih _
  | factory hb heq ih => exact opFactory_wf ih heq
  | grads hb heq ih => exact (gradients_ok_basic heq).2.1 ih
  | run hb heq ih => exact sessionRun_wf ih heq

/-! ### Acyclicity of the node-reference relation -/

theorem refs_lt {g : Graph} (hw : WFstruct g) {a b : Nat} (h : Refs g a b) : b < a := by
  cases h with
  | opIn ho hi => exact (hw.oin _ ho _ hi).2
  | tProd ht hpr =>
    obtain ⟨o, _, _, _, hlt⟩ := hw.tprod _ ht _ hpr
    exact hlt

theorem transGen_refs_lt {g : Graph} (hw : WFstruct g) {a b : Nat}
    (h : Relation.TransGen (Refs g) a b) : b < a := by
  induction h with
  | single h1 => exact refs_lt hw h1
  | tail _ h2 ih => exact Nat.lt_trans (refs_lt hw h2) ih

/-- C6: for every graph reachable through the public API (factory calls,
gradient synthesis, session runs), the node-reference graph formed by
Op-to-input-Tensor and Tensor-to-producer-Op edges only points from higher
ids to strictly lower ids and is therefore acyclic; node ids are strictly
increasing in creation order within each node list, bounded by the id
counter, and globally unique across tensors and ops; and every op's input
tensors have ids smaller than both the op's id and its output tensor's id,
so creation order is a valid topological order. -/
theorem claim_C6 {g : Graph} (h : Built g) :
    (∀ a b, Refs g a b → b < a) ∧
    (∀ a, ¬ Relation.TransGen (Refs g) a a) ∧
    (g.tensors.map Tensor.id).Pairwise (· < ·) ∧
    (g.ops.map Op.id).Pairwise (· < ·) ∧
    (∀ t ∈ g.tensors, t.id < g.nextId) ∧
    (∀ o ∈ g.ops, o.id < g.nextId) ∧
    (∀ t ∈ g.tensors, ∀ o ∈ g.ops, t.id ≠ o.id) ∧
    (∀ o ∈ g.ops, ∀ i ∈ o.inputs, i < o.id ∧ o.id < o.out) := by
  have hw := Built_wf h
  refine ⟨fun a b hr => refs_lt hw hr,
    fun a hcyc => absurd (transGen_refs_lt hw hcyc) (Nat.lt_irrefl a),
    hw.tsort, hw.osort, hw.tlt, hw.olt, hw.tod, ?_⟩
  intro o ho i hi
  exact ⟨(hw.oin o ho i hi).2, (hw.oout o ho).1⟩

/-- Witness for C6 at a concrete two-node build. -/
theorem claim_C6_witness :
    (∀ a b, Refs exGraph2 a b → b < a) ∧
    (∀ a, ¬ Relation.TransGen (Refs exGraph2) a a) ∧
    (exGraph2.tensors.map Tensor.id).Pairwise (· < ·) ∧
    (exGraph2.ops.map Op.id).Pairwise (· < ·) ∧
    (∀ t ∈ exGraph2.tensors, t.id < exGraph2.nextId) ∧
    (∀ o ∈ exGraph2.ops, o.id < exGraph2.nextId) ∧
    (∀ t ∈ exGraph2.tensors, ∀ o ∈ exGraph2.ops, t.id ≠ o.id) ∧
    (∀ o ∈ exGraph2.ops, ∀ i ∈ o.inputs, i < o.id ∧ o.id < o.out) :=
  claim_C6 (Built.factory
    (Built.leaf Built.empty (rfl : Graph.empty.tensor (Value.sc 1) = (exGraph1, 0)))
    (rfl : exGraph1.opFactory OpKind.square [0] = Except.ok (exGraph2, 2)))

/-! ### Factory shape contracts (C8) -/

theorem opFactory_eq (g : Graph) (k : OpKind) (args : List Nat) (shapes : List Shape)
    (hm : args.mapM g.shapeOf = some shapes) :
    g.opFactory k args = (match opShape k shapes with
      | some outS => Except.ok (g.addOpNode k args outS)
      | none => Except.error GErr.shape) := by
  unfold Graph.opFactory
  rw [(shapesExcept_eq_option g args shapes).2 hm]
  rfl

theorem opShape_ew {k : OpKind} (hk : k = OpKind.add ∨ k = OpKind.sub ∨ k = OpKind.mul)
    (s1 s2 : Shape) : opShape k [s1, s2] = ewShape s1 s2 := by
  rcases hk with rfl | rfl | rfl <;> rfl

theorem ewShape_some_iff (s1 s2 : Shape) (h1 : s1 ≠ Shape.un) (h2 : s2 ≠ Shape.un) :
    (∃ s, ewShape s1 s2 = some s) ↔ (s1 = s2 ∨ s1 = Shape.sc ∨ s2 = Shape.sc) := by
  cases s1 with
  | un => exact absurd rfl h1
  | sc =>
    cases s2 with
    | un => exact absurd rfl h2
    | sc => simp [ewShape]
    | mt r c => simp [ewShape]
  | mt r c =>
    cases s2 with
    | un => exact absurd rfl h2
    | sc => simp [ewShape]
    | mt r2 c2 =>
      constructor
      · rintro ⟨s, hs⟩
        simp only [ewShape] at hs
        split at hs
        · next hcond => exact Or.inl (by rw [hcond.1, hcond.2])
        · exact absurd hs (by intro h3; exact Option.noConfusion h3)
      · rintro (heq | heq | heq)
        · injection heq with e1 e2
          subst e1
          subst e2
          exact ⟨Shape.mt r c, by simp [ewShape]⟩
        · exact absurd heq (by intro h3; exact Shape.noConfusion h3)
        · exact absurd heq (by intro h3; exact Shape.noConfusion h3)

theorem dotShape_some_iff (s1 s2 : Shape) :
    (∃ s, opShape OpKind.dot [s1, s2] = some s) ↔
    (∃ r n p, s1 = Shape.mt r n ∧ s2 = Shape.mt n p) := by
  cases s1 with
  | sc => simp [opShape]
  | un => simp [opShape]
  | mt r c =>
    cases s2 with
    | sc => simp [opShape]
    | un => simp [opShape]
    | mt r2 c2 =>
      simp only [opShape]
      constructor
      · rintro ⟨s, hs⟩
        split at hs
        · next hcond => exact ⟨r, c, c2, rfl, by rw [hcond]⟩
        · exact absurd hs (by intro h3; exact Option.noConfusion h3)
      · rintro ⟨r3, n3, p3, he1, he2⟩
        injection he1 with a1 a2
        injection he2 with b1 b2
        subst a1
        subst a2
        subst b1
        subst b2
        exact ⟨Shape.mt r c2, by simp⟩

/-- C8: an operation-factory call whose input tensor shapes violate the
kind's contract fails at graph-construction time with a ShapeError (and, in
this exception-style model, returns no new graph, so no nodes register),
while a call with conforming shapes succeeds: for the binary elementwise
kinds the contract is identical shapes or one scalar operand, and for `dot`
it is matching inner dimensions. -/
theorem claim_C8 {g : Graph} {a b : Nat} {ta tb : Tensor}
    (hta : g.findTensor a = some ta) (htb : g.findTensor b = some tb)
    (hna : ta.shape ≠ Shape.un) (hnb : tb.shape ≠ Shape.un) :
    (∀ k, (k = OpKind.add ∨ k = OpKind.sub ∨ k = OpKind.mul) →
      ((∃ p, g.opFactory k [a, b] = .ok p) ↔
        (ta.shape = tb.shape ∨ ta.shape = Shape.sc ∨ tb.shape = Shape.sc)) ∧
      (g.opFactory k [a, b] = .error GErr.shape ↔
        ¬ (ta.shape = tb.shape ∨ ta.shape = Shape.sc ∨ tb.shape = Shape.sc))) ∧
    ((∃ p, g.opFactory OpKind.dot [a, b] = .ok p) ↔
      (∃ r n p2, ta.shape = Shape.mt r n ∧ tb.shape = Shape.mt n p2)) ∧
    (g.opFactory OpKind.dot [a, b] = .error GErr.shape ↔
      ¬ (∃ r n p2, ta.shape = Shape.mt r n ∧ tb.shape = Shape.mt n p2)) := by
  have hm : [a, b].mapM g.shapeOf = some [ta.shape, tb.shape] := by
    rw [List.mapM_cons, List.mapM_cons, List.mapM_nil]
    unfold Graph.shapeOf
    simp only [hta, htb]
    rfl
  constructor
  · intro k hk
    rw [opFactory_eq g k [a, b] [ta.shape, tb.shape] hm, opShape_ew hk]
    constructor
    · rw [← ewShape_some_iff ta.shape tb.shape hna hnb]
      cases he : ewShape ta.shape tb.shape with
      | some s =>
        constructor
        · intro _; exact ⟨s, rfl⟩
        · intro _; exact ⟨_, rfl⟩
      | none =>
        constructor
        · rintro ⟨p, hp⟩
          exact absurd hp (by intro h3; exact Except.noConfusion h3)
        · rintro ⟨s, hs⟩
          exact absurd hs (by intro h3; exact Option.noConfusion h3)
    · rw [← ewShape_some_iff ta.shape tb.shape hna hnb]
      cases he : ewShape ta.shape tb.shape with
      | some s =>
        constructor
        · intro hcontr
          exact absurd hcontr (by intro h3; exact Except.noConfusion h3)
        · intro hno
          exact absurd ⟨s, rfl⟩ hno
      | none =>
        constructor
        · rintro _ ⟨s, hs⟩
          exact absurd hs (by intro h3; exact Option.noConfusion h3)
        · intro _; rfl
  · rw [opFactory_eq g OpKind.dot [a, b] [ta.shape, tb.shape] hm]
    rw [← dotShape_some_iff ta.shape tb.shape]
    cases he : opShape OpKind.dot [ta.shape, tb.shape] with
    | some s =>
      refine ⟨⟨fun _ => ⟨s, rfl⟩, fun _ => ⟨_, rfl⟩⟩, ?_, ?_⟩
      · intro hcontr
        exact absurd hcontr (by intro h3; exact Except.noConfusion h3)
      · intro hno
        exact absurd ⟨s, rfl⟩ hno
    | none =>
      refine ⟨⟨?_, ?_⟩, fun _ => ?_, fun _ => rfl⟩
      · rintro ⟨p, hp⟩
        exact absurd hp (by intro h3; exact Except.noConfusion h3)
      · rintro ⟨s, hs⟩
        exact absurd hs (by intro h3; exact Option.noConfusion h3)
      · rintro ⟨s, hs⟩
        exact absurd hs (by intro h3; exact Option.noConfusion h3)

/-- Witness for C8 at two concrete scalar tensors. -/
theorem claim_C8_witness :
    (∀ k, (k = OpKind.add ∨ k = OpKind.sub ∨ k = OpKind.mul) →
      ((∃ p, exGraph2.opFactory k [0, 2] = .ok p) ↔
        (Shape.sc = Shape.sc ∨ Shape.sc = Shape.sc ∨ Shape.sc = Shape.sc)) ∧
      (exGraph2.opFactory k [0, 2] = .error GErr.shape ↔
        ¬ (Shape.sc = Shape.sc ∨ Shape.sc = Shape.sc ∨ Shape.sc = Shape.sc))) ∧
    ((∃ p, exGraph2.opFactory OpKind.dot [0, 2] = .ok p) ↔
      (∃ r n p2, Shape.sc = Shape.mt r n ∧ Shape.sc = Shape.mt n p2)) ∧
    (exGraph2.opFactory OpKind.dot [0, 2] = .error GErr.shape ↔
      ¬ (∃ r n p2, Shape.sc = Shape.mt r n ∧ Shape.sc = Shape.mt n p2)) :=
  claim_C8
    (rfl : exGraph2.findTensor 0 = some ⟨0, none, some (Value.sc 1), Shape.sc⟩)
    (rfl : exGraph2.findTensor 2 = some ⟨2, some 1, none, Shape.sc⟩)
    (by intro h; exact Shape.noConfusion h) (by intro h; exact Shape.noConfusion h)

/-! ### Matrix dimension lemmas -/

theorem mapMat_rows (f : ℚ → ℚ) (m : Mat) : Mat.rows (mapMat f m) = m.rows := by
  simp [mapMat, Mat.rows]

theorem mapMat_cols (f : ℚ → ℚ) (m : Mat) : Mat.cols (mapMat f m) = m.cols := by
  cases m with
  | nil => rfl
  | cons r rest => simp [mapMat, Mat.cols]

theorem map2_rows (f : ℚ → ℚ) (m : Mat) : Mat.rows (m.map (fun r => r.map f)) = m.rows :=
  mapMat_rows f m

theorem map2_cols (f : ℚ → ℚ) (m : Mat) : Mat.cols (m.map (fun r => r.map f)) = m.cols :=
  mapMat_cols f m

theorem zipMat_rows (f : ℚ → ℚ → ℚ) (a b : Mat) (h : a.rows = b.rows) :
    Mat.rows (zipMat f a b) = a.rows := by
  simp only [zipMat, Mat.rows] at h ⊢
  rw [List.length_zipWith, h, Nat.min_self]

theorem zipMat_cols (f : ℚ → ℚ → ℚ) (a b : Mat) (h : a.cols = b.cols) :
    Mat.cols (zipMat f a b) = a.cols := by
  cases a with
  | nil => rfl
  | cons ra as =>
    cases b with
    | nil =>
      simp only [Mat.cols, List.headD_cons] at h ⊢
      simp only [zipMat, List.zipWith_nil_right, Mat.cols]
      simp at h
      simp [h]
    | cons rb bs =>
      simp only [zipMat, List.zipWith_cons_cons, Mat.cols, List.headD_cons] at h ⊢
      rw [List.length_zipWith, h, Nat.min_self]

theorem transposeMat_rows (m : Mat) : Mat.rows (transposeMat m) = m.cols := by
  simp [transposeMat, Mat.rows]

theorem transposeMat_cols (m : Mat) (h : 0 < m.cols) : Mat.cols (transposeMat m) = m.rows := by
  unfold transposeMat
  obtain ⟨c, hc⟩ : ∃ c, m.cols = c + 1 := ⟨m.cols - 1, by omega⟩
  rw [hc, List.range_succ_eq_map]
  simp [Mat.cols, Mat.rows]

theorem dotMat_rows (a b : Mat) : Mat.rows (dotMat a b) = a.rows := by
  simp [dotMat, Mat.rows]

theorem dotMat_cols (a b : Mat) (h : 0 < Mat.rows a) : Mat.cols (dotMat a b) = b.cols := by
  unfold dotMat
  cases a with
  | nil => simp [Mat.rows] at h
  | cons ra as =>
    simp only [List.map_cons, Mat.cols, List.headD_cons]
    rw [List.length_map]
    exact transposeMat_rows b

/-! ### Value-level shape soundness -/

theorem ew2_defined (f : ℚ → ℚ → ℚ) (a b : Value) (s : Shape)
    (h : ewShape a.shape b.shape = some s) :
    ∃ v, ew2 f a b = some v ∧ v.shape = s := by
  cases a with
  | un =>
    cases b <;>
      exact absurd (show (none : Option Shape) = some s from h)
        (by intro h3; exact Option.noConfusion h3)
  | sc x =>
    cases b with
    | un =>
      exact absurd (show (none : Option Shape) = some s from h)
        (by intro h3; exact Option.noConfusion h3)
    | sc y =>
      have h2 : Shape.sc = s := by
        have h3 : some Shape.sc = some s := h
        injection h3
      exact ⟨Value.sc (f x y), rfl, h2⟩
    | mt m =>
      have h2 : Shape.mt m.rows m.cols = s := by
        have h3 : some (Shape.mt m.rows m.cols) = some s := h
        injection h3
      refine ⟨Value.mt (m.map (fun r => r.map (fun z => f x z))), by exact rfl, ?_⟩
      show Shape.mt (Mat.rows _) (Mat.cols _) = s
      rw [map2_rows, map2_cols]
      exact h2
  | mt m =>
    cases b with
    | un =>
      exact absurd (show (none : Option Shape) = some s from h)
        (by intro h3; exact Option.noConfusion h3)
    | sc y =>
      have h2 : Shape.mt m.rows m.cols = s := by
        have h3 : some (Shape.mt m.rows m.cols) = some s := h
        injection h3
      refine ⟨Value.mt (m.map (fun r => r.map (fun z => f z y))), by exact rfl, ?_⟩
      show Shape.mt (Mat.rows _) (Mat.cols _) = s
      rw [map2_rows, map2_cols]
      exact h2
    | mt n =>
      have h' : (if m.rows = n.rows ∧ m.cols = n.cols then
          some (Shape.mt m.rows m.cols) else none) = some s := h
      by_cases hc : m.rows = n.rows ∧ m.cols = n.cols
      · rw [if_pos hc] at h'
        have h2 : Shape.mt m.rows m.cols = s := by injection h'
        refine ⟨Value.mt (zipMat f m n), ?_, ?_⟩
        · show (if m.rows = n.rows ∧ m.cols = n.cols then
            some (Value.mt (zipMat f m n)) else none) = some (Value.mt (zipMat f m n))
          rw [if_pos hc]
        · show Shape.mt (Mat.rows _) (Mat.cols _) = s
          rw [zipMat_rows f m n hc.1, zipMat_cols f m n hc.2]
          exact h2
      · rw [if_neg hc] at h'
        exact absurd h' (by intro h3; exact Option.noConfusion h3)

theorem ewShape_out_left {s1 s2 so : Shape} (h : ewShape s1 s2 = some so) :
    ewShape so s2 = some so := by
  cases s1 with
  | un =>
    cases s2 <;>
      exact absurd (show (none : Option Shape) = some so from h)
        (by intro h3; exact Option.noConfusion h3)
  | sc =>
    cases s2 with
    | un =>
      exact absurd (show (none : Option Shape) = some so from h)
        (by intro h3; exact Option.noConfusion h3)
    | sc =>
      have h2 : Shape.sc = so := by
        have h3 : some Shape.sc = some so := h
        injection h3
      rw [← h2]
      rfl
    | mt r c =>
      have h2 : Shape.mt r c = so := by
        have h3 : some (Shape.mt r c) = some so := h
        injection h3
      rw [← h2]
      simp [ewShape]
  | mt r c =>
    cases s2 with
    | un =>
      exact absurd (show (none : Option Shape) = some so from h)
        (by intro h3; exact Option.noConfusion h3)
    | sc =>
      have h2 : Shape.mt r c = so := by
        have h3 : some (Shape.mt r c) = some so := h
        injection h3
      rw [← h2]
      rfl
    | mt r2 c2 =>
      have h' : (if r = r2 ∧ c = c2 then some (Shape.mt r c) else none) = some so := h
      by_cases hc : r = r2 ∧ c = c2
      · rw [if_pos hc] at h'
        have h2 : Shape.mt r c = so := by injection h'
        rw [← h2]
        simp [ewShape, hc.1, hc.2]
      · rw [if_neg hc] at h'
        exact absurd h' (by intro h3; exact Option.noConfusion h3)

theorem ewShape_out_flip {s1 s2 so : Shape} (h : ewShape s1 s2 = some so) :
    ewShape so s1 = some so := by
  cases s1 with
  | un =>
    cases s2 <;>
      exact absurd (show (none : Option Shape) = some so from h)
        (by intro h3; exact Option.noConfusion h3)
  | sc =>
    cases s2 with
    | un =>
      exact absurd (show (none : Option Shape) = some so from h)
        (by intro h3; exact Option.noConfusion h3)
    | sc =>
      have h2 : Shape.sc = so := by
        have h3 : some Shape.sc = some so := h
        injection h3
      rw [← h2]
      rfl
    | mt r c =>
      have h2 : Shape.mt r c = so := by
        have h3 : some (Shape.mt r c) = some so := h
        injection h3
      rw [← h2]
      rfl
  | mt r c =>
    cases s2 with
    | un =>
      exact absurd (show (none : Option Shape) = some so from h)
        (by intro h3; exact Option.noConfusion h3)
    | sc =>
      have h2 : Shape.mt r c = so := by
        have h3 : some (Shape.mt r c) = some so := h
        injection h3
      rw [← h2]
      simp [ewShape]
    | mt r2 c2 =>
      have h' : (if r = r2 ∧ c = c2 then some (Shape.mt r c) else none) = some so := h
      by_cases hc : r = r2 ∧ c = c2
      · rw [if_pos hc] at h'
        have h2 : Shape.mt r c = so := by injection h'
        rw [← h2]
        simp [ewShape]
      · rw [if_neg hc] at h'
        exact absurd h' (by intro h3; exact Option.noConfusion h3)

/-! ### Denotation unfolding, monotonicity, weakening -/

theorem denote_fail_noTensor (sig : ℚ → ℚ) (f : Nat) {g : Graph} {tid : Nat}
    (hft : g.findTensor tid = none) : denoteT sig (f + 1) g tid = none := by
  rw [denoteT, hft]
  rfl

theorem denote_leaf (sig : ℚ → ℚ) (f : Nat) {g : Graph} {tid : Nat} {t : Tensor}
    (hft : g.findTensor tid = some t) (hpr : t.producer = none) :
    denoteT sig (f + 1) g tid = t.value := by
  rw [denoteT, hft]
  show (match t.producer with
    | none => t.value
    | some oid =>
        g.findOp oid >>= fun o =>
          if o.kind = OpKind.assign ∨ o.kind = OpKind.group then none
          else o.inputs.mapM (denoteT sig f g) >>= forward sig o.kind) = t.value
  rw [hpr]

theorem denote_no_op (sig : ℚ → ℚ) (f : Nat) {g : Graph} {tid : Nat} {t : Tensor} {oid : Nat}
    (hft : g.findTensor tid = some t) (hpr : t.producer = some oid)
    (hfo : g.findOp oid = none) : denoteT sig (f + 1) g tid = none := by
  rw [denoteT, hft]
  show (match t.producer with
    | none => t.value
    | some oid =>
        g.findOp oid >>= fun o =>
          if o.kind = OpKind.assign ∨ o.kind = OpKind.group then none
          else o.inputs.mapM (denoteT sig f g) >>= forward sig o.kind) = none
  rw [hpr]
  show (g.findOp oid >>= fun o =>
    if o.kind = OpKind.assign ∨ o.kind = OpKind.group then none
    else o.inputs.mapM (denoteT sig f g) >>= forward sig o.kind) = _
  rw [hfo]
  rfl

theorem denote_effectful (sig : ℚ → ℚ) (f : Nat) {g : Graph} {tid : Nat} {t : Tensor}
    {oid : Nat} {o : Op} (hft : g.findTensor tid = some t) (hpr : t.producer = some oid)
    (hfo : g.findOp oid = some o) (hk : o.kind = OpKind.assign ∨ o.kind = OpKind.group) :
    denoteT sig (f + 1) g tid = none := by
  rw [denoteT, hft]
  show (match t.producer with
    | none => t.value
    | some oid =>
        g.findOp oid >>= fun o =>
          if o.kind = OpKind.assign ∨ o.kind = OpKind.group then none
          else o.inputs.mapM (denoteT sig f g) >>= forward sig o.kind) = none
  rw [hpr]
  show (g.findOp oid >>= fun o =>
    if o.kind = OpKind.assign ∨ o.kind = OpKind.group then none
    else o.inputs.mapM (denoteT sig f g) >>= forward sig o.kind) = _
  rw [hfo]
  show (if o.kind = OpKind.assign ∨ o.kind = OpKind.group then none
    else o.inputs.mapM (denoteT sig f g) >>= forward sig o.kind) = none
  rw [if_pos hk]

theorem denote_via_node (sig : ℚ → ℚ) (f : Nat) {g : Graph} {tid : Nat} {t : Tensor}
    {oid : Nat} {o : Op} (hft : g.findTensor tid = some t) (hpr : t.producer = some oid)
    (hfo : g.findOp oid = some o) (hk : ¬ (o.kind = OpKind.assign ∨ o.kind = OpKind.group)) :
    denoteT sig (f + 1) g tid = (o.inputs.mapM (denoteT sig f g) >>= forward sig o.kind) := by
  rw [denoteT, hft]
  show (match t.producer with
    | none => t.value
    | some oid =>
        g.findOp oid >>= fun o =>
          if o.kind = OpKind.assign ∨ o.kind = OpKind.group then none
          else o.inputs.mapM (denoteT sig f g) >>= forward sig o.kind) = _
  rw [hpr]
  show (g.findOp oid >>= fun o =>
    if o.kind = OpKind.assign ∨ o.kind = OpKind.group then none
    else o.inputs.mapM (denoteT sig f g) >>= forward sig o.kind) = _
  rw [hfo]
  show (if o.kind = OpKind.assign ∨ o.kind = OpKind.group then none
    else o.inputs.mapM (denoteT sig f g) >>= forward sig o.kind) = _
  rw [if_neg hk]

theorem mapM_option_mono {α β : Type} {f f' : α → Option β} :
    ∀ {l : List α} {vs : List β},
    (∀ a ∈ l, ∀ v, f a = some v → f' a = some v) →
    l.mapM f = some vs → l.mapM f' = some vs := by
  intro l
  induction l with
  | nil => intro vs _ h; rw [List.mapM_nil] at h ⊢; exact h
  | cons a rest ih =>
    intro vs hpt h
    rw [List.mapM_cons] at h ⊢
    obtain ⟨v1, h1, h⟩ := option_bind_some h
    obtain ⟨vs1, h2, h⟩ := option_bind_some h
    rw [hpt a (List.mem_cons_self _ _) v1 h1]
    rw [ih (fun x hx => hpt x (List.mem_cons_of_mem _ hx)) h2]
    exact h

theorem denoteT_mono (sig : ℚ → ℚ) :
    ∀ (f : Nat) (g : Graph) (tid : Nat) (v : Value),
    denoteT sig f g tid = some v → denoteT sig (f + 1) g tid = some v := by
  intro f
  induction f with
  | zero =>
    intro g tid v h
    rw [denoteT] at h
    exact absurd h (by intro h2; exact Option.noConfusion h2)
  | succ f ih =>
    intro g tid v h
    cases hft : g.findTensor tid with
    | none => rw [denote_fail_noTensor sig f hft] at h; exact absurd h (by intro h2; exact Option.noConfusion h2)
    | some t =>
      cases hpr : t.producer with
      | none =>
        rw [denote_leaf sig f hft hpr] at h
        rw [denote_leaf sig (f + 1) hft hpr]
        exact h
      | some oid =>
        cases hfo : g.findOp oid with
        | none => rw [denote_no_op sig f hft hpr hfo] at h; exact absurd h (by intro h2; exact Option.noConfusion h2)
        | some o =>
          by_cases hk : o.kind = OpKind.assign ∨ o.kind = OpKind.group
          · rw [denote_effectful sig f hft hpr hfo hk] at h
            exact absurd h (by intro h2; exact Option.noConfusion h2)
          · rw [denote_via_node sig f hft hpr hfo hk] at h
            rw [denote_via_node sig (f + 1) hft hpr hfo hk]
            obtain ⟨vs, hmap, hfw⟩ := option_bind_some h
            rw [mapM_option_mono (fun a _ v2 hv2 => ih g a v2 hv2) hmap]
            exact hfw

theorem denoteT_le (sig : ℚ → ℚ) {f f' : Nat} (hle : f ≤ f') {g : Graph} {tid : Nat} {v : Value}
    (h : denoteT sig f g tid = some v) : denoteT sig f' g tid = some v := by
  induction hle with
  | refl => exact h
  | step _ ih => exact denoteT_mono sig _ g tid v ih

theorem denote_extends (sig : ℚ → ℚ) :
    ∀ (f : Nat) {g g' : Graph}, Extends g g' →
    ∀ (tid : Nat) (v : Value), denoteT sig f g tid = some v → denoteT sig f g' tid = some v := by
  intro f
  induction f with
  | zero =>
    intro g g' he tid v h
    rw [denoteT] at h
    exact absurd h (by intro h2; exact Option.noConfusion h2)
  | succ f ih =>
    intro g g' he tid v h
    cases hft : g.findTensor tid with
    | none => rw [denote_fail_noTensor sig f hft] at h; exact absurd h (by intro h2; exact Option.noConfusion h2)
    | some t =>
      have hft' := findTensor_extends he hft
      cases hpr : t.producer with
      | none =>
        rw [denote_leaf sig f hft hpr] at h
        rw [denote_leaf sig f hft' hpr]
        exact h
      | some oid =>
        cases hfo : g.findOp oid with
        | none => rw [denote_no_op sig f hft hpr hfo] at h; exact absurd h (by intro h2; exact Option.noConfusion h2)
        | some o =>
          have hfo' := findOp_extends he hfo
          by_cases hk : o.kind = OpKind.assign ∨ o.kind = OpKind.group
          · rw [denote_effectful sig f hft hpr hfo hk] at h
            exact absurd h (by intro h2; exact Option.noConfusion h2)
          · rw [denote_via_node sig f hft hpr hfo hk] at h
            rw [denote_via_node sig f hft' hpr hfo' hk]
            obtain ⟨vs, hmap, hfw⟩ := option_bind_some h
            rw [mapM_option_mono (fun a _ v2 hv2 => ih he a v2 hv2) hmap]
            exact hfw

/-! ### Small helpers for gradient-formula proofs -/

theorem except_ok_bind_red {α β γ : Type} (a : α) (f : α → Except γ β) :
    (Except.ok a >>= f : Except γ β) = f a := rfl

theorem mapM_single_inv {β : Type} {f : Nat → Option β} {a : Nat} {r : List β}
    (h : [a].mapM f = some r) : ∃ x, f a = some x ∧ r = [x] := by
  rw [List.mapM_cons, List.mapM_nil] at h
  obtain ⟨x, h1, h⟩ := option_bind_some h
  refine ⟨x, h1, ?_⟩
  have h2 : some [x] = some r := h
  injection h2 with h3
  rw [h3]

theorem mapM_pair_inv {β : Type} {f : Nat → Option β} {a b : Nat} {r : List β}
    (h : [a, b].mapM f = some r) : ∃ x y, f a = some x ∧ f b = some y ∧ r = [x, y] := by
  rw [List.mapM_cons] at h
  obtain ⟨x, h1, h⟩ := option_bind_some h
  obtain ⟨xs, h2, h⟩ := option_bind_some h
  obtain ⟨y, h3, rfl⟩ := mapM_single_inv h2
  refine ⟨x, y, h1, h3, ?_⟩
  have h4 : some [x, y] = some r := h
  injection h4 with h5
  rw [h5]

theorem mapM_single_mk {β : Type} {f : Nat → Option β} {a : Nat} {x : β}
    (h : f a = some x) : [a].mapM f = some [x] := by
  rw [List.mapM_cons, List.mapM_nil, h]
  rfl

theorem mapM_pair_mk {β : Type} {f : Nat → Option β} {a b : Nat} {x y : β}
    (h1 : f a = some x) (h2 : f b = some y) : [a, b].mapM f = some [x, y] := by
  rw [List.mapM_cons, List.mapM_cons, List.mapM_nil, h1, h2]
  rfl

theorem forward_mul_eq (sig : ℚ → ℚ) (x y : Value) :
    forward sig OpKind.mul [x, y] = ew2 (· * ·) x y := by
  cases x <;> cases y <;> rfl

theorem forward_add_eq (sig : ℚ → ℚ) (x y : Value) :
    forward sig OpKind.add [x, y] = ew2 (· + ·) x y := by
  cases x <;> cases y <;> rfl

theorem forward_sub_eq (sig : ℚ → ℚ) (x y : Value) :
    forward sig OpKind.sub [x, y] = ew2 (· - ·) x y := by
  cases x <;> cases y <;> rfl

theorem forward_dot_eq (sig : ℚ → ℚ) (x y : Value) :
    forward sig OpKind.dot [x, y] = dotValue x y := by
  cases x <;> cases y <;> rfl

theorem forward_transpose_eq (sig : ℚ → ℚ) (x : Value) :
    forward sig OpKind.transpose [x] = transposeValue x := by
  cases x <;> rfl

theorem ewShape_sc_left {so : Shape} (h : so ≠ Shape.un) : ewShape Shape.sc so = some so := by
  cases so with
  | sc => rfl
  | mt r c => rfl
  | un => exact absurd rfl h

theorem ewShape_self {so : Shape} (h : so ≠ Shape.un) : ewShape so so = some so := by
  cases so with
  | sc => rfl
  | mt r c => simp [ewShape]
  | un => exact absurd rfl h

theorem ewShape_no_un {s1 s2 so : Shape} (h : ewShape s1 s2 = some so) : so ≠ Shape.un := by
  intro hc
  subst hc
  cases s1 with
  | un => cases s2 <;> exact Option.noConfusion h
  | sc =>
    cases s2 with
    | un => exact Option.noConfusion h
    | sc => exact Shape.noConfusion (show Shape.sc = Shape.un by injection h)
    | mt r c => exact Shape.noConfusion (show Shape.mt r c = Shape.un by injection h)
  | mt r c =>
    cases s2 with
    | un => exact Option.noConfusion h
    | sc => exact Shape.noConfusion (show Shape.mt r c = Shape.un by injection h)
    | mt r2 c2 =>
      have h' : (if r = r2 ∧ c = c2 then some (Shape.mt r c) else none) = some Shape.un := h
      by_cases hcnd : r = r2 ∧ c = c2
      · rw [if_pos hcnd] at h'
        exact Shape.noConfusion (show Shape.mt r c = Shape.un by injection h')
      · rw [if_neg hcnd] at h'
        exact Option.noConfusion h'

theorem dotShape_inv {s1 s2 so : Shape} (h : opShape OpKind.dot [s1, s2] = some so) :
    ∃ r n p, s1 = Shape.mt r n ∧ s2 = Shape.mt n p ∧ so = Shape.mt r p := by
  cases s1 with
  | sc => cases s2 <;> exact absurd h (by intro h2; exact Option.noConfusion h2)
  | un => cases s2 <;> exact absurd h (by intro h2; exact Option.noConfusion h2)
  | mt r n =>
    cases s2 with
    | sc => exact absurd h (by intro h2; exact Option.noConfusion h2)
    | un => exact absurd h (by intro h2; exact Option.noConfusion h2)
    | mt n2 p =>
      have h' : (if n = n2 then some (Shape.mt r p) else none) = some so := h
      by_cases hc : n = n2
      · rw [if_pos hc] at h'
        have h2 : Shape.mt r p = so := by injection h'
        exact ⟨r, n, p, rfl, by rw [hc], h2.symm⟩
      · rw [if_neg hc] at h'
        exact absurd h' (by intro h2; exact Option.noConfusion h2)

theorem transposeShape_inv {s1 so : Shape} (h : opShape OpKind.transpose [s1] = some so) :
    ∃ r c, s1 = Shape.mt r c ∧ so = Shape.mt c r := by
  cases s1 with
  | sc => exact absurd h (by intro h2; exact Option.noConfusion h2)
  | un => exact absurd h (by intro h2; exact Option.noConfusion h2)
  | mt r c =>
    have h2 : Shape.mt c r = so := by
      have h3 : some (Shape.mt c r) = some so := h
      injection h3
    exact ⟨r, c, rfl, h2.symm⟩

theorem meanShape_inv {s1 so : Shape} (h : opShape OpKind.mean [s1] = some so) :
    ∃ r c, s1 = Shape.mt r c ∧ so = Shape.sc := by
  cases s1 with
  | sc => exact absurd h (by intro h2; exact Option.noConfusion h2)
  | un => exact absurd h (by intro h2; exact Option.noConfusion h2)
  | mt r c =>
    have h2 : Shape.sc = so := by
      have h3 : some Shape.sc = some so := h
      injection h3
    exact ⟨r, c, rfl, h2.symm⟩

theorem unaryShape_inv {k : OpKind} (hk : k = OpKind.sigmoid ∨ k = OpKind.square)
    {s1 so : Shape} (h : opShape k [s1] = some so) : s1 = so ∧ so ≠ Shape.un := by
  rcases hk with rfl | rfl <;>
  · cases s1 with
    | sc =>
      have h2 : Shape.sc = so := by
        have h3 : some Shape.sc = some so := h
        injection h3
      exact ⟨h2, by rw [← h2]; intro h4; exact Shape.noConfusion h4⟩
    | un => exact absurd h (by intro h2; exact Option.noConfusion h2)
    | mt r c =>
      have h2 : Shape.mt r c = so := by
        have h3 : some (Shape.mt r c) = some so := h
        injection h3
      exact ⟨h2, by rw [← h2]; intro h4; exact Shape.noConfusion h4⟩

theorem ew2_negone (gv : Value) : ew2 (· * ·) (Value.sc (-1)) gv = ew1 (fun x => -x) gv := by
  cases gv with
  | sc x => simp [ew2, ew1, neg_one_mul]
  | mt m => simp [ew2, ew1, mapMat, neg_one_mul]
  | un => rfl

theorem option_some_bind_red {α β : Type} (a : α) (f : α → Option β) :
    (some a >>= f : Option β) = f a := rfl

theorem shapeOf_exists {g : Graph} {i : Nat} {s : Shape} (h : g.shapeOf i = some s) :
    ∃ t ∈ g.tensors, t.id = i := by
  unfold Graph.shapeOf at h
  cases hft : g.findTensor i with
  | none => rw [hft] at h; exact absurd h (by intro h2; exact Option.noConfusion h2)
  | some t =>
    obtain ⟨hm, hid⟩ := findTensor_some hft
    exact ⟨t, hm, hid⟩

theorem opFactory_succeeds {g : Graph} {k : OpKind} {args : List Nat} {shapes : List Shape}
    {outS : Shape} (hm : args.mapM g.shapeOf = some shapes) (ho : opShape k shapes = some outS) :
    g.opFactory k args = .ok (g.addOpNode k args outS) := by
  rw [opFactory_eq g k args shapes hm, ho]

/-- Backward rule of `mul` emits nodes denoting the gradient times the
other operand, on each side. -/
theorem backward_formula_mul (sig : ℚ → ℚ) {g : Graph} (hw : WFstruct g)
    {a b gradOut : Nat} {f : Nat} {va vb gv : Value} (ov : Value) {s1 s2 so : Shape}
    (hsa : g.shapeOf a = some s1) (hsb : g.shapeOf b = some s2)
    (hsg : g.shapeOf gradOut = some so)
    (hew : ewShape s1 s2 = some so)
    (hva : denoteT sig f g a = some va) (hvb : denoteT sig f g b = some vb)
    (hgv : denoteT sig f g gradOut = some gv)
    (hshva : va.shape = s1) (hshvb : vb.shape = s2) (hshgv : gv.shape = so) :
    ∃ g2 ga gb, (do
        let p1 ← g.mul gradOut b
        let p2 ← p1.1.mul gradOut a
        Except.ok (p2.1, [p1.2, p2.2]) : Except GErr (Graph × List Nat)) = .ok (g2, [ga, gb]) ∧
      Extends g g2 ∧
      [ga, gb].mapM (denoteT sig (f + 1) g2) = gradFormula OpKind.mul [va, vb] ov gv := by
  have hm1 : [gradOut, b].mapM g.shapeOf = some [so, s2] := mapM_pair_mk hsg hsb
  have hos1 : opShape OpKind.mul [so, s2] = some so := ewShape_out_left hew
  have h1 : g.mul gradOut b = .ok (g.addOpNode OpKind.mul [gradOut, b] so) :=
    opFactory_succeeds hm1 hos1
  have he1 : Extends g (g.addOpNode OpKind.mul [gradOut, b] so).1 :=
    addOpNode_extends g OpKind.mul [gradOut, b] so
  have hw1 : WFstruct (g.addOpNode OpKind.mul [gradOut, b] so).1 := by
    refine addOpNode_wf hw _ _ _ ?_
    intro i hi
    rcases List.mem_cons.1 hi with rfl | hi2
    · exact shapeOf_exists hsg
    · rcases List.mem_cons.1 hi2 with rfl | hi3
      · exact shapeOf_exists hsb
      · cases hi3
  have hm2 : [gradOut, a].mapM (g.addOpNode OpKind.mul [gradOut, b] so).1.shapeOf =
      some [so, s1] := mapM_pair_mk (shapeOf_extends he1 hsg) (shapeOf_extends he1 hsa)
  have hos2 : opShape OpKind.mul [so, s1] = some so := ewShape_out_flip hew
  have h2 : (g.addOpNode OpKind.mul [gradOut, b] so).1.mul gradOut a =
      .ok ((g.addOpNode OpKind.mul [gradOut, b] so).1.addOpNode OpKind.mul [gradOut, a] so) :=
    opFactory_succeeds hm2 hos2
  have he2 : Extends (g.addOpNode OpKind.mul [gradOut, b] so).1
      ((g.addOpNode OpKind.mul [gradOut, b] so).1.addOpNode OpKind.mul [gradOut, a] so).1 :=
    addOpNode_extends _ OpKind.mul [gradOut, a] so
  have heg2 : Extends g
      ((g.addOpNode OpKind.mul [gradOut, b] so).1.addOpNode OpKind.mul [gradOut, a] so).1 :=
    Extends.trans he1 he2
  obtain ⟨gaV, hgaV, hgaVs⟩ := ew2_defined (· * ·) gv vb so (by rw [hshgv, hshvb]; exact ewShape_out_left hew)
  obtain ⟨gbV, hgbV, hgbVs⟩ := ew2_defined (· * ·) gv va so (by rw [hshgv, hshva]; exact ewShape_out_flip hew)
  have hgv2 := denote_extends sig f heg2 gradOut gv hgv
  have hvb2 := denote_extends sig f heg2 b vb hvb
  have hva2 := denote_extends sig f heg2 a va hva
  have hdga : denoteT sig (f + 1)
      ((g.addOpNode OpKind.mul [gradOut, b] so).1.addOpNode OpKind.mul [gradOut, a] so).1
      (g.addOpNode OpKind.mul [gradOut, b] so).2 = some gaV := by
    refine Eq.trans (denote_via_node sig f
      (findTensor_extends he2 (addOpNode_findTensor_new hw OpKind.mul [gradOut, b] so))
      rfl
      (findOp_extends he2 (addOpNode_findOp_new hw OpKind.mul [gradOut, b] so))
      (by intro hc; rcases hc with h3 | h3 <;> exact OpKind.noConfusion h3)) ?_
    rw [mapM_pair_mk hgv2 hvb2]
    show forward sig OpKind.mul [gv, vb] = some gaV
    rw [forward_mul_eq]
    exact hgaV
  have hdgb : denoteT sig (f + 1)
      ((g.addOpNode OpKind.mul [gradOut, b] so).1.addOpNode OpKind.mul [gradOut, a] so).1
      ((g.addOpNode OpKind.mul [gradOut, b] so).1.addOpNode OpKind.mul [gradOut, a] so).2 =
      some gbV := by
    refine Eq.trans (denote_via_node sig f
      (addOpNode_findTensor_new hw1 OpKind.mul [gradOut, a] so)
      rfl
      (addOpNode_findOp_new hw1 OpKind.mul [gradOut, a] so)
      (by intro hc; rcases hc with h3 | h3 <;> exact OpKind.noConfusion h3)) ?_
    rw [mapM_pair_mk hgv2 hva2]
    show forward sig OpKind.mul [gv, va] = some gbV
    rw [forward_mul_eq]
    exact hgbV
  refine ⟨((g.addOpNode OpKind.mul [gradOut, b] so).1.addOpNode OpKind.mul [gradOut, a] so).1,
    (g.addOpNode OpKind.mul [gradOut, b] so).2,
    ((g.addOpNode OpKind.mul [gradOut, b] so).1.addOpNode OpKind.mul [gradOut, a] so).2,
    ?_, heg2, ?_⟩
  · rw [h1, except_ok_bind_red, h2, except_ok_bind_red]
  · rw [mapM_pair_mk hdga hdgb]
    show some [gaV, gbV] = gradFormula OpKind.mul [va, vb] ov gv
    show some [gaV, gbV] = (do
      let x ← ew2 (· * ·) gv vb
      let y ← ew2 (· * ·) gv va
      some [x, y])
    rw [hgaV, option_some_bind_red, hgbV, option_some_bind_red]

theorem ew1_defined (f : ℚ → ℚ) (v : Value) (h : v.shape ≠ Shape.un) :
    ∃ w, ew1 f v = some w ∧ w.shape = v.shape := by
  cases v with
  | sc x => exact ⟨Value.sc (f x), rfl, rfl⟩
  | mt m =>
    refine ⟨Value.mt (mapMat f m), rfl, ?_⟩
    show Shape.mt (Mat.rows _) (Mat.cols _) = Shape.mt m.rows m.cols
    rw [mapMat_rows, mapMat_cols]
  | un => exact absurd rfl h

theorem shapeOf_addLeaf_new {g : Graph} (hw : WFstruct g) (v : Value) :
    (g.addLeaf v).1.shapeOf g.nextId = some v.shape := by
  unfold Graph.shapeOf
  rw [addLeaf_findTensor_new hw v]
  rfl

/-- Backward rule of `sub` passes the gradient through on the left and
negates it on the right. -/
theorem backward_formula_sub (sig : ℚ → ℚ) {g : Graph} (hw : WFstruct g)
    {gradOut : Nat} {f : Nat} {gv : Value} (va vb ov : Value) {s1 s2 so : Shape}
    (hsg : g.shapeOf gradOut = some so)
    (hew : ewShape s1 s2 = some so)
    (hgv : denoteT sig f g gradOut = some gv)
    (hshgv : gv.shape = so) :
    ∃ g2 gb, (do
        let t1 := g.tensor (Value.sc (-1))
        let p1 ← t1.1.mul t1.2 gradOut
        Except.ok (p1.1, [gradOut, p1.2]) : Except GErr (Graph × List Nat)) = .ok (g2, [gradOut, gb]) ∧
      Extends g g2 ∧
      [gradOut, gb].mapM (denoteT sig (f + 2) g2) = gradFormula OpKind.sub [va, vb] ov gv := by
  have hnoun : so ≠ Shape.un := ewShape_no_un hew
  have he1 : Extends g (g.addLeaf (Value.sc (-1))).1 := addLeaf_extends g _
  have hw1 : WFstruct (g.addLeaf (Value.sc (-1))).1 := addLeaf_wf hw _
  have hm1 : [g.nextId, gradOut].mapM (g.addLeaf (Value.sc (-1))).1.shapeOf =
      some [Shape.sc, so] :=
    mapM_pair_mk (shapeOf_addLeaf_new hw (Value.sc (-1))) (shapeOf_extends he1 hsg)
  have hos1 : opShape OpKind.mul [Shape.sc, so] = some so := ewShape_sc_left hnoun
  have h1 : (g.addLeaf (Value.sc (-1))).1.mul g.nextId gradOut =
      .ok ((g.addLeaf (Value.sc (-1))).1.addOpNode OpKind.mul [g.nextId, gradOut] so) :=
    opFactory_succeeds hm1 hos1
  have he2 : Extends (g.addLeaf (Value.sc (-1))).1
      ((g.addLeaf (Value.sc (-1))).1.addOpNode OpKind.mul [g.nextId, gradOut] so).1 :=
    addOpNode_extends _ _ _ _
  have heg2 := Extends.trans he1 he2
  obtain ⟨nV, hnV, hnVs⟩ := ew1_defined (fun x => -x) gv (by rw [hshgv]; exact hnoun)
  have hgv2 : denoteT sig (f + 1)
      ((g.addLeaf (Value.sc (-1))).1.addOpNode OpKind.mul [g.nextId, gradOut] so).1 gradOut =
      some gv := denoteT_mono sig f _ _ _ (denote_extends sig f heg2 gradOut gv hgv)
  have hleaf : denoteT sig (f + 1)
      ((g.addLeaf (Value.sc (-1))).1.addOpNode OpKind.mul [g.nextId, gradOut] so).1 g.nextId =
      some (Value.sc (-1)) := by
    have := denote_leaf sig f (g := ((g.addLeaf (Value.sc (-1))).1.addOpNode OpKind.mul [g.nextId, gradOut] so).1)
      (findTensor_extends he2 (addLeaf_findTensor_new hw (Value.sc (-1)))) rfl
    exact this
  have hdgb : denoteT sig (f + 2)
      ((g.addLeaf (Value.sc (-1))).1.addOpNode OpKind.mul [g.nextId, gradOut] so).1
      ((g.addLeaf (Value.sc (-1))).1.addOpNode OpKind.mul [g.nextId, gradOut] so).2 =
      some nV := by
    refine Eq.trans (denote_via_node sig (f + 1)
      (addOpNode_findTensor_new hw1 OpKind.mul [g.nextId, gradOut] so)
      rfl
      (addOpNode_findOp_new hw1 OpKind.mul [g.nextId, gradOut] so)
      (by intro hc; rcases hc with h3 | h3 <;> exact OpKind.noConfusion h3)) ?_
    rw [mapM_pair_mk hleaf hgv2]
    show forward sig OpKind.mul [Value.sc (-1), gv] = some nV
    rw [forward_mul_eq, ew2_negone]
    exact hnV
  refine ⟨((g.addLeaf (Value.sc (-1))).1.addOpNode OpKind.mul [g.nextId, gradOut] so).1,
    ((g.addLeaf (Value.sc (-1))).1.addOpNode OpKind.mul [g.nextId, gradOut] so).2,
    ?_, heg2, ?_⟩
  · show ((g.addLeaf (Value.sc (-1))).1.mul (g.addLeaf (Value.sc (-1))).2 gradOut).bind _ = _
    rw [show (g.addLeaf (Value.sc (-1))).2 = g.nextId from rfl]
    rw [show ((g.addLeaf (Value.sc (-1))).1.mul g.nextId gradOut).bind _ =
      ((g.addLeaf (Value.sc (-1))).1.mul g.nextId gradOut) >>= _ from rfl]
    rw [h1, except_ok_bind_red]
  · rw [mapM_pair_mk (denoteT_mono sig (f + 1) _ _ _ hgv2) hdgb]
    show some [gv, nV] = gradFormula OpKind.sub [va, vb] ov gv
    show some [gv, nV] = (do
      let n ← ew1 (fun x => -x) gv
      some [gv, n])
    rw [hnV, option_some_bind_red]

/-- Backward rule of `transpose` emits the transpose of the incoming
gradient. -/
theorem backward_formula_transpose (sig : ℚ → ℚ) {g : Graph} (hw : WFstruct g)
    {gradOut : Nat} {f : Nat} {gv : Value} (va ov : Value) {r c : Nat}
    (hsg : g.shapeOf gradOut = some (Shape.mt c r))
    (hgv : denoteT sig f g gradOut = some gv)
    (hshgv : gv.shape = Shape.mt c r) :
    ∃ g2 gt, (do
        let p1 ← g.transpose gradOut
        Except.ok (p1.1, [p1.2]) : Except GErr (Graph × List Nat)) = .ok (g2, [gt]) ∧
      Extends g g2 ∧
      [gt].mapM (denoteT sig (f + 1) g2) = gradFormula OpKind.transpose [va] ov gv := by
  have hm1 : [gradOut].mapM g.shapeOf = some [Shape.mt c r] := mapM_single_mk hsg
  have hos1 : opShape OpKind.transpose [Shape.mt c r] = some (Shape.mt r c) := rfl
  have h1 : g.transpose gradOut =
      .ok (g.addOpNode OpKind.transpose [gradOut] (Shape.mt r c)) :=
    opFactory_succeeds hm1 hos1
  have he1 : Extends g (g.addOpNode OpKind.transpose [gradOut] (Shape.mt r c)).1 :=
    addOpNode_extends _ _ _ _
  obtain ⟨gm, rfl⟩ : ∃ gm, gv = Value.mt gm := by
    cases gv with
    | sc x => exact absurd hshgv (by intro h3; exact Shape.noConfusion h3)
    | un => exact absurd hshgv (by intro h3; exact Shape.noConfusion h3)
    | mt gm => exact ⟨gm, rfl⟩
  have hgv1 := denote_extends sig f he1 gradOut _ hgv
  have hdgt : denoteT sig (f + 1) (g.addOpNode OpKind.transpose [gradOut] (Shape.mt r c)).1
      (g.addOpNode OpKind.transpose [gradOut] (Shape.mt r c)).2 =
      some (Value.mt (transposeMat gm)) := by
    refine Eq.trans (denote_via_node sig f
      (addOpNode_findTensor_new hw OpKind.transpose [gradOut] (Shape.mt r c))
      rfl
      (addOpNode_findOp_new hw OpKind.transpose [gradOut] (Shape.mt r c))
      (by intro hc; rcases hc with h3 | h3 <;> exact OpKind.noConfusion h3)) ?_
    rw [mapM_single_mk hgv1]
    show forward sig OpKind.transpose [Value.mt gm] = some (Value.mt (transposeMat gm))
    rfl
  refine ⟨(g.addOpNode OpKind.transpose [gradOut] (Shape.mt r c)).1,
    (g.addOpNode OpKind.transpose [gradOut] (Shape.mt r c)).2, ?_, he1, ?_⟩
  · rw [h1, except_ok_bind_red]
  · rw [mapM_single_mk hdgt]
    show some [Value.mt (transposeMat gm)] = gradFormula OpKind.transpose [va] ov (Value.mt gm)
    rfl

theorem shapeOf_addOpNode_new {g : Graph} (hw : WFstruct g) (k : OpKind) (args : List Nat)
    (so : Shape) : (g.addOpNode k args so).1.shapeOf (g.nextId + 1) = some so := by
  unfold Graph.shapeOf
  rw [addOpNode_findTensor_new hw k args so]
  rfl

/-- Backward rule of `square` emits nodes denoting two times the input
times the incoming gradient. -/
theorem backward_formula_square (sig : ℚ → ℚ) {g : Graph} (hw : WFstruct g)
    {a gradOut : Nat} {f : Nat} {va gv : Value} (ov : Value) {so : Shape}
    (hsa : g.shapeOf a = some so) (hsg : g.shapeOf gradOut = some so)
    (hnoun : so ≠ Shape.un)
    (hva : denoteT sig f g a = some va) (hgv : denoteT sig f g gradOut = some gv)
    (hshva : va.shape = so) (hshgv : gv.shape = so) :
    ∃ g3 gi, (do
        let t1 := g.tensor (Value.sc 2)
        let p1 ← t1.1.mul t1.2 a
        let p2 ← p1.1.mul p1.2 gradOut
        Except.ok (p2.1, [p2.2]) : Except GErr (Graph × List Nat)) = .ok (g3, [gi]) ∧
      Extends g g3 ∧
      [gi].mapM (denoteT sig (f + 3) g3) = gradFormula OpKind.square [va] ov gv := by
  have he1 : Extends g (g.addLeaf (Value.sc 2)).1 := addLeaf_extends g _
  have hw1 : WFstruct (g.addLeaf (Value.sc 2)).1 := addLeaf_wf hw _
  have hm1 : [g.nextId, a].mapM (g.addLeaf (Value.sc 2)).1.shapeOf = some [Shape.sc, so] :=
    mapM_pair_mk (shapeOf_addLeaf_new hw (Value.sc 2)) (shapeOf_extends he1 hsa)
  have h1 : (g.addLeaf (Value.sc 2)).1.mul g.nextId a =
      .ok ((g.addLeaf (Value.sc 2)).1.addOpNode OpKind.mul [g.nextId, a] so) :=
    opFactory_succeeds hm1 (ewShape_sc_left hnoun)
  have he2 : Extends (g.addLeaf (Value.sc 2)).1
      ((g.addLeaf (Value.sc 2)).1.addOpNode OpKind.mul [g.nextId, a] so).1 :=
    addOpNode_extends _ _ _ _
  have hw2 : WFstruct ((g.addLeaf (Value.sc 2)).1.addOpNode OpKind.mul [g.nextId, a] so).1 := by
    refine addOpNode_wf hw1 _ _ _ ?_
    intro i hi
    rcases List.mem_cons.1 hi with rfl | hi2
    · exact shapeOf_exists (shapeOf_addLeaf_new hw (Value.sc 2))
    · rcases List.mem_cons.1 hi2 with rfl | hi3
      · exact shapeOf_exists (shapeOf_extends he1 hsa)
      · cases hi3
  have hmid : ((g.addLeaf (Value.sc 2)).1.addOpNode OpKind.mul [g.nextId, a] so).1.shapeOf
      ((g.addLeaf (Value.sc 2)).1.addOpNode OpKind.mul [g.nextId, a] so).2 = some so :=
    shapeOf_addOpNode_new hw1 OpKind.mul [g.nextId, a] so
  have hm2 : [((g.addLeaf (Value.sc 2)).1.addOpNode OpKind.mul [g.nextId, a] so).2,
      gradOut].mapM ((g.addLeaf (Value.sc 2)).1.addOpNode OpKind.mul [g.nextId, a] so).1.shapeOf =
      some [so, so] :=
    mapM_pair_mk hmid (shapeOf_extends (Extends.trans he1 he2) hsg)
  have h2 : ((g.addLeaf (Value.sc 2)).1.addOpNode OpKind.mul [g.nextId, a] so).1.mul
      ((g.addLeaf (Value.sc 2)).1.addOpNode OpKind.mul [g.nextId, a] so).2 gradOut =
      .ok (((g.addLeaf (Value.sc 2)).1.addOpNode OpKind.mul [g.nextId, a] so).1.addOpNode
        OpKind.mul [((g.addLeaf (Value.sc 2)).1.addOpNode OpKind.mul [g.nextId, a] so).2, gradOut] so) :=
    opFactory_succeeds hm2 (ewShape_self hnoun)
  have he3 : Extends ((g.addLeaf (Value.sc 2)).1.addOpNode OpKind.mul [g.nextId, a] so).1
      (((g.addLeaf (Value.sc 2)).1.addOpNode OpKind.mul [g.nextId, a] so).1.addOpNode
        OpKind.mul [((g.addLeaf (Value.sc 2)).1.addOpNode OpKind.mul [g.nextId, a] so).2, gradOut] so).1 :=
    addOpNode_extends _ _ _ _
  have heg3 := Extends.trans he1 (Extends.trans he2 he3)
  obtain ⟨tV, htV, htVs⟩ := ew2_defined (· * ·) (Value.sc 2) va so
    (by rw [hshva]; exact ewShape_sc_left hnoun)
  obtain ⟨rV, hrV, hrVs⟩ := ew2_defined (· * ·) tV gv so
    (by rw [htVs, hshgv]; exact ewShape_self hnoun)
  have hleaf : denoteT sig (f + 1)
      (((g.addLeaf (Value.sc 2)).1.addOpNode OpKind.mul [g.nextId, a] so).1.addOpNode
        OpKind.mul [((g.addLeaf (Value.sc 2)).1.addOpNode OpKind.mul [g.nextId, a] so).2, gradOut] so).1
      g.nextId = some (Value.sc 2) :=
    denote_leaf sig f (findTensor_extends (Extends.trans he2 he3)
      (addLeaf_findTensor_new hw (Value.sc 2))) rfl
  have hva3 := denoteT_mono sig f _ _ _ (denote_extends sig f heg3 a va hva)
  have hgv3 := denoteT_mono sig (f + 1) _ _ _
    (denoteT_mono sig f _ _ _ (denote_extends sig f heg3 gradOut gv hgv))
  have hdmid : denoteT sig (f + 2)
      (((g.addLeaf (Value.sc 2)).1.addOpNode OpKind.mul [g.nextId, a] so).1.addOpNode
        OpKind.mul [((g.addLeaf (Value.sc 2)).1.addOpNode OpKind.mul [g.nextId, a] so).2, gradOut] so).1
      ((g.addLeaf (Value.sc 2)).1.addOpNode OpKind.mul [g.nextId, a] so).2 = some tV := by
    refine Eq.trans (denote_via_node sig (f + 1)
      (findTensor_extends he3 (addOpNode_findTensor_new hw1 OpKind.mul [g.nextId, a] so))
      rfl
      (findOp_extends he3 (addOpNode_findOp_new hw1 OpKind.mul [g.nextId, a] so))
      (by intro hc; rcases hc with h3 | h3 <;> exact OpKind.noConfusion h3)) ?_
    rw [mapM_pair_mk hleaf hva3]
    show forward sig OpKind.mul [Value.sc 2, va] = some tV
    rw [forward_mul_eq]
    exact htV
  have hdgi : denoteT sig (f + 3)
      (((g.addLeaf (Value.sc 2)).1.addOpNode OpKind.mul [g.nextId, a] so).1.addOpNode
        OpKind.mul [((g.addLeaf (Value.sc 2)).1.addOpNode OpKind.mul [g.nextId, a] so).2, gradOut] so).1
      (((g.addLeaf (Value.sc 2)).1.addOpNode OpKind.mul [g.nextId, a] so).1.addOpNode
        OpKind.mul [((g.addLeaf (Value.sc 2)).1.addOpNode OpKind.mul [g.nextId, a] so).2, gradOut] so).2 =
      some rV := by
    refine Eq.trans (denote_via_node sig (f + 2)
      (addOpNode_findTensor_new hw2 OpKind.mul _ so)
      rfl
      (addOpNode_findOp_new hw2 OpKind.mul _ so)
      (by intro hc; rcases hc with h3 | h3 <;> exact OpKind.noConfusion h3)) ?_
    rw [mapM_pair_mk hdmid hgv3]
    show forward sig OpKind.mul [tV, gv] = some rV
    rw [forward_mul_eq]
    exact hrV
  refine ⟨(((g.addLeaf (Value.sc 2)).1.addOpNode OpKind.mul [g.nextId, a] so).1.addOpNode
      OpKind.mul [((g.addLeaf (Value.sc 2)).1.addOpNode OpKind.mul [g.nextId, a] so).2, gradOut] so).1,
    (((g.addLeaf (Value.sc 2)).1.addOpNode OpKind.mul [g.nextId, a] so).1.addOpNode
      OpKind.mul [((g.addLeaf (Value.sc 2)).1.addOpNode OpKind.mul [g.nextId, a] so).2, gradOut] so).2,
    ?_, heg3, ?_⟩
  · show ((g.addLeaf (Value.sc 2)).1.mul (g.addLeaf (Value.sc 2)).2 a).bind _ = _
    rw [show (g.addLeaf (Value.sc 2)).2 = g.nextId from rfl]
    rw [show ((g.addLeaf (Value.sc 2)).1.mul g.nextId a).bind _ =
      ((g.addLeaf (Value.sc 2)).1.mul g.nextId a) >>= _ from rfl]
    rw [h1, except_ok_bind_red, h2, except_ok_bind_red]
  · rw [mapM_single_mk hdgi]
    show some [rV] = gradFormula OpKind.square [va] ov gv
    show some [rV] = (do
      let t ← ew2 (· * ·) (Value.sc 2) va
      let r ← ew2 (· * ·) t gv
      some [r])
    rw [htV, option_some_bind_red, hrV, option_some_bind_red]

/-- Backward rule of `sigmoid` emits nodes denoting output times one minus
output times the incoming gradient. -/
theorem backward_formula_sigmoid (sig : ℚ → ℚ) {g : Graph} (hw : WFstruct g)
    {outId gradOut : Nat} {f : Nat} {ov gv : Value} (va : Value) {so : Shape}
    (hsout : g.shapeOf outId = some so) (hsg : g.shapeOf gradOut = some so)
    (hnoun : so ≠ Shape.un)
    (hov : denoteT sig f g outId = some ov) (hgv : denoteT sig f g gradOut = some gv)
    (hshov : ov.shape = so) (hshgv : gv.shape = so) :
    ∃ g4 gi, (do
        let t1 := g.tensor (Value.sc 1)
        let p1 ← t1.1.sub t1.2 outId
        let p2 ← p1.1.mul outId p1.2
        let p3 ← p2.1.mul p2.2 gradOut
        Except.ok (p3.1, [p3.2]) : Except GErr (Graph × List Nat)) = .ok (g4, [gi]) ∧
      Extends g g4 ∧
      [gi].mapM (denoteT sig (f + 4) g4) = gradFormula OpKind.sigmoid [va] ov gv := by
  have he1 : Extends g (g.addLeaf (Value.sc 1)).1 := addLeaf_extends g _
  have hw1 : WFstruct (g.addLeaf (Value.sc 1)).1 := addLeaf_wf hw _
  have hm1 : [g.nextId, outId].mapM (g.addLeaf (Value.sc 1)).1.shapeOf = some [Shape.sc, so] :=
    mapM_pair_mk (shapeOf_addLeaf_new hw (Value.sc 1)) (shapeOf_extends he1 hsout)
  have h1 : (g.addLeaf (Value.sc 1)).1.sub g.nextId outId =
      .ok ((g.addLeaf (Value.sc 1)).1.addOpNode OpKind.sub [g.nextId, outId] so) :=
    opFactory_succeeds hm1 (ewShape_sc_left hnoun)
  have he2 : Extends (g.addLeaf (Value.sc 1)).1
      ((g.addLeaf (Value.sc 1)).1.addOpNode OpKind.sub [g.nextId, outId] so).1 :=
    addOpNode_extends _ _ _ _
  have hw2 : WFstruct ((g.addLeaf (Value.sc 1)).1.addOpNode OpKind.sub [g.nextId, outId] so).1 := by
    refine addOpNode_wf hw1 _ _ _ ?_
    intro i hi
    rcases List.mem_cons.1 hi with rfl | hi2
    · exact shapeOf_exists (shapeOf_addLeaf_new hw (Value.sc 1))
    · rcases List.mem_cons.1 hi2 with rfl | hi3
      · exact shapeOf_exists (shapeOf_extends he1 hsout)
      · cases hi3
  have hm2 : [outId, ((g.addLeaf (Value.sc 1)).1.addOpNode OpKind.sub [g.nextId, outId] so).2].mapM
      ((g.addLeaf (Value.sc 1)).1.addOpNode OpKind.sub [g.nextId, outId] so).1.shapeOf =
      some [so, so] :=
    mapM_pair_mk (shapeOf_extends (Extends.trans he1 he2) hsout)
      (shapeOf_addOpNode_new hw1 OpKind.sub [g.nextId, outId] so)
  have h2 : ((g.addLeaf (Value.sc 1)).1.addOpNode OpKind.sub [g.nextId, outId] so).1.mul outId
      ((g.addLeaf (Value.sc 1)).1.addOpNode OpKind.sub [g.nextId, outId] so).2 =
      .ok (((g.addLeaf (Value.sc 1)).1.addOpNode OpKind.sub [g.nextId, outId] so).1.addOpNode
        OpKind.mul [outId, ((g.addLeaf (Value.sc 1)).1.addOpNode OpKind.sub [g.nextId, outId] so).2] so) :=
    opFactory_succeeds hm2 (ewShape_self hnoun)
  have he3 : Extends ((g.addLeaf (Value.sc 1)).1.addOpNode OpKind.sub [g.nextId, outId] so).1
      (((g.addLeaf (Value.sc 1)).1.addOpNode OpKind.sub [g.nextId, outId] so).1.addOpNode
        OpKind.mul [outId, ((g.addLeaf (Value.sc 1)).1.addOpNode OpKind.sub [g.nextId, outId] so).2] so).1 :=
    addOpNode_extends _ _ _ _
  have hw3 : WFstruct (((g.addLeaf (Value.sc 1)).1.addOpNode OpKind.sub [g.nextId, outId] so).1.addOpNode
      OpKind.mul [outId, ((g.addLeaf (Value.sc 1)).1.addOpNode OpKind.sub [g.nextId, outId] so).2] so).1 := by
    refine addOpNode_wf hw2 _ _ _ ?_
    intro i hi
    rcases List.mem_cons.1 hi with rfl | hi2
    · exact shapeOf_exists (shapeOf_extends (Extends.trans he1 he2) hsout)
    · rcases List.mem_cons.1 hi2 with rfl | hi3
      · exact shapeOf_exists (shapeOf_addOpNode_new hw1 OpKind.sub [g.nextId, outId] so)
      · cases hi3
  have hm3 : [(((g.addLeaf (Value.sc 1)).1.addOpNode OpKind.sub [g.nextId, outId] so).1.addOpNode
        OpKind.mul [outId, ((g.addLeaf (Value.sc 1)).1.addOpNode OpKind.sub [g.nextId, outId] so).2] so).2,
      gradOut].mapM
      (((g.addLeaf (Value.sc 1)).1.addOpNode OpKind.sub [g.nextId, outId] so).1.addOpNode
        OpKind.mul [outId, ((g.addLeaf (Value.sc 1)).1.addOpNode OpKind.sub [g.nextId, outId] so).2] so).1.shapeOf =
      some [so, so] :=
    mapM_pair_mk (shapeOf_addOpNode_new hw2 OpKind.mul _ so)
      (shapeOf_extends (Extends.trans he1 (Extends.trans he2 he3)) hsg)
  have h3 : (((g.addLeaf (Value.sc 1)).1.addOpNode OpKind.sub [g.nextId, outId] so).1.addOpNode
        OpKind.mul [outId, ((g.addLeaf (Value.sc 1)).1.addOpNode OpKind.sub [g.nextId, outId] so).2] so).1.mul
      (((g.addLeaf (Value.sc 1)).1.addOpNode OpKind.sub [g.nextId, outId] so).1.addOpNode
        OpKind.mul [outId, ((g.addLeaf (Value.sc 1)).1.addOpNode OpKind.sub [g.nextId, outId] so).2] so).2
      gradOut =
      .ok ((((g.addLeaf (Value.sc 1)).1.addOpNode OpKind.sub [g.nextId, outId] so).1.addOpNode
        OpKind.mul [outId, ((g.addLeaf (Value.sc 1)).1.addOpNode OpKind.sub [g.nextId, outId] so).2] so).1.addOpNode
        OpKind.mul [(((g.addLeaf (Value.sc 1)).1.addOpNode OpKind.sub [g.nextId, outId] so).1.addOpNode
          OpKind.mul [outId, ((g.addLeaf (Value.sc 1)).1.addOpNode OpKind.sub [g.nextId, outId] so).2] so).2,
          gradOut] so) :=
    opFactory_succeeds hm3 (ewShape_self hnoun)
  have he4 : Extends (((g.addLeaf (Value.sc 1)).1.addOpNode OpKind.sub [g.nextId, outId] so).1.addOpNode
      OpKind.mul [outId, ((g.addLeaf (Value.sc 1)).1.addOpNode OpKind.sub [g.nextId, outId] so).2] so).1
      ((((g.addLeaf (Value.sc 1)).1.addOpNode OpKind.sub [g.nextId, outId] so).1.addOpNode
        OpKind.mul [outId, ((g.addLeaf (Value.sc 1)).1.addOpNode OpKind.sub [g.nextId, outId] so).2] so).1.addOpNode
        OpKind.mul [(((g.addLeaf (Value.sc 1)).1.addOpNode OpKind.sub [g.nextId, outId] so).1.addOpNode
          OpKind.mul [outId, ((g.addLeaf (Value.sc 1)).1.addOpNode OpKind.sub [g.nextId, outId] so).2] so).2,
          gradOut] so).1 :=
    addOpNode_extends _ _ _ _
  have heg4 := Extends.trans he1 (Extends.trans he2 (Extends.trans he3 he4))
  obtain ⟨omV, homV, homVs⟩ := ew2_defined (· - ·) (Value.sc 1) ov so
    (by rw [hshov]; exact ewShape_sc_left hnoun)
  obtain ⟨pV, hpV, hpVs⟩ := ew2_defined (· * ·) ov omV so
    (by rw [hshov, homVs]; exact ewShape_self hnoun)
  obtain ⟨rV, hrV, hrVs⟩ := ew2_defined (· * ·) pV gv so
    (by rw [hpVs, hshgv]; exact ewShape_self hnoun)
  have hleaf : denoteT sig (f + 1) ((((g.addLeaf (Value.sc 1)).1.addOpNode OpKind.sub [g.nextId, outId] so).1.addOpNode
        OpKind.mul [outId, ((g.addLeaf (Value.sc 1)).1.addOpNode OpKind.sub [g.nextId, outId] so).2] so).1.addOpNode
        OpKind.mul [(((g.addLeaf (Value.sc 1)).1.addOpNode OpKind.sub [g.nextId, outId] so).1.addOpNode
          OpKind.mul [outId, ((g.addLeaf (Value.sc 1)).1.addOpNode OpKind.sub [g.nextId, outId] so).2] so).2,
          gradOut] so).1 g.nextId = some (Value.sc 1) :=
    denote_leaf sig f (findTensor_extends (Extends.trans he2 (Extends.trans he3 he4))
      (addLeaf_findTensor_new hw (Value.sc 1))) rfl
  have hov1 := denoteT_mono sig f _ _ _ (denote_extends sig f heg4 outId ov hov)
  have hov2 := denoteT_mono sig (f + 1) _ _ _ hov1
  have hgv3 := denoteT_mono sig (f + 2) _ _ _ (denoteT_mono sig (f + 1) _ _ _
    (denoteT_mono sig f _ _ _ (denote_extends sig f heg4 gradOut gv hgv)))
  have hdom : denoteT sig (f + 2) ((((g.addLeaf (Value.sc 1)).1.addOpNode OpKind.sub [g.nextId, outId] so).1.addOpNode
        OpKind.mul [outId, ((g.addLeaf (Value.sc 1)).1.addOpNode OpKind.sub [g.nextId, outId] so).2] so).1.addOpNode
        OpKind.mul [(((g.addLeaf (Value.sc 1)).1.addOpNode OpKind.sub [g.nextId, outId] so).1.addOpNode
          OpKind.mul [outId, ((g.addLeaf (Value.sc 1)).1.addOpNode OpKind.sub [g.nextId, outId] so).2] so).2,
          gradOut] so).1
      ((g.addLeaf (Value.sc 1)).1.addOpNode OpKind.sub [g.nextId, outId] so).2 = some omV := by
    refine Eq.trans (denote_via_node sig (f + 1)
      (findTensor_extends (Extends.trans he3 he4)
        (addOpNode_findTensor_new hw1 OpKind.sub [g.nextId, outId] so))
      rfl
      (findOp_extends (Extends.trans he3 he4)
        (addOpNode_findOp_new hw1 OpKind.sub [g.nextId, outId] so))
      (by intro hc; rcases hc with h4 | h4 <;> exact OpKind.noConfusion h4)) ?_
    rw [mapM_pair_mk hleaf hov1]
    show forward sig OpKind.sub [Value.sc 1, ov] = some omV
    rw [forward_sub_eq]
    exact homV
  have hdp : denoteT sig (f + 3) ((((g.addLeaf (Value.sc 1)).1.addOpNode OpKind.sub [g.nextId, outId] so).1.addOpNode
        OpKind.mul [outId, ((g.addLeaf (Value.sc 1)).1.addOpNode OpKind.sub [g.nextId, outId] so).2] so).1.addOpNode
        OpKind.mul [(((g.addLeaf (Value.sc 1)).1.addOpNode OpKind.sub [g.nextId, outId] so).1.addOpNode
          OpKind.mul [outId, ((g.addLeaf (Value.sc 1)).1.addOpNode OpKind.sub [g.nextId, outId] so).2] so).2,
          gradOut] so).1
      (((g.addLeaf (Value.sc 1)).1.addOpNode OpKind.sub [g.nextId, outId] so).1.addOpNode
        OpKind.mul [outId, ((g.addLeaf (Value.sc 1)).1.addOpNode OpKind.sub [g.nextId, outId] so).2] so).2 =
      some pV := by
    refine Eq.trans (denote_via_node sig (f + 2)
      (findTensor_extends he4 (addOpNode_findTensor_new hw2 OpKind.mul _ so))
      rfl
      (findOp_extends he4 (addOpNode_findOp_new hw2 OpKind.mul _ so))
      (by intro hc; rcases hc with h4 | h4 <;> exact OpKind.noConfusion h4)) ?_
    rw [mapM_pair_mk hov2 hdom]
    show forward sig OpKind.mul [ov, omV] = some pV
    rw [forward_mul_eq]
    exact hpV
  have hdgi : denoteT sig (f + 4) ((((g.addLeaf (Value.sc 1)).1.addOpNode OpKind.sub [g.nextId, outId] so).1.addOpNode
        OpKind.mul [outId, ((g.addLeaf (Value.sc 1)).1.addOpNode OpKind.sub [g.nextId, outId] so).2] so).1.addOpNode
        OpKind.mul [(((g.addLeaf (Value.sc 1)).1.addOpNode OpKind.sub [g.nextId, outId] so).1.addOpNode
          OpKind.mul [outId, ((g.addLeaf (Value.sc 1)).1.addOpNode OpKind.sub [g.nextId, outId] so).2] so).2,
          gradOut] so).1
      ((((g.addLeaf (Value.sc 1)).1.addOpNode OpKind.sub [g.nextId, outId] so).1.addOpNode
        OpKind.mul [outId, ((g.addLeaf (Value.sc 1)).1.addOpNode OpKind.sub [g.nextId, outId] so).2] so).1.addOpNode
        OpKind.mul [(((g.addLeaf (Value.sc 1)).1.addOpNode OpKind.sub [g.nextId, outId] so).1.addOpNode
          OpKind.mul [outId, ((g.addLeaf (Value.sc 1)).1.addOpNode OpKind.sub [g.nextId, outId] so).2] so).2,
          gradOut] so).2 = some rV := by
    refine Eq.trans (denote_via_node sig (f + 3)
      (addOpNode_findTensor_new hw3 OpKind.mul _ so)
      rfl
      (addOpNode_findOp_new hw3 OpKind.mul _ so)
      (by intro hc; rcases hc with h4 | h4 <;> exact OpKind.noConfusion h4)) ?_
    rw [mapM_pair_mk hdp hgv3]
    show forward sig OpKind.mul [pV, gv] = some rV
    rw [forward_mul_eq]
    exact hrV
  refine ⟨((((g.addLeaf (Value.sc 1)).1.addOpNode OpKind.sub [g.nextId, outId] so).1.addOpNode
        OpKind.mul [outId, ((g.addLeaf (Value.sc 1)).1.addOpNode OpKind.sub [g.nextId, outId] so).2] so).1.addOpNode
        OpKind.mul [(((g.addLeaf (Value.sc 1)).1.addOpNode OpKind.sub [g.nextId, outId] so).1.addOpNode
          OpKind.mul [outId, ((g.addLeaf (Value.sc 1)).1.addOpNode OpKind.sub [g.nextId, outId] so).2] so).2,
          gradOut] so).1, ((((g.addLeaf (Value.sc 1)).1.addOpNode OpKind.sub [g.nextId, outId] so).1.addOpNode
        OpKind.mul [outId, ((g.addLeaf (Value.sc 1)).1.addOpNode OpKind.sub [g.nextId, outId] so).2] so).1.addOpNode
        OpKind.mul [(((g.addLeaf (Value.sc 1)).1.addOpNode OpKind.sub [g.nextId, outId] so).1.addOpNode
          OpKind.mul [outId, ((g.addLeaf (Value.sc 1)).1.addOpNode OpKind.sub [g.nextId, outId] so).2] so).2,
          gradOut] so).2, ?_, heg4, ?_⟩
  · show ((g.addLeaf (Value.sc 1)).1.sub (g.addLeaf (Value.sc 1)).2 outId).bind _ = _
    rw [show (g.addLeaf (Value.sc 1)).2 = g.nextId from rfl]
    rw [show ((g.addLeaf (Value.sc 1)).1.sub g.nextId outId).bind _ =
      ((g.addLeaf (Value.sc 1)).1.sub g.nextId outId) >>= _ from rfl]
    rw [h1, except_ok_bind_red, h2, except_ok_bind_red, h3, except_ok_bind_red]
  · rw [mapM_single_mk hdgi]
    show some [rV] = gradFormula OpKind.sigmoid [va] ov gv
    show some [rV] = (do
      let om ← ew2 (· - ·) (Value.sc 1) ov
      let p ← ew2 (· * ·) ov om
      let r ← ew2 (· * ·) p gv
      some [r])
    rw [homV, option_some_bind_red, hpV, option_some_bind_red, hrV, option_some_bind_red]

/-- Backward rule of `mean` emits a node denoting the gradient divided by
the element count, broadcast back to the input's shape. -/
theorem backward_formula_mean (sig : ℚ → ℚ) {g : Graph} (hw : WFstruct g)
    {a gradOut : Nat} {f : Nat} {va gv : Value} (ov : Value) {r c : Nat}
    (hsa : g.shapeOf a = some (Shape.mt r c)) (hsg : g.shapeOf gradOut = some Shape.sc)
    (hva : denoteT sig f g a = some va) (hgv : denoteT sig f g gradOut = some gv)
    (hshva : va.shape = Shape.mt r c) (hshgv : gv.shape = Shape.sc) :
    ∃ g2 gi, meanBackward g a gradOut = .ok (g2, [gi]) ∧ Extends g g2 ∧
      [gi].mapM (denoteT sig (f + 2) g2) = gradFormula OpKind.mean [va] ov gv := by
  obtain ⟨vm, rfl⟩ : ∃ vm, va = Value.mt vm := by
    cases va with
    | sc x => exact absurd hshva (by intro h3; exact Shape.noConfusion h3)
    | un => exact absurd hshva (by intro h3; exact Shape.noConfusion h3)
    | mt vm => exact ⟨vm, rfl⟩
  obtain ⟨q, rfl⟩ : ∃ q, gv = Value.sc q := by
    cases gv with
    | sc q => exact ⟨q, rfl⟩
    | un => exact absurd hshgv (by intro h3; exact Shape.noConfusion h3)
    | mt mm => exact absurd hshgv (by intro h3; exact Shape.noConfusion h3)
  have hvr : vm.rows = r ∧ vm.cols = c := by
    have h3 : Shape.mt vm.rows vm.cols = Shape.mt r c := hshva
    refine ⟨?_, ?_⟩ <;> injection h3 <;> assumption
  obtain ⟨ta, hfta, htash⟩ : ∃ ta, g.findTensor a = some ta ∧ ta.shape = Shape.mt r c := by
    unfold Graph.shapeOf at hsa
    cases hft : g.findTensor a with
    | none => rw [hft] at hsa; exact absurd hsa (by intro h3; exact Option.noConfusion h3)
    | some ta =>
      rw [hft] at hsa
      refine ⟨ta, rfl, ?_⟩
      have h3 : some ta.shape = some (Shape.mt r c) := hsa
      injection h3
  obtain ⟨r2, c2, hS⟩ : ∃ r2 c2,
      (Value.mt (constMat r c (1 / ((r : ℚ) * (c : ℚ))))).shape = Shape.mt r2 c2 := ⟨_, _, rfl⟩
  have he1 : Extends g (g.addLeaf (Value.mt (constMat r c (1 / ((r : ℚ) * (c : ℚ)))))).1 :=
    addLeaf_extends g _
  have hw1 : WFstruct (g.addLeaf (Value.mt (constMat r c (1 / ((r : ℚ) * (c : ℚ)))))).1 :=
    addLeaf_wf hw _
  have hshapeLeaf : (g.addLeaf (Value.mt (constMat r c (1 / ((r : ℚ) * (c : ℚ)))))).1.shapeOf
      g.nextId = some (Shape.mt r2 c2) := by
    rw [← hS]
    exact shapeOf_addLeaf_new hw (Value.mt (constMat r c (1 / ((r : ℚ) * (c : ℚ)))))
  have hm1 : [gradOut, g.nextId].mapM
      (g.addLeaf (Value.mt (constMat r c (1 / ((r : ℚ) * (c : ℚ)))))).1.shapeOf =
      some [Shape.sc, Shape.mt r2 c2] :=
    mapM_pair_mk (shapeOf_extends he1 hsg) hshapeLeaf
  have h1 : (g.addLeaf (Value.mt (constMat r c (1 / ((r : ℚ) * (c : ℚ)))))).1.mul gradOut g.nextId =
      .ok ((g.addLeaf (Value.mt (constMat r c (1 / ((r : ℚ) * (c : ℚ)))))).1.addOpNode
        OpKind.mul [gradOut, g.nextId] (Shape.mt r2 c2)) :=
    opFactory_succeeds hm1 rfl
  have he2 : Extends (g.addLeaf (Value.mt (constMat r c (1 / ((r : ℚ) * (c : ℚ)))))).1
      ((g.addLeaf (Value.mt (constMat r c (1 / ((r : ℚ) * (c : ℚ)))))).1.addOpNode
        OpKind.mul [gradOut, g.nextId] (Shape.mt r2 c2)).1 :=
    addOpNode_extends _ _ _ _
  have heg2 := Extends.trans he1 he2
  have hgv2 := denoteT_mono sig f _ _ _ (denote_extends sig f heg2 gradOut _ hgv)
  have hleaf : denoteT sig (f + 1)
      ((g.addLeaf (Value.mt (constMat r c (1 / ((r : ℚ) * (c : ℚ)))))).1.addOpNode
        OpKind.mul [gradOut, g.nextId] (Shape.mt r2 c2)).1 g.nextId =
      some (Value.mt (constMat r c (1 / ((r : ℚ) * (c : ℚ))))) :=
    denote_leaf sig f (findTensor_extends he2 (addLeaf_findTensor_new hw _)) rfl
  have hdgi : denoteT sig (f + 2)
      ((g.addLeaf (Value.mt (constMat r c (1 / ((r : ℚ) * (c : ℚ)))))).1.addOpNode
        OpKind.mul [gradOut, g.nextId] (Shape.mt r2 c2)).1
      ((g.addLeaf (Value.mt (constMat r c (1 / ((r : ℚ) * (c : ℚ)))))).1.addOpNode
        OpKind.mul [gradOut, g.nextId] (Shape.mt r2 c2)).2 =
      some (Value.mt ((constMat r c (1 / ((r : ℚ) * (c : ℚ)))).map
        (fun rw2 => rw2.map (fun x => q * x)))) := by
    refine Eq.trans (denote_via_node sig (f + 1)
      (addOpNode_findTensor_new hw1 OpKind.mul [gradOut, g.nextId] (Shape.mt r2 c2))
      rfl
      (addOpNode_findOp_new hw1 OpKind.mul [gradOut, g.nextId] (Shape.mt r2 c2))
      (by intro hc; rcases hc with h3 | h3 <;> exact OpKind.noConfusion h3)) ?_
    rw [mapM_pair_mk hgv2 hleaf]
    rfl
  refine ⟨((g.addLeaf (Value.mt (constMat r c (1 / ((r : ℚ) * (c : ℚ)))))).1.addOpNode
      OpKind.mul [gradOut, g.nextId] (Shape.mt r2 c2)).1,
    ((g.addLeaf (Value.mt (constMat r c (1 / ((r : ℚ) * (c : ℚ)))))).1.addOpNode
      OpKind.mul [gradOut, g.nextId] (Shape.mt r2 c2)).2, ?_, heg2, ?_⟩
  · unfold meanBackward
    rw [hfta]
    obtain ⟨taid, tapr, taval, tash⟩ := ta
    simp only at htash
    subst htash
    show ((g.addLeaf (Value.mt (constMat r c (1 / ((r : ℚ) * (c : ℚ)))))).1.mul gradOut
      (g.addLeaf (Value.mt (constMat r c (1 / ((r : ℚ) * (c : ℚ)))))).2).bind _ = _
    rw [show (g.addLeaf (Value.mt (constMat r c (1 / ((r : ℚ) * (c : ℚ)))))).2 = g.nextId from rfl]
    rw [show ((g.addLeaf (Value.mt (constMat r c (1 / ((r : ℚ) * (c : ℚ)))))).1.mul gradOut
      g.nextId).bind _ = ((g.addLeaf (Value.mt (constMat r c (1 / ((r : ℚ) * (c : ℚ)))))).1.mul
      gradOut g.nextId) >>= _ from rfl]
    rw [h1, except_ok_bind_red]
  · rw [mapM_single_mk hdgi]
    show _ = gradFormula OpKind.mean [Value.mt vm] ov (Value.sc q)
    show _ = (do
      let rr ← ew2 (· * ·) (Value.sc q)
        (Value.mt (constMat vm.rows vm.cols (1 / ((vm.rows : ℚ) * (vm.cols : ℚ)))))
      some [rr])
    rw [hvr.1, hvr.2]
    rfl

/-- Backward rule of `dot` emits nodes denoting the incoming gradient times
the transpose of the right operand, and the transpose of the left operand
times the incoming gradient. -/
theorem backward_formula_dot (sig : ℚ → ℚ) {g : Graph} (hw : WFstruct g)
    {a b gradOut : Nat} {f : Nat} {va vb gv : Value} (ov : Value) {r n p : Nat}
    (hn : 0 < n)
    (hsa : g.shapeOf a = some (Shape.mt r n)) (hsb : g.shapeOf b = some (Shape.mt n p))
    (hsg : g.shapeOf gradOut = some (Shape.mt r p))
    (hva : denoteT sig f g a = some va) (hvb : denoteT sig f g b = some vb)
    (hgv : denoteT sig f g gradOut = some gv)
    (hshva : va.shape = Shape.mt r n) (hshvb : vb.shape = Shape.mt n p)
    (hshgv : gv.shape = Shape.mt r p) :
    ∃ g2 ga gb, (do
        let p1 ← g.transpose b
        let p2 ← p1.1.dot gradOut p1.2
        let p3 ← p2.1.transpose a
        let p4 ← p3.1.dot p3.2 gradOut
        Except.ok (p4.1, [p2.2, p4.2]) : Except GErr (Graph × List Nat)) = .ok (g2, [ga, gb]) ∧
      Extends g g2 ∧
      [ga, gb].mapM (denoteT sig (f + 2) g2) = gradFormula OpKind.dot [va, vb] ov gv := by
  obtain ⟨am, rfl⟩ : ∃ m, va = Value.mt m := by
    cases va with
    | sc x => exact absurd hshva (by intro h3; exact Shape.noConfusion h3)
    | un => exact absurd hshva (by intro h3; exact Shape.noConfusion h3)
    | mt m => exact ⟨m, rfl⟩
  obtain ⟨bm, rfl⟩ : ∃ m, vb = Value.mt m := by
    cases vb with
    | sc x => exact absurd hshvb (by intro h3; exact Shape.noConfusion h3)
    | un => exact absurd hshvb (by intro h3; exact Shape.noConfusion h3)
    | mt m => exact ⟨m, rfl⟩
  obtain ⟨gm, rfl⟩ : ∃ m, gv = Value.mt m := by
    cases gv with
    | sc x => exact absurd hshgv (by intro h3; exact Shape.noConfusion h3)
    | un => exact absurd hshgv (by intro h3; exact Shape.noConfusion h3)
    | mt m => exact ⟨m, rfl⟩
  have hamd : am.rows = r ∧ am.cols = n := by
    have h3 : Shape.mt am.rows am.cols = Shape.mt r n := hshva
    refine ⟨?_, ?_⟩ <;> [skip; skip] <;> injection h3 <;> assumption
  have hbmd : bm.rows = n ∧ bm.cols = p := by
    have h3 : Shape.mt bm.rows bm.cols = Shape.mt n p := hshvb
    refine ⟨?_, ?_⟩ <;> [skip; skip] <;> injection h3 <;> assumption
  have hgmd : gm.rows = r ∧ gm.cols = p := by
    have h3 : Shape.mt gm.rows gm.cols = Shape.mt r p := hshgv
    refine ⟨?_, ?_⟩ <;> [skip; skip] <;> injection h3 <;> assumption
  have h1 : g.transpose b = .ok (g.addOpNode OpKind.transpose [b] (Shape.mt p n)) :=
    opFactory_succeeds (mapM_single_mk hsb) rfl
  have he1 : Extends g (g.addOpNode OpKind.transpose [b] (Shape.mt p n)).1 :=
    addOpNode_extends g OpKind.transpose [b] (Shape.mt p n)
  have hw1 : WFstruct (g.addOpNode OpKind.transpose [b] (Shape.mt p n)).1 := by
    refine addOpNode_wf hw _ _ _ ?_
    intro i hi
    rcases List.mem_cons.1 hi with rfl | hi2
    · exact shapeOf_exists hsb
    · cases hi2
  have hm2 : [gradOut, (g.addOpNode OpKind.transpose [b] (Shape.mt p n)).2].mapM
      (g.addOpNode OpKind.transpose [b] (Shape.mt p n)).1.shapeOf =
      some [Shape.mt r p, Shape.mt p n] :=
    mapM_pair_mk (shapeOf_extends he1 hsg)
      (shapeOf_addOpNode_new hw OpKind.transpose [b] (Shape.mt p n))
  have hos2 : opShape OpKind.dot [Shape.mt r p, Shape.mt p n] = some (Shape.mt r n) := by
    show (if p = p then some (Shape.mt r n) else none) = some (Shape.mt r n)
    rw [if_pos rfl]
  have h2 : (g.addOpNode OpKind.transpose [b] (Shape.mt p n)).1.dot gradOut
      (g.addOpNode OpKind.transpose [b] (Shape.mt p n)).2 =
      .ok ((g.addOpNode OpKind.transpose [b] (Shape.mt p n)).1.addOpNode OpKind.dot
        [gradOut, (g.addOpNode OpKind.transpose [b] (Shape.mt p n)).2] (Shape.mt r n)) :=
    opFactory_succeeds hm2 hos2
  have he2 : Extends (g.addOpNode OpKind.transpose [b] (Shape.mt p n)).1
      ((g.addOpNode OpKind.transpose [b] (Shape.mt p n)).1.addOpNode OpKind.dot
        [gradOut, (g.addOpNode OpKind.transpose [b] (Shape.mt p n)).2] (Shape.mt r n)).1 :=
    addOpNode_extends _ _ _ _
  have hw2 : WFstruct ((g.addOpNode OpKind.transpose [b] (Shape.mt p n)).1.addOpNode OpKind.dot
      [gradOut, (g.addOpNode OpKind.transpose [b] (Shape.mt p n)).2] (Shape.mt r n)).1 := by
    refine addOpNode_wf hw1 _ _ _ ?_
    intro i hi
    rcases List.mem_cons.1 hi with rfl | hi2
    · exact shapeOf_exists (shapeOf_extends he1 hsg)
    · rcases List.mem_cons.1 hi2 with rfl | hi3
      · exact shapeOf_exists (shapeOf_addOpNode_new hw OpKind.transpose [b] (Shape.mt p n))
      · cases hi3
  have h3 : ((g.addOpNode OpKind.transpose [b] (Shape.mt p n)).1.addOpNode OpKind.dot
      [gradOut, (g.addOpNode OpKind.transpose [b] (Shape.mt p n)).2] (Shape.mt r n)).1.transpose
      a = .ok (((g.addOpNode OpKind.transpose [b] (Shape.mt p n)).1.addOpNode OpKind.dot
        [gradOut, (g.addOpNode OpKind.transpose [b] (Shape.mt p n)).2]
        (Shape.mt r n)).1.addOpNode OpKind.transpose [a] (Shape.mt n r)) :=
    opFactory_succeeds (mapM_single_mk (shapeOf_extends (Extends.trans he1 he2) hsa)) rfl
  have he3 : Extends ((g.addOpNode OpKind.transpose [b] (Shape.mt p n)).1.addOpNode OpKind.dot
      [gradOut, (g.addOpNode OpKind.transpose [b] (Shape.mt p n)).2] (Shape.mt r n)).1
      (((g.addOpNode OpKind.transpose [b] (Shape.mt p n)).1.addOpNode OpKind.dot
        [gradOut, (g.addOpNode OpKind.transpose [b] (Shape.mt p n)).2]
        (Shape.mt r n)).1.addOpNode OpKind.transpose [a] (Shape.mt n r)).1 :=
    addOpNode_extends _ _ _ _
  have hw3 : WFstruct (((g.addOpNode OpKind.transpose [b] (Shape.mt p n)).1.addOpNode OpKind.dot
      [gradOut, (g.addOpNode OpKind.transpose [b] (Shape.mt p n)).2]
      (Shape.mt r n)).1.addOpNode OpKind.transpose [a] (Shape.mt n r)).1 := by
    refine addOpNode_wf hw2 _ _ _ ?_
    intro i hi
    rcases List.mem_cons.1 hi with rfl | hi2
    · exact shapeOf_exists (shapeOf_extends (Extends.trans he1 he2) hsa)
    · cases hi2
  have hm4 : [(((g.addOpNode OpKind.transpose [b] (Shape.mt p n)).1.addOpNode OpKind.dot
      [gradOut, (g.addOpNode OpKind.transpose [b] (Shape.mt p n)).2]
      (Shape.mt r n)).1.addOpNode OpKind.transpose [a] (Shape.mt n r)).2, gradOut].mapM
      (((g.addOpNode OpKind.transpose [b] (Shape.mt p n)).1.addOpNode OpKind.dot
        [gradOut, (g.addOpNode OpKind.transpose [b] (Shape.mt p n)).2]
        (Shape.mt r n)).1.addOpNode OpKind.transpose [a] (Shape.mt n r)).1.shapeOf =
      some [Shape.mt n r, Shape.mt r p] :=
    mapM_pair_mk (shapeOf_addOpNode_new hw2 OpKind.transpose [a] (Shape.mt n r))
      (shapeOf_extends (Extends.trans he1 (Extends.trans he2 he3)) hsg)
  have hos4 : opShape OpKind.dot [Shape.mt n r, Shape.mt r p] = some (Shape.mt n p) := by
    show (if r = r then some (Shape.mt n p) else none) = some (Shape.mt n p)
    rw [if_pos rfl]
  have h4 : (((g.addOpNode OpKind.transpose [b] (Shape.mt p n)).1.addOpNode OpKind.dot
      [gradOut, (g.addOpNode OpKind.transpose [b] (Shape.mt p n)).2]
      (Shape.mt r n)).1.addOpNode OpKind.transpose [a] (Shape.mt n r)).1.dot
      (((g.addOpNode OpKind.transpose [b] (Shape.mt p n)).1.addOpNode OpKind.dot
        [gradOut, (g.addOpNode OpKind.transpose [b] (Shape.mt p n)).2]
        (Shape.mt r n)).1.addOpNode OpKind.transpose [a] (Shape.mt n r)).2 gradOut =
      .ok ((((g.addOpNode OpKind.transpose [b] (Shape.mt p n)).1.addOpNode OpKind.dot
        [gradOut, (g.addOpNode OpKind.transpose [b] (Shape.mt p n)).2]
        (Shape.mt r n)).1.addOpNode OpKind.transpose [a] (Shape.mt n r)).1.addOpNode OpKind.dot
        [(((g.addOpNode OpKind.transpose [b] (Shape.mt p n)).1.addOpNode OpKind.dot
          [gradOut, (g.addOpNode OpKind.transpose [b] (Shape.mt p n)).2]
          (Shape.mt r n)).1.addOpNode OpKind.transpose [a] (Shape.mt n r)).2, gradOut]
        (Shape.mt n p)) :=
    opFactory_succeeds hm4 hos4
  have he4 : Extends (((g.addOpNode OpKind.transpose [b] (Shape.mt p n)).1.addOpNode OpKind.dot
      [gradOut, (g.addOpNode OpKind.transpose [b] (Shape.mt p n)).2]
      (Shape.mt r n)).1.addOpNode OpKind.transpose [a] (Shape.mt n r)).1
      ((((g.addOpNode OpKind.transpose [b] (Shape.mt p n)).1.addOpNode OpKind.dot
        [gradOut, (g.addOpNode OpKind.transpose [b] (Shape.mt p n)).2]
        (Shape.mt r n)).1.addOpNode OpKind.transpose [a] (Shape.mt n r)).1.addOpNode OpKind.dot
        [(((g.addOpNode OpKind.transpose [b] (Shape.mt p n)).1.addOpNode OpKind.dot
          [gradOut, (g.addOpNode OpKind.transpose [b] (Shape.mt p n)).2]
          (Shape.mt r n)).1.addOpNode OpKind.transpose [a] (Shape.mt n r)).2, gradOut]
        (Shape.mt n p)).1 :=
    addOpNode_extends _ _ _ _
  have heg4 : Extends g
      ((((g.addOpNode OpKind.transpose [b] (Shape.mt p n)).1.addOpNode OpKind.dot
        [gradOut, (g.addOpNode OpKind.transpose [b] (Shape.mt p n)).2]
        (Shape.mt r n)).1.addOpNode OpKind.transpose [a] (Shape.mt n r)).1.addOpNode OpKind.dot
        [(((g.addOpNode OpKind.transpose [b] (Shape.mt p n)).1.addOpNode OpKind.dot
          [gradOut, (g.addOpNode OpKind.transpose [b] (Shape.mt p n)).2]
          (Shape.mt r n)).1.addOpNode OpKind.transpose [a] (Shape.mt n r)).2, gradOut]
        (Shape.mt n p)).1 :=
    Extends.trans he1 (Extends.trans he2 (Extends.trans he3 he4))
  have hgvf := denote_extends sig f heg4 gradOut (Value.mt gm) hgv
  have hgv1 := denoteT_mono sig f _ _ _ hgvf
  have hvbf := denote_extends sig f heg4 b (Value.mt bm) hvb
  have hvaf := denote_extends sig f heg4 a (Value.mt am) hva
  have hd1 : denoteT sig (f + 1)
      ((((g.addOpNode OpKind.transpose [b] (Shape.mt p n)).1.addOpNode OpKind.dot
        [gradOut, (g.addOpNode OpKind.transpose [b] (Shape.mt p n)).2]
        (Shape.mt r n)).1.addOpNode OpKind.transpose [a] (Shape.mt n r)).1.addOpNode OpKind.dot
        [(((g.addOpNode OpKind.transpose [b] (Shape.mt p n)).1.addOpNode OpKind.dot
          [gradOut, (g.addOpNode OpKind.transpose [b] (Shape.mt p n)).2]
          (Shape.mt r n)).1.addOpNode OpKind.transpose [a] (Shape.mt n r)).2, gradOut]
        (Shape.mt n p)).1
      (g.addOpNode OpKind.transpose [b] (Shape.mt p n)).2 =
      some (Value.mt (transposeMat bm)) := by
    refine Eq.trans (denote_via_node sig f
      (findTensor_extends (Extends.trans he2 (Extends.trans he3 he4))
        (addOpNode_findTensor_new hw OpKind.transpose [b] (Shape.mt p n)))
      rfl
      (findOp_extends (Extends.trans he2 (Extends.trans he3 he4))
        (addOpNode_findOp_new hw OpKind.transpose [b] (Shape.mt p n)))
      (by intro hc; rcases hc with h5 | h5 <;> exact OpKind.noConfusion h5)) ?_
    rw [mapM_single_mk hvbf]
    rfl
  have hdv1 : dotValue (Value.mt gm) (Value.mt (transposeMat bm)) =
      some (Value.mt (dotMat gm (transposeMat bm))) := by
    show (if gm.cols = (transposeMat bm).rows then some (Value.mt (dotMat gm (transposeMat bm)))
      else none) = some (Value.mt (dotMat gm (transposeMat bm)))
    rw [if_pos (by rw [transposeMat_rows, hgmd.2, hbmd.2])]
  have hdv2 : dotValue (Value.mt (transposeMat am)) (Value.mt gm) =
      some (Value.mt (dotMat (transposeMat am) gm)) := by
    show (if (transposeMat am).cols = gm.rows then
      some (Value.mt (dotMat (transposeMat am) gm)) else none) =
      some (Value.mt (dotMat (transposeMat am) gm))
    rw [if_pos (by rw [transposeMat_cols am (by rw [hamd.2]; exact hn), hamd.1, hgmd.1])]
  have hd2 : denoteT sig (f + 2)
      ((((g.addOpNode OpKind.transpose [b] (Shape.mt p n)).1.addOpNode OpKind.dot
        [gradOut, (g.addOpNode OpKind.transpose [b] (Shape.mt p n)).2]
        (Shape.mt r n)).1.addOpNode OpKind.transpose [a] (Shape.mt n r)).1.addOpNode OpKind.dot
        [(((g.addOpNode OpKind.transpose [b] (Shape.mt p n)).1.addOpNode OpKind.dot
          [gradOut, (g.addOpNode OpKind.transpose [b] (Shape.mt p n)).2]
          (Shape.mt r n)).1.addOpNode OpKind.transpose [a] (Shape.mt n r)).2, gradOut]
        (Shape.mt n p)).1
      ((g.addOpNode OpKind.transpose [b] (Shape.mt p n)).1.addOpNode OpKind.dot
        [gradOut, (g.addOpNode OpKind.transpose [b] (Shape.mt p n)).2] (Shape.mt r n)).2 =
      some (Value.mt (dotMat gm (transposeMat bm))) := by
    refine Eq.trans (denote_via_node sig (f + 1)
      (findTensor_extends (Extends.trans he3 he4)
        (addOpNode_findTensor_new hw1 OpKind.dot
          [gradOut, (g.addOpNode OpKind.transpose [b] (Shape.mt p n)).2] (Shape.mt r n)))
      rfl
      (findOp_extends (Extends.trans he3 he4)
        (addOpNode_findOp_new hw1 OpKind.dot
          [gradOut, (g.addOpNode OpKind.transpose [b] (Shape.mt p n)).2] (Shape.mt r n)))
      (by intro hc; rcases hc with h5 | h5 <;> exact OpKind.noConfusion h5)) ?_
    rw [mapM_pair_mk hgv1 hd1]
    exact hdv1
  have hd3 : denoteT sig (f + 1)
      ((((g.addOpNode OpKind.transpose [b] (Shape.mt p n)).1.addOpNode OpKind.dot
        [gradOut, (g.addOpNode OpKind.transpose [b] (Shape.mt p n)).2]
        (Shape.mt r n)).1.addOpNode OpKind.transpose [a] (Shape.mt n r)).1.addOpNode OpKind.dot
        [(((g.addOpNode OpKind.transpose [b] (Shape.mt p n)).1.addOpNode OpKind.dot
          [gradOut, (g.addOpNode OpKind.transpose [b] (Shape.mt p n)).2]
          (Shape.mt r n)).1.addOpNode OpKind.transpose [a] (Shape.mt n r)).2, gradOut]
        (Shape.mt n p)).1
      (((g.addOpNode OpKind.transpose [b] (Shape.mt p n)).1.addOpNode OpKind.dot
        [gradOut, (g.addOpNode OpKind.transpose [b] (Shape.mt p n)).2]
        (Shape.mt r n)).1.addOpNode OpKind.transpose [a] (Shape.mt n r)).2 =
      some (Value.mt (transposeMat am)) := by
    refine Eq.trans (denote_via_node sig f
      (findTensor_extends he4
        (addOpNode_findTensor_new hw2 OpKind.transpose [a] (Shape.mt n r)))
      rfl
      (findOp_extends he4 (addOpNode_findOp_new hw2 OpKind.transpose [a] (Shape.mt n r)))
      (by intro hc; rcases hc with h5 | h5 <;> exact OpKind.noConfusion h5)) ?_
    rw [mapM_single_mk hvaf]
    rfl
  have hd4 : denoteT sig (f + 2)
      ((((g.addOpNode OpKind.transpose [b] (Shape.mt p n)).1.addOpNode OpKind.dot
        [gradOut, (g.addOpNode OpKind.transpose [b] (Shape.mt p n)).2]
        (Shape.mt r n)).1.addOpNode OpKind.transpose [a] (Shape.mt n r)).1.addOpNode OpKind.dot
        [(((g.addOpNode OpKind.transpose [b] (Shape.mt p n)).1.addOpNode OpKind.dot
          [gradOut, (g.addOpNode OpKind.transpose [b] (Shape.mt p n)).2]
          (Shape.mt r n)).1.addOpNode OpKind.transpose [a] (Shape.mt n r)).2, gradOut]
        (Shape.mt n p)).1
      ((((g.addOpNode OpKind.transpose [b] (Shape.mt p n)).1.addOpNode OpKind.dot
        [gradOut, (g.addOpNode OpKind.transpose [b] (Shape.mt p n)).2]
        (Shape.mt r n)).1.addOpNode OpKind.transpose [a] (Shape.mt n r)).1.addOpNode OpKind.dot
        [(((g.addOpNode OpKind.transpose [b] (Shape.mt p n)).1.addOpNode OpKind.dot
          [gradOut, (g.addOpNode OpKind.transpose [b] (Shape.mt p n)).2]
          (Shape.mt r n)).1.addOpNode OpKind.transpose [a] (Shape.mt n r)).2, gradOut]
        (Shape.mt n p)).2 =
      some (Value.mt (dotMat (transposeMat am) gm)) := by
    refine Eq.trans (denote_via_node sig (f + 1)
      (addOpNode_findTensor_new hw3 OpKind.dot
        [(((g.addOpNode OpKind.transpose [b] (Shape.mt p n)).1.addOpNode OpKind.dot
          [gradOut, (g.addOpNode OpKind.transpose [b] (Shape.mt p n)).2]
          (Shape.mt r n)).1.addOpNode OpKind.transpose [a] (Shape.mt n r)).2, gradOut]
        (Shape.mt n p))
      rfl
      (addOpNode_findOp_new hw3 OpKind.dot
        [(((g.addOpNode OpKind.transpose [b] (Shape.mt p n)).1.addOpNode OpKind.dot
          [gradOut, (g.addOpNode OpKind.transpose [b] (Shape.mt p n)).2]
          (Shape.mt r n)).1.addOpNode OpKind.transpose [a] (Shape.mt n r)).2, gradOut]
        (Shape.mt n p))
      (by intro hc; rcases hc with h5 | h5 <;> exact OpKind.noConfusion h5)) ?_
    rw [mapM_pair_mk hd3 hgv1]
    exact hdv2
  refine ⟨((((g.addOpNode OpKind.transpose [b] (Shape.mt p n)).1.addOpNode OpKind.dot
      [gradOut, (g.addOpNode OpKind.transpose [b] (Shape.mt p n)).2]
      (Shape.mt r n)).1.addOpNode OpKind.transpose [a] (Shape.mt n r)).1.addOpNode OpKind.dot
      [(((g.addOpNode OpKind.transpose [b] (Shape.mt p n)).1.addOpNode OpKind.dot
        [gradOut, (g.addOpNode OpKind.transpose [b] (Shape.mt p n)).2]
        (Shape.mt r n)).1.addOpNode OpKind.transpose [a] (Shape.mt n r)).2, gradOut]
      (Shape.mt n p)).1,
    ((g.addOpNode OpKind.transpose [b] (Shape.mt p n)).1.addOpNode OpKind.dot
      [gradOut, (g.addOpNode OpKind.transpose [b] (Shape.mt p n)).2] (Shape.mt r n)).2,
    ((((g.addOpNode OpKind.transpose [b] (Shape.mt p n)).1.addOpNode OpKind.dot
      [gradOut, (g.addOpNode OpKind.transpose [b] (Shape.mt p n)).2]
      (Shape.mt r n)).1.addOpNode OpKind.transpose [a] (Shape.mt n r)).1.addOpNode OpKind.dot
      [(((g.addOpNode OpKind.transpose [b] (Shape.mt p n)).1.addOpNode OpKind.dot
        [gradOut, (g.addOpNode OpKind.transpose [b] (Shape.mt p n)).2]
        (Shape.mt r n)).1.addOpNode OpKind.transpose [a] (Shape.mt n r)).2, gradOut]
      (Shape.mt n p)).2,
    ?_, heg4, ?_⟩
  · rw [h1, except_ok_bind_red, h2, except_ok_bind_red, h3, except_ok_bind_red, h4,
      except_ok_bind_red]
  · rw [mapM_pair_mk hd2 hd4]
    show some [Value.mt (dotMat gm (transposeMat bm)), Value.mt (dotMat (transposeMat am) gm)] =
      gradFormula OpKind.dot [Value.mt am, Value.mt bm] ov (Value.mt gm)
    show some [Value.mt (dotMat gm (transposeMat bm)), Value.mt (dotMat (transposeMat am) gm)] =
      (do
        let bt ← transposeValue (Value.mt bm)
        let ga ← dotValue (Value.mt gm) bt
        let ta ← transposeValue (Value.mt am)
        let gb ← dotValue ta (Value.mt gm)
        some [ga, gb])
    rw [show transposeValue (Value.mt bm) = some (Value.mt (transposeMat bm)) from rfl,
      option_some_bind_red, hdv1, option_some_bind_red,
      show transposeValue (Value.mt am) = some (Value.mt (transposeMat am)) from rfl,
      option_some_bind_red, hdv2, option_some_bind_red]

theorem mapM_inv_nil {β : Type} {f : Nat → Option β} {l : List Nat}
    (h : l.mapM f = some []) : l = [] := by
  cases l with
  | nil => rfl
  | cons a t =>
    rw [List.mapM_cons] at h
    obtain ⟨v, h1, h⟩ := option_bind_some h
    obtain ⟨vs, h2, h⟩ := option_bind_some h
    have h3 : some (v :: vs) = some ([] : List β) := h
    injection h3 with h4
    exact absurd h4 (by intro h5; exact List.noConfusion h5)

theorem mapM_inv_single {β : Type} {f : Nat → Option β} {l : List Nat} {x : β}
    (h : l.mapM f = some [x]) : ∃ a, l = [a] ∧ f a = some x := by
  cases l with
  | nil =>
    rw [List.mapM_nil] at h
    have h3 : some ([] : List β) = some [x] := h
    injection h3 with h4
    exact absurd h4 (by intro h5; exact List.noConfusion h5)
  | cons a t =>
    rw [List.mapM_cons] at h
    obtain ⟨v, h1, h⟩ := option_bind_some h
    obtain ⟨vs, h2, h⟩ := option_bind_some h
    have h3 : some (v :: vs) = some [x] := h
    injection h3 with h4
    injection h4 with h5 h6
    subst h5
    subst h6
    rw [mapM_inv_nil h2]
    exact ⟨a, rfl, h1⟩

theorem mapM_inv_pair {β : Type} {f : Nat → Option β} {l : List Nat} {x y : β}
    (h : l.mapM f = some [x, y]) : ∃ a b, l = [a, b] ∧ f a = some x ∧ f b = some y := by
  cases l with
  | nil =>
    rw [List.mapM_nil] at h
    have h3 : some ([] : List β) = some [x, y] := h
    injection h3 with h4
    exact absurd h4 (by intro h5; exact List.noConfusion h5)
  | cons a t =>
    rw [List.mapM_cons] at h
    obtain ⟨v, h1, h⟩ := option_bind_some h
    obtain ⟨vs, h2, h⟩ := option_bind_some h
    have h3 : some (v :: vs) = some [x, y] := h
    injection h3 with h4
    injection h4 with h5 h6
    subst h5
    subst h6
    obtain ⟨b, rfl, h7⟩ := mapM_inv_single h2
    exact ⟨a, b, rfl, h1, h7⟩

/-- C1: for every differentiable op kind with conforming, denotable inputs,
the backward rule emits gradient-expression nodes whose denotations equal
the stated per-kind gradient formulas: add/sub pass the gradient through
(negated for the subtracted operand); mul multiplies by the other operand;
dot yields grad · transpose(b) and transpose(a) · grad; transpose
transposes the gradient; sigmoid yields output times one minus output
times the gradient; square yields two times the input times the gradient;
mean broadcasts the gradient over the element count back to the input's
shape. -/
theorem claim_C1 (sig : ℚ → ℚ) {g : Graph} (hw : WFstruct g) {o : Op} {gradOut : Nat}
    {f : Nat} {ivs : List Value} {ss : List Shape} {so : Shape} {ov gv : Value}
    (hdiff : o.kind ≠ OpKind.assign ∧ o.kind ≠ OpKind.group)
    (hsh : o.inputs.mapM g.shapeOf = some ss)
    (hconf : opShape o.kind ss = some so)
    (hvals : o.inputs.mapM (denoteT sig f g) = some ivs)
    (hivs : ivs.map Value.shape = ss)
    (hsg : g.shapeOf gradOut = some so)
    (hgv : denoteT sig f g gradOut = some gv)
    (hshgv : gv.shape = so)
    (hsout : g.shapeOf o.out = some so)
    (hov : denoteT sig f g o.out = some ov)
    (hshov : ov.shape = so)
    (hpos : ∀ v ∈ ivs, v.posDims) :
    ∃ g2 gids fb, backward g o gradOut = .ok (g2, gids) ∧ Extends g g2 ∧
      gids.mapM (denoteT sig (f + fb) g2) = gradFormula o.kind ivs ov gv := by
  obtain ⟨oid, kind, inputs, outId⟩ := o
  cases kind with
  | assign => exact absurd rfl hdiff.1
  | group => exact absurd rfl hdiff.2
  | add =>
    cases ss with
    | nil => exact absurd hconf (by intro h5; exact Option.noConfusion h5)
    | cons s1 ss2 =>
      cases ss2 with
      | nil => exact absurd hconf (by intro h5; exact Option.noConfusion h5)
      | cons s2 ss3 =>
        cases ss3 with
        | cons s3 ss4 => exact absurd hconf (by intro h5; exact Option.noConfusion h5)
        | nil =>
          obtain ⟨a, b, heq2, hsa, hsb⟩ := mapM_inv_pair hsh
          rw [show (Op.mk oid OpKind.add inputs outId).inputs = inputs from rfl] at heq2
          subst heq2
          obtain ⟨va, vb, hva, hvb, rfl⟩ := mapM_pair_inv hvals
          refine ⟨g, [gradOut, gradOut], 1, rfl, Extends.rfl g, ?_⟩
          rw [mapM_pair_mk (denoteT_mono sig f _ _ _ hgv) (denoteT_mono sig f _ _ _ hgv)]
          rfl
  | sub =>
    cases ss with
    | nil => exact absurd hconf (by intro h5; exact Option.noConfusion h5)
    | cons s1 ss2 =>
      cases ss2 with
      | nil => exact absurd hconf (by intro h5; exact Option.noConfusion h5)
      | cons s2 ss3 =>
        cases ss3 with
        | cons s3 ss4 => exact absurd hconf (by intro h5; exact Option.noConfusion h5)
        | nil =>
          have hew : ewShape s1 s2 = some so := hconf
          obtain ⟨a, b, heq2, hsa, hsb⟩ := mapM_inv_pair hsh
          rw [show (Op.mk oid OpKind.sub inputs outId).inputs = inputs from rfl] at heq2
          subst heq2
          obtain ⟨va, vb, hva, hvb, rfl⟩ := mapM_pair_inv hvals
          obtain ⟨g2, gb, heq, hext, hform⟩ :=
            backward_formula_sub sig hw va vb ov hsg hew hgv hshgv
          exact ⟨g2, [gradOut, gb], 2, heq, hext, hform⟩
  | mul =>
    cases ss with
    | nil => exact absurd hconf (by intro h5; exact Option.noConfusion h5)
    | cons s1 ss2 =>
      cases ss2 with
      | nil => exact absurd hconf (by intro h5; exact Option.noConfusion h5)
      | cons s2 ss3 =>
        cases ss3 with
        | cons s3 ss4 => exact absurd hconf (by intro h5; exact Option.noConfusion h5)
        | nil =>
          have hew : ewShape s1 s2 = some so := hconf
          obtain ⟨a, b, heq2, hsa, hsb⟩ := mapM_inv_pair hsh
          rw [show (Op.mk oid OpKind.mul inputs outId).inputs = inputs from rfl] at heq2
          subst heq2
          obtain ⟨va, vb, hva, hvb, rfl⟩ := mapM_pair_inv hvals
          have hshva : va.shape = s1 := by
            have h5 : [va.shape, vb.shape] = [s1, s2] := hivs
            injection h5 with e1 e2
          have hshvb : vb.shape = s2 := by
            have h5 : [va.shape, vb.shape] = [s1, s2] := hivs
            injection h5 with e1 e2
            injection e2 with e3 e4
          obtain ⟨g2, ga, gb, heq, hext, hform⟩ :=
            backward_formula_mul sig hw ov hsa hsb hsg hew hva hvb hgv hshva hshvb hshgv
          exact ⟨g2, [ga, gb], 1, heq, hext, hform⟩
  | dot =>
    cases ss with
    | nil => exact absurd hconf (by intro h5; exact Option.noConfusion h5)
    | cons s1 ss2 =>
      cases ss2 with
      | nil =>
        cases s1 <;> exact absurd hconf (by intro h5; exact Option.noConfusion h5)
      | cons s2 ss3 =>
        cases ss3 with
        | cons s3 ss4 =>
          cases s1 <;> cases s2 <;>
            exact absurd hconf (by intro h5; exact Option.noConfusion h5)
        | nil =>
          cases s1 with
          | sc => exact absurd hconf (by intro h5; exact Option.noConfusion h5)
          | un => exact absurd hconf (by intro h5; exact Option.noConfusion h5)
          | mt r c1 =>
            cases s2 with
            | sc => exact absurd hconf (by intro h5; exact Option.noConfusion h5)
            | un => exact absurd hconf (by intro h5; exact Option.noConfusion h5)
            | mt r2 c2 =>
              have hc : (if c1 = r2 then some (Shape.mt r c2) else none) = some so := hconf
              by_cases h5 : c1 = r2
              · rw [if_pos h5] at hc
                subst h5
                have h6 : Shape.mt r c2 = so := by injection hc
                subst h6
                obtain ⟨a, b, heq2, hsa, hsb⟩ := mapM_inv_pair hsh
                rw [show (Op.mk oid OpKind.dot inputs outId).inputs = inputs from rfl] at heq2
                subst heq2
                obtain ⟨va, vb, hva, hvb, rfl⟩ := mapM_pair_inv hvals
                have hshva : va.shape = Shape.mt r c1 := by
                  have h7 : [va.shape, vb.shape] = [Shape.mt r c1, Shape.mt c1 c2] := hivs
                  injection h7 with e1 e2
                have hshvb : vb.shape = Shape.mt c1 c2 := by
                  have h7 : [va.shape, vb.shape] = [Shape.mt r c1, Shape.mt c1 c2] := hivs
                  injection h7 with e1 e2
                  injection e2 with e3 e4
                have hn : 0 < c1 := by
                  have hpva := hpos va (by exact List.mem_cons_self va [vb])
                  cases va with
                  | sc x => exact absurd hshva (by intro h8; exact Shape.noConfusion h8)
                  | un => exact absurd hshva (by intro h8; exact Shape.noConfusion h8)
                  | mt am =>
                    have h8 : Shape.mt am.rows am.cols = Shape.mt r c1 := hshva
                    have h9 : am.cols = c1 := by injection h8 with e1 e2
                    rw [← h9]
                    exact hpva.2
                obtain ⟨g2, ga, gb, heq, hext, hform⟩ :=
                  backward_formula_dot sig hw ov hn hsa hsb hsg hva hvb hgv hshva hshvb hshgv
                exact ⟨g2, [ga, gb], 2, heq, hext, hform⟩
              · rw [if_neg h5] at hc
                exact absurd hc (by intro h6; exact Option.noConfusion h6)
  | transpose =>
    cases ss with
    | nil => exact absurd hconf (by intro h5; exact Option.noConfusion h5)
    | cons s1 ss2 =>
      cases ss2 with
      | cons s2 ss3 =>
        cases s1 <;> exact absurd hconf (by intro h5; exact Option.noConfusion h5)
      | nil =>
        cases s1 with
        | sc => exact absurd hconf (by intro h5; exact Option.noConfusion h5)
        | un => exact absurd hconf (by intro h5; exact Option.noConfusion h5)
        | mt r c =>
          have h6 : Shape.mt c r = so := by
            have h5 : some (Shape.mt c r) = some so := hconf
            injection h5
          subst h6
          obtain ⟨a, heq2, hsa⟩ := mapM_inv_single hsh
          rw [show (Op.mk oid OpKind.transpose inputs outId).inputs = inputs from rfl] at heq2
          subst heq2
          obtain ⟨va, hva, rfl⟩ := mapM_single_inv hvals
          obtain ⟨g2, gt, heq, hext, hform⟩ :=
            backward_formula_transpose sig hw va ov hsg hgv hshgv
          exact ⟨g2, [gt], 1, heq, hext, hform⟩
  | sigmoid =>
    cases ss with
    | nil => exact absurd hconf (by intro h5; exact Option.noConfusion h5)
    | cons s1 ss2 =>
      cases ss2 with
      | cons s2 ss3 =>
        cases s1 <;> exact absurd hconf (by intro h5; exact Option.noConfusion h5)
      | nil =>
        obtain ⟨a, heq2, hsa⟩ := mapM_inv_single hsh
        rw [show (Op.mk oid OpKind.sigmoid inputs outId).inputs = inputs from rfl] at heq2
        subst heq2
        obtain ⟨va, hva, rfl⟩ := mapM_single_inv hvals
        have hso : so = s1 ∧ so ≠ Shape.un := by
          cases s1 with
          | sc =>
            have h5 : some Shape.sc = some so := hconf
            injection h5 with h6
            exact ⟨h6.symm, by rw [← h6]; intro h7; exact Shape.noConfusion h7⟩
          | un => exact absurd hconf (by intro h5; exact Option.noConfusion h5)
          | mt r c =>
            have h5 : some (Shape.mt r c) = some so := hconf
            injection h5 with h6
            exact ⟨h6.symm, by rw [← h6]; intro h7; exact Shape.noConfusion h7⟩
        obtain ⟨g2, gi, heq, hext, hform⟩ :=
          backward_formula_sigmoid sig hw va hsout hsg hso.2 hov hgv hshov hshgv
        exact ⟨g2, [gi], 4, heq, hext, hform⟩
  | square =>
    cases ss with
    | nil => exact absurd hconf (by intro h5; exact Option.noConfusion h5)
    | cons s1 ss2 =>
      cases ss2 with
      | cons s2 ss3 =>
        cases s1 <;> exact absurd hconf (by intro h5; exact Option.noConfusion h5)
      | nil =>
        obtain ⟨a, heq2, hsa⟩ := mapM_inv_single hsh
        rw [show (Op.mk oid OpKind.square inputs outId).inputs = inputs from rfl] at heq2
        subst heq2
        obtain ⟨va, hva, rfl⟩ := mapM_single_inv hvals
        have hshva : va.shape = s1 := by
          have h5 : [va.shape] = [s1] := hivs
          injection h5 with e1 e2
        have hso : so = s1 ∧ so ≠ Shape.un := by
          cases s1 with
          | sc =>
            have h5 : some Shape.sc = some so := hconf
            injection h5 with h6
            exact ⟨h6.symm, by rw [← h6]; intro h7; exact Shape.noConfusion h7⟩
          | un => exact absurd hconf (by intro h5; exact Option.noConfusion h5)
          | mt r c =>
            have h5 : some (Shape.mt r c) = some so := hconf
            injection h5 with h6
            exact ⟨h6.symm, by rw [← h6]; intro h7; exact Shape.noConfusion h7⟩
        obtain ⟨g2, gi, heq, hext, hform⟩ :=
          backward_formula_square sig hw ov (hso.1 ▸ hsa) hsg hso.2 hva hgv
            (hso.1 ▸ hshva) hshgv
        exact ⟨g2, [gi], 3, heq, hext, hform⟩
  | mean =>
    cases ss with
    | nil => exact absurd hconf (by intro h5; exact Option.noConfusion h5)
    | cons s1 ss2 =>
      cases ss2 with
      | cons s2 ss3 =>
        cases s1 <;> exact absurd hconf (by intro h5; exact Option.noConfusion h5)
      | nil =>
        cases s1 with
        | sc => exact absurd hconf (by intro h5; exact Option.noConfusion h5)
        | un => exact absurd hconf (by intro h5; exact Option.noConfusion h5)
        | mt r c =>
          have h6 : Shape.sc = so := by
            have h5 : some Shape.sc = some so := hconf
            injection h5
          subst h6
          obtain ⟨a, heq2, hsa⟩ := mapM_inv_single hsh
          rw [show (Op.mk oid OpKind.mean inputs outId).inputs = inputs from rfl] at heq2
          subst heq2
          obtain ⟨va, hva, rfl⟩ := mapM_single_inv hvals
          have hshva : va.shape = Shape.mt r c := by
            have h5 : [va.shape] = [Shape.mt r c] := hivs
            injection h5 with e1 e2
          obtain ⟨g2, gi, heq, hext, hform⟩ :=
            backward_formula_mean sig hw ov hsa hsg hva hgv hshva hshgv
          exact ⟨g2, [gi], 2, heq, hext, hform⟩

/-- Witness for C1 on a concrete graph: an `add` op consuming the single
leaf of the one-node example graph twice, with the leaf itself as both the
incoming gradient and the recorded output. -/
theorem claim_C1_witness :
    ∃ g2 gids fb,
      backward exGraph1 (Op.mk 5 OpKind.add [0, 0] 0) 0 = .ok (g2, gids) ∧
      Extends exGraph1 g2 ∧
      gids.mapM (denoteT (fun q => q) (1 + fb) g2) =
        gradFormula OpKind.add [Value.sc 1, Value.sc 1] (Value.sc 1) (Value.sc 1) := by
  refine claim_C1 (fun q => q)
    (Built_wf (Built.leaf (g := Graph.empty) (v := Value.sc 1) Built.empty rfl))
    ⟨by intro h5; exact OpKind.noConfusion h5, by intro h5; exact OpKind.noConfusion h5⟩
    ((by decide) : ([0, 0] : List Nat).mapM exGraph1.shapeOf = some [Shape.sc, Shape.sc])
    ((by decide) : opShape OpKind.add [Shape.sc, Shape.sc] = some Shape.sc)
    (by decide) (by decide) (by decide) (by decide) (by decide) (by decide) (by decide)
    (by decide) ?_
  intro v hv
  rcases List.mem_cons.1 hv with rfl | hv2
  · exact trivial
  · rcases List.mem_cons.1 hv2 with rfl | hv3
    · exact trivial
    · cases hv3

theorem ewShape_refl {s : Shape} (h : s ≠ Shape.un) : ewShape s s = some s := by
  cases s with
  | un => exact absurd rfl h
  | sc => rfl
  | mt r c =>
    show (if r = r ∧ c = c then some (Shape.mt r c) else none) = some (Shape.mt r c)
    rw [if_pos ⟨rfl, rfl⟩]

theorem lookupAcc_setAcc (m : AccMap) (tid x : Nat) :
    lookupAcc (setAcc m tid x) tid = some x := by
  unfold lookupAcc setAcc
  rw [List.find?_cons_of_pos _ (by simp)]
  rfl

/-- C2: adding a produced gradient contribution to the running accumulator:
with no prior accumulator the contribution is recorded as-is; with a prior
accumulator, the map entry is replaced by a fresh `add` node whose
denotation is the elementwise sum of the old accumulator and the new
contribution (multi-consumer gradient summation). -/
theorem claim_C2 (sig : ℚ → ℚ) {g : Graph} (hw : WFstruct g) {m : AccMap} {tid gid : Nat}
    {f : Nat} :
    (lookupAcc m tid = none →
      accumGrad g m tid gid = .ok (g, setAcc m tid gid) ∧
      lookupAcc (setAcc m tid gid) tid = some gid) ∧
    (∀ old : Nat, ∀ s : Shape, ∀ vo vc : Value, lookupAcc m tid = some old →
      g.shapeOf old = some s → g.shapeOf gid = some s → s ≠ Shape.un →
      denoteT sig f g old = some vo → denoteT sig f g gid = some vc →
      vo.shape = s → vc.shape = s →
      ∃ g1 snew vsum, accumGrad g m tid gid = .ok (g1, setAcc m tid snew) ∧
        Extends g g1 ∧ lookupAcc (setAcc m tid snew) tid = some snew ∧
        denoteT sig (f + 1) g1 snew = some vsum ∧
        ew2 (· + ·) vo vc = some vsum) := by
  constructor
  · intro hnone
    constructor
    · unfold accumGrad
      rw [hnone]
    · exact lookupAcc_setAcc m tid gid
  · intro old s vo vc hlook hso hsc hnoun hvo hvc hshvo hshvc
    have hm1 : [old, gid].mapM g.shapeOf = some [s, s] := mapM_pair_mk hso hsc
    have h1 : g.add old gid = .ok (g.addOpNode OpKind.add [old, gid] s) :=
      opFactory_succeeds hm1 (ewShape_refl hnoun)
    have he1 : Extends g (g.addOpNode OpKind.add [old, gid] s).1 :=
      addOpNode_extends g OpKind.add [old, gid] s
    obtain ⟨vsum, hvsum, hvsums⟩ := ew2_defined (· + ·) vo vc s
      (by rw [hshvo, hshvc]; exact ewShape_refl hnoun)
    have hvo1 := denote_extends sig f he1 old vo hvo
    have hvc1 := denote_extends sig f he1 gid vc hvc
    have hd : denoteT sig (f + 1) (g.addOpNode OpKind.add [old, gid] s).1
        (g.addOpNode OpKind.add [old, gid] s).2 = some vsum := by
      refine Eq.trans (denote_via_node sig f
        (addOpNode_findTensor_new hw OpKind.add [old, gid] s)
        rfl
        (addOpNode_findOp_new hw OpKind.add [old, gid] s)
        (by intro hc; rcases hc with h3 | h3 <;> exact OpKind.noConfusion h3)) ?_
      rw [mapM_pair_mk hvo1 hvc1]
      show forward sig OpKind.add [vo, vc] = some vsum
      rw [forward_add_eq]
      exact hvsum
    refine ⟨(g.addOpNode OpKind.add [old, gid] s).1,
      (g.addOpNode OpKind.add [old, gid] s).2, vsum, ?_, he1,
      lookupAcc_setAcc m tid _, hd, hvsum⟩
    unfold accumGrad
    rw [hlook]
    show (g.add old gid >>= fun p =>
      Except.ok (p.1, setAcc m tid p.2) : Except GErr (Graph × AccMap)) = _
    rw [h1, except_ok_bind_red]

/-- Witness for C2 on a concrete graph: an empty accumulator map records
the contribution as-is, and a prior accumulator at the same tensor is
replaced by an `add` node denoting the sum. -/
theorem claim_C2_witness :
    (accumGrad exGraph1 [] 7 0 = .ok (exGraph1, setAcc [] 7 0) ∧
      lookupAcc (setAcc [] 7 0) 7 = some 0) ∧
    (∃ g1 snew vsum, accumGrad exGraph1 [(7, 0)] 7 0 = .ok (g1, setAcc [(7, 0)] 7 snew) ∧
      Extends exGraph1 g1 ∧ lookupAcc (setAcc [(7, 0)] 7 snew) 7 = some snew ∧
      denoteT (fun q => q) 2 g1 snew = some vsum ∧
      ew2 (· + ·) (Value.sc 1) (Value.sc 1) = some vsum) :=
  ⟨(claim_C2 (fun q => q)
      (Built_wf (Built.leaf (g := Graph.empty) (v := Value.sc 1) Built.empty rfl))
      (m := ([] : AccMap)) (f := 1)).1 (by decide),
   (claim_C2 (fun q => q)
      (Built_wf (Built.leaf (g := Graph.empty) (v := Value.sc 1) Built.empty rfl))
      (m := [(7, 0)]) (f := 1)).2 0 Shape.sc (Value.sc 1) (Value.sc 1)
      (by decide) (by decide) (by decide) (by decide) (by decide) (by decide) rfl rfl⟩

theorem zeroValue_shape {sh : Shape} (h : ∀ r c, sh = Shape.mt r c → 0 < r) :
    (zeroValue sh).shape = sh := by
  cases sh with
  | sc => rfl
  | un => rfl
  | mt r c =>
    have hr : 0 < r := h r c rfl
    show Shape.mt (constMat r c 0).rows (constMat r c 0).cols = Shape.mt r c
    obtain ⟨k, rfl⟩ : ∃ k, r = k + 1 := ⟨r - 1, by omega⟩
    unfold constMat Mat.rows Mat.cols
    rw [List.range_succ_eq_map]
    simp

theorem lookupAcc_nil (x : Nat) : lookupAcc [] x = none := rfl

theorem lookupAcc_setAcc_inv {m : AccMap} {t c x a : Nat}
    (h : lookupAcc (setAcc m t c) x = some a) : x = t ∨ lookupAcc m x = some a := by
  by_cases hx : x = t
  · exact Or.inl hx
  · right
    unfold lookupAcc setAcc at h
    rw [List.find?_cons_of_neg] at h
    · exact h
    · simp
      intro h2
      exact hx h2.symm

theorem accumGrad_keys {g : Graph} {m : AccMap} {t c : Nat} {g' : Graph} {m' : AccMap}
    (h : accumGrad g m t c = .ok (g', m')) :
    ∀ x a, lookupAcc m' x = some a → x = t ∨ ∃ a0, lookupAcc m x = some a0 := by
  unfold accumGrad at h
  cases hl : lookupAcc m t with
  | none =>
    rw [hl] at h
    have h2 := except_ok_inj h
    have hm : setAcc m t c = m' := congrArg Prod.snd h2
    intro x a hx
    rw [← hm] at hx
    rcases lookupAcc_setAcc_inv hx with h3 | h3
    · exact Or.inl h3
    · exact Or.inr ⟨a, h3⟩
  | some old =>
    rw [hl] at h
    obtain ⟨⟨g1, sacc⟩, h1, h⟩ := except_bind_ok h
    have h2 := except_ok_inj h
    have hm : setAcc m t sacc = m' := congrArg Prod.snd h2
    intro x a hx
    rw [← hm] at hx
    rcases lookupAcc_setAcc_inv hx with h3 | h3
    · exact Or.inl h3
    · exact Or.inr ⟨a, h3⟩

theorem accumList_keys :
    ∀ {pairs : List (Nat × Nat)} {g : Graph} {m : AccMap} {g' : Graph} {m' : AccMap},
    accumList g m pairs = .ok (g', m') →
    ∀ x a, lookupAcc m' x = some a →
      (∃ a0, lookupAcc m x = some a0) ∨ x ∈ pairs.map Prod.fst := by
  intro pairs
  induction pairs with
  | nil =>
    intro g m g' m' h x a hx
    have h2 := except_ok_inj h
    have hm : m = m' := congrArg Prod.snd h2
    rw [← hm] at hx
    exact Or.inl ⟨a, hx⟩
  | cons p rest ih =>
    intro g m g' m' h x a hx
    obtain ⟨t, c⟩ := p
    simp only [accumList] at h
    obtain ⟨⟨g1, m1⟩, h1, h⟩ := except_bind_ok h
    rcases ih h x a hx with h3 | h3
    · obtain ⟨a0, h4⟩ := h3
      rcases accumGrad_keys h1 x a0 h4 with h5 | h5
      · exact Or.inr (by rw [h5]; exact List.mem_cons_self _ _)
      · exact Or.inl h5
    · exact Or.inr (List.mem_cons_of_mem _ h3)

theorem producerOf_extends_rev {g g' : Graph} (hw : WFstruct g) (he : Extends g g')
    {tid : Nat} (hlt : tid < g.nextId) : g'.producerOf tid = g.producerOf tid := by
  unfold Graph.producerOf
  rw [findTensor_extends_rev he hlt]
  cases hft : g.findTensor tid with
  | none => rfl
  | some t =>
    show (match t.producer with
      | some oid => g'.findOp oid
      | none => none) =
      (match t.producer with
      | some oid => g.findOp oid
      | none => none)
    cases hpr : t.producer with
    | none => rfl
    | some oid =>
      obtain ⟨hmem, _⟩ := findTensor_some hft
      obtain ⟨o, ho, hoid, _, _⟩ := hw.tprod t hmem oid hpr
      have holt : oid < g.nextId := by rw [← hoid]; exact hw.olt o ho
      exact findOp_extends_rev he holt

theorem gradLoop_keys {g0 : Graph} (hw0 : WFstruct g0) (loss : Nat) :
    ∀ {ids : List Nat} {g : Graph} {m : AccMap} {g' : Graph} {m' : AccMap},
    Extends g0 g →
    (∀ tid a, lookupAcc m tid = some a → tid < g0.nextId ∧ Reaches g0 loss tid) →
    gradLoop g m ids = .ok (g', m') →
    ∀ tid a, lookupAcc m' tid = some a → tid < g0.nextId ∧ Reaches g0 loss tid := by
  intro ids
  induction ids with
  | nil =>
    intro g m g' m' he hm h
    have h2 := except_ok_inj h
    have hmm : m = m' := congrArg Prod.snd h2
    rw [← hmm]
    exact hm
  | cons tid rest ih =>
    intro g m g' m' he hm h
    simp only [gradLoop] at h
    cases hl : lookupAcc m tid with
    | none =>
      rw [hl] at h
      exact ih he hm h
    | some gid =>
      rw [hl] at h
      cases hp : g.producerOf tid with
      | none =>
        rw [hp] at h
        exact ih he hm h
      | some o =>
        rw [hp] at h
        obtain ⟨⟨g1, contribs⟩, h1, h⟩ := except_bind_ok h
        obtain ⟨⟨g2, m2⟩, h2, h⟩ := except_bind_ok h
        obtain ⟨htlt, hreach⟩ := hm tid gid hl
        have hp0 : g0.producerOf tid = some o := by
          rw [← producerOf_extends_rev hw0 he htlt]
          exact hp
        have ho0 : o ∈ g0.ops := by
          unfold Graph.producerOf at hp0
          cases hft : g0.findTensor tid with
          | none => rw [hft] at hp0; exact absurd hp0 (by intro h5; exact Option.noConfusion h5)
          | some t =>
            rw [hft] at hp0
            have hp1 : (match t.producer with
              | some oid => g0.findOp oid
              | none => none) = some o := hp0
            cases hpr : t.producer with
            | none => rw [hpr] at hp1; exact absurd hp1 (by intro h5; exact Option.noConfusion h5)
            | some oid =>
              rw [hpr] at hp1
              exact (findOp_some hp1).1
        have he2 : Extends g0 g2 :=
          Extends.trans he (Extends.trans (backward_ok_basic h1).1 (accumList_ok_basic h2).1)
        have hm2 : ∀ x a, lookupAcc m2 x = some a → x < g0.nextId ∧ Reaches g0 loss x := by
          intro x a hx
          rcases accumList_keys h2 x a hx with h3 | h3
          · obtain ⟨a0, h4⟩ := h3
            exact hm x a0 h4
          · have hxin : x ∈ o.inputs := by
              obtain ⟨p, hpmem, hpeq⟩ := List.mem_map.1 h3
              obtain ⟨hp1, _⟩ := List.of_mem_zip hpmem
              rw [← hpeq]
              exact hp1
            obtain ⟨⟨t, htm, hti⟩, _⟩ := hw0.oin o ho0 x hxin
            refine ⟨by rw [← hti]; exact hw0.tlt t htm, ?_⟩
            exact Reaches.step hreach hp0 hxin
        exact ih he2 hm2 h

theorem shapeOf_extends_rev {g g' : Graph} (he : Extends g g') {tid : Nat}
    (hlt : tid < g.nextId) : g'.shapeOf tid = g.shapeOf tid := by
  unfold Graph.shapeOf
  rw [findTensor_extends_rev he hlt]

theorem collectGrads_spec :
    ∀ {wrt : List Nat} {g : Graph} {m : AccMap} {gf : Graph} {res : List Nat},
    WFstruct g →
    (∀ w ∈ wrt, w < g.nextId) →
    collectGrads g m wrt = .ok (gf, res) →
    ∀ i, ∀ hi : i < wrt.length,
      (∃ a, lookupAcc m (wrt.get ⟨i, hi⟩) = some a ∧ res[i]? = some a) ∨
      (lookupAcc m (wrt.get ⟨i, hi⟩) = none ∧
       ∃ sh t, g.shapeOf (wrt.get ⟨i, hi⟩) = some sh ∧
         (∃ z, res[i]? = some z ∧ gf.findTensor z = some t) ∧
         t.producer = none ∧ t.value = some (zeroValue sh) ∧
         t.shape = (zeroValue sh).shape) := by
  intro wrt
  induction wrt with
  | nil =>
    intro g m gf res hw hb h i hi
    exact absurd hi (by simp)
  | cons w rest ih =>
    intro g m gf res hw hb h i hi
    simp only [collectGrads] at h
    cases hl : lookupAcc m w with
    | some a =>
      rw [hl] at h
      obtain ⟨⟨g1, l1⟩, h1, h⟩ := except_bind_ok h
      have h2 := except_ok_inj h
      obtain ⟨rfl, rfl⟩ : g1 = gf ∧ a :: l1 = res :=
        ⟨congrArg Prod.fst h2, congrArg Prod.snd h2⟩
      cases i with
      | zero =>
        refine Or.inl ⟨a, ?_, ?_⟩
        · show lookupAcc m w = some a
          exact hl
        · simp
      | succ j =>
        have hj : j < rest.length := by simpa using hi
        have hres := ih hw (fun w2 hw2 => hb w2 (List.mem_cons_of_mem _ hw2)) h1 j hj
        simpa using hres
    | none =>
      rw [hl] at h
      cases hft : g.findTensor w with
      | none => rw [hft] at h; exact absurd h (by intro h2; exact Except.noConfusion h2)
      | some t =>
        rw [hft] at h
        obtain ⟨⟨g2, l1⟩, h1, h⟩ := except_bind_ok h
        have h2 := except_ok_inj h
        obtain ⟨rfl, rfl⟩ : g2 = gf ∧ (g.tensor (zeroValue t.shape)).2 :: l1 = res :=
          ⟨congrArg Prod.fst h2, congrArg Prod.snd h2⟩
        have he1 : Extends g (g.addLeaf (zeroValue t.shape)).1 := addLeaf_extends g _
        have hext := (collectGrads_ok_basic h1).1
        cases i with
        | zero =>
          refine Or.inr ⟨?_, t.shape,
            { id := g.nextId, producer := none, value := some (zeroValue t.shape),
              shape := (zeroValue t.shape).shape }, ?_, ?_, rfl, rfl, rfl⟩
          · show lookupAcc m w = none
            exact hl
          · show g.shapeOf w = some t.shape
            unfold Graph.shapeOf
            rw [hft]
            rfl
          · refine ⟨g.nextId, ?_,
              findTensor_extends hext (addLeaf_findTensor_new hw (zeroValue t.shape))⟩
            rw [List.getElem?_cons_zero]
            rfl
        | succ j =>
          have hj : j < rest.length := by simpa using hi
          have hres := ih (addLeaf_wf hw (zeroValue t.shape))
            (fun w2 hw2 => Nat.lt_of_lt_of_le (hb w2 (List.mem_cons_of_mem _ hw2))
              he1.next) h1 j hj
          rcases hres with ⟨a2, ha2, hget⟩ | ⟨hnone, sh, t2, hsh, hz, hpr2, hv2, hs2⟩
          · refine Or.inl ⟨a2, ?_, ?_⟩
            · show lookupAcc m (rest.get ⟨j, hj⟩) = some a2
              exact ha2
            · show ((g.tensor (zeroValue t.shape)).2 :: l1)[j + 1]? = some a2
              rw [List.getElem?_cons_succ]
              exact hget
          · refine Or.inr ⟨?_, sh, t2, ?_, ?_, hpr2, hv2, hs2⟩
            · show lookupAcc m (rest.get ⟨j, hj⟩) = none
              exact hnone
            · show g.shapeOf (rest.get ⟨j, hj⟩) = some sh
              rw [← shapeOf_extends_rev he1 (hb _ (List.mem_cons_of_mem _ (List.get_mem rest _ _)))]
              exact hsh
            · obtain ⟨z, hz1, hz2⟩ := hz
              refine ⟨z, ?_, hz2⟩
              show ((g.tensor (zeroValue t.shape)).2 :: l1)[j + 1]? = some z
              rw [List.getElem?_cons_succ]
              exact hz1

/-- C3: a successful `gradients(loss, wrt)` call returns exactly one tensor
per `wrt` entry, positionally aligned; every accumulator key is reachable
backward from the loss, each entry with an accumulator receives it, and an
entry with no accumulator (in particular one unreachable from the loss)
receives a fresh zero-valued leaf of that tensor's shape. -/
theorem claim_C3 {g : Graph} (hw : WFstruct g) {loss : Nat} {wrt : List Nat}
    {gf : Graph} {res : List Nat}
    (hwrt : ∀ w ∈ wrt, w < g.nextId)
    (h : g.gradients loss wrt = .ok (gf, res)) :
    res.length = wrt.length ∧
    ∃ m : AccMap,
      (∀ tid a, lookupAcc m tid = some a → Reaches g loss tid) ∧
      ∀ i, ∀ hi : i < wrt.length,
        (∃ a, lookupAcc m (wrt.get ⟨i, hi⟩) = some a ∧ res[i]? = some a) ∨
        (lookupAcc m (wrt.get ⟨i, hi⟩) = none ∧
         ∃ sh t, g.shapeOf (wrt.get ⟨i, hi⟩) = some sh ∧
           (∃ z, res[i]? = some z ∧ gf.findTensor z = some t) ∧
           t.producer = none ∧ t.value = some (zeroValue sh) ∧
           t.shape = (zeroValue sh).shape ∧
           ((∀ r c, sh = Shape.mt r c → 0 < r) → t.shape = sh)) := by
  refine ⟨(gradients_ok_basic h).2.2, ?_⟩
  unfold Graph.gradients at h
  cases hft : g.findTensor loss with
  | none => rw [hft] at h; exact absurd h (by intro h2; exact Except.noConfusion h2)
  | some lt =>
    rw [hft] at h
    obtain ⟨⟨g2, m⟩, h1, h2⟩ := except_bind_ok h
    have he1 : Extends g (g.addLeaf (oneValue lt.shape)).1 := addLeaf_extends g _
    have hw1 : WFstruct (g.addLeaf (oneValue lt.shape)).1 := addLeaf_wf hw _
    have hlosslt : loss < g.nextId := by
      obtain ⟨hmem, hid⟩ := findTensor_some hft
      rw [← hid]
      exact hw.tlt lt hmem
    have hseed : ∀ tid a,
        lookupAcc (setAcc [] loss (g.addLeaf (oneValue lt.shape)).2) tid = some a →
        tid < g.nextId ∧ Reaches g loss tid := by
      intro tid a hx
      rcases lookupAcc_setAcc_inv hx with h3 | h3
      · subst h3
        exact ⟨hlosslt, Reaches.refl⟩
      · rw [lookupAcc_nil] at h3
        exact absurd h3 (by intro h4; exact Option.noConfusion h4)
    have hkeys := gradLoop_keys hw loss he1 hseed h1
    have he2 : Extends g g2 := Extends.trans he1 (gradLoop_ok_basic h1).1
    have hw2 : WFstruct g2 := (gradLoop_ok_basic h1).2 hw1
    have hwrt2 : ∀ w ∈ wrt, w < g2.nextId :=
      fun w hwm => Nat.lt_of_lt_of_le (hwrt w hwm) he2.next
    have hspec := collectGrads_spec hw2 hwrt2 h2
    refine ⟨m, fun tid a hx => (hkeys tid a hx).2, ?_⟩
    intro i hi
    rcases hspec i hi with ⟨a, ha, hget⟩ | ⟨hnone, sh, t, hsh, hz, hpr, hv, hs⟩
    · exact Or.inl ⟨a, ha, hget⟩
    · refine Or.inr ⟨hnone, sh, t, ?_, hz, hpr, hv, hs, fun hposr => hs.trans (zeroValue_shape hposr)⟩
      rw [← shapeOf_extends_rev he2 (hwrt _ (List.get_mem wrt _ _))]
      exact hsh

/-- Witness for C3 on a concrete graph: the gradient of the single leaf
with respect to itself is its seeded accumulator. -/
theorem claim_C3_witness :
    ([1] : List Nat).length = ([0] : List Nat).length ∧
    ∃ m : AccMap,
      (∀ tid a, lookupAcc m tid = some a → Reaches exGraph1 0 tid) ∧
      ∀ i, ∀ hi : i < ([0] : List Nat).length,
        (∃ a, lookupAcc m (([0] : List Nat).get ⟨i, hi⟩) = some a ∧
          ([1] : List Nat)[i]? = some a) ∨
        (lookupAcc m (([0] : List Nat).get ⟨i, hi⟩) = none ∧
         ∃ sh t, exGraph1.shapeOf (([0] : List Nat).get ⟨i, hi⟩) = some sh ∧
           (∃ z, ([1] : List Nat)[i]? = some z ∧
             (exGraph1.tensor (Value.sc 1)).1.findTensor z = some t) ∧
           t.producer = none ∧ t.value = some (zeroValue sh) ∧
           t.shape = (zeroValue sh).shape ∧
           ((∀ r c, sh = Shape.mt r c → 0 < r) → t.shape = sh)) :=
  claim_C3 (Built_wf (Built.leaf (g := Graph.empty) (v := Value.sc 1) Built.empty rfl))
    (by decide) rfl

theorem except_error_inj {α γ : Type} {a b : γ} (h : (Except.error a : Except γ α) = .error b) :
    a = b := by
  injection h

theorem except_bind_error {α β γ : Type} {x : Except γ α} {f : α → Except γ β} {e : γ}
    (h : (x >>= f) = .error e) : x = .error e ∨ ∃ a, x = .ok a ∧ f a = .error e := by
  cases x with
  | error e2 =>
    have h2 : (Except.error e2 : Except γ β) = .error e := h
    rw [except_error_inj h2]
    exact Or.inl rfl
  | ok a => exact Or.inr ⟨a, rfl, h⟩

theorem mapM_shapes_error :
    ∀ {args : List Nat} {g : Graph} {e : GErr},
    (args.mapM (fun a =>
      match g.findTensor a with
      | some t => Except.ok t.shape
      | none => Except.error GErr.missing) : Except GErr (List Shape)) = .error e →
    e = GErr.missing := by
  intro args
  induction args with
  | nil =>
    intro g e h
    exact absurd h (by intro h2; exact Except.noConfusion h2)
  | cons a rest ih =>
    intro g e h
    rw [List.mapM_cons] at h
    rcases except_bind_error h with h1 | ⟨x, hx, h2⟩
    · cases hft : g.findTensor a with
      | some t =>
        rw [hft] at h1
        exact absurd h1 (by intro h3; exact Except.noConfusion h3)
      | none =>
        rw [hft] at h1
        exact (except_error_inj h1).symm
    · rcases except_bind_error h2 with h3 | ⟨xs, hxs, h4⟩
      · exact ih h3
      · exact absurd h4 (by intro h5; exact Except.noConfusion h5)

theorem opFactory_error_kind {g : Graph} {k : OpKind} {args : List Nat} {e : GErr}
    (h : g.opFactory k args = .error e) : e ≠ GErr.noGradient := by
  unfold Graph.opFactory at h
  rcases except_bind_error h with h1 | ⟨shapes, hs, h2⟩
  · rw [mapM_shapes_error h1]
    intro h3
    exact GErr.noConfusion h3
  · cases ho : opShape k shapes with
    | some outS =>
      rw [ho] at h2
      exact absurd h2 (by intro h3; exact Except.noConfusion h3)
    | none =>
      rw [ho] at h2
      rw [← except_error_inj h2]
      intro h3
      exact GErr.noConfusion h3

theorem backward_error_noGrad {g : Graph} {o : Op} {gradOut : Nat}
    (h : backward g o gradOut = .error GErr.noGradient) :
    o.kind = OpKind.assign ∨ o.kind = OpKind.group := by
  obtain ⟨oid, k, inputs, oout⟩ := o
  cases k <;> simp only [backward] at h
  case assign => exact Or.inl rfl
  case group => exact Or.inr rfl
  case add =>
    match inputs, h with
    | [], h => exact absurd (except_error_inj h) (by intro h2; exact GErr.noConfusion h2)
    | [x], h => exact absurd (except_error_inj h) (by intro h2; exact GErr.noConfusion h2)
    | x :: y :: z :: r, h =>
      exact absurd (except_error_inj h) (by intro h2; exact GErr.noConfusion h2)
    | [x, y], h => exact absurd h (by intro h2; exact Except.noConfusion h2)
  case sub =>
    match inputs, h with
    | [], h => exact absurd (except_error_inj h) (by intro h2; exact GErr.noConfusion h2)
    | [x], h => exact absurd (except_error_inj h) (by intro h2; exact GErr.noConfusion h2)
    | x :: y :: z :: r, h =>
      exact absurd (except_error_inj h) (by intro h2; exact GErr.noConfusion h2)
    | [x, y], h =>
      rcases except_bind_error h with h1 | ⟨p1, hp1, h2⟩
      · exact absurd rfl (opFactory_error_kind h1)
      · exact absurd h2 (by intro h3; exact Except.noConfusion h3)
  case mul =>
    match inputs, h with
    | [], h => exact absurd (except_error_inj h) (by intro h2; exact GErr.noConfusion h2)
    | [x], h => exact absurd (except_error_inj h) (by intro h2; exact GErr.noConfusion h2)
    | x :: y :: z :: r, h =>
      exact absurd (except_error_inj h) (by intro h2; exact GErr.noConfusion h2)
    | [x, y], h =>
      rcases except_bind_error h with h1 | ⟨p1, hp1, h2⟩
      · exact absurd rfl (opFactory_error_kind h1)
      · rcases except_bind_error h2 with h3 | ⟨p2, hp2, h4⟩
        · exact absurd rfl (opFactory_error_kind h3)
        · exact absurd h4 (by intro h5; exact Except.noConfusion h5)
  case dot =>
    match inputs, h with
    | [], h => exact absurd (except_error_inj h) (by intro h2; exact GErr.noConfusion h2)
    | [x], h => exact absurd (except_error_inj h) (by intro h2; exact GErr.noConfusion h2)
    | x :: y :: z :: r, h =>
      exact absurd (except_error_inj h) (by intro h2; exact GErr.noConfusion h2)
    | [x, y], h =>
      rcases except_bind_error h with h1 | ⟨p1, hp1, h2⟩
      · exact absurd rfl (opFactory_error_kind h1)
      · rcases except_bind_error h2 with h3 | ⟨p2, hp2, h4⟩
        · exact absurd rfl (opFactory_error_kind h3)
        · rcases except_bind_error h4 with h5 | ⟨p3, hp3, h6⟩
          · exact absurd rfl (opFactory_error_kind h5)
          · rcases except_bind_error h6 with h7 | ⟨p4, hp4, h8⟩
            · exact absurd rfl (opFactory_error_kind h7)
            · exact absurd h8 (by intro h9; exact Except.noConfusion h9)
  case transpose =>
    match inputs, h with
    | [], h => exact absurd (except_error_inj h) (by intro h2; exact GErr.noConfusion h2)
    | x :: y :: r, h =>
      exact absurd (except_error_inj h) (by intro h2; exact GErr.noConfusion h2)
    | [x], h =>
      rcases except_bind_error h with h1 | ⟨p1, hp1, h2⟩
      · exact absurd rfl (opFactory_error_kind h1)
      · exact absurd h2 (by intro h3; exact Except.noConfusion h3)
  case sigmoid =>
    match inputs, h with
    | [], h => exact absurd (except_error_inj h) (by intro h2; exact GErr.noConfusion h2)
    | x :: y :: r, h =>
      exact absurd (except_error_inj h) (by intro h2; exact GErr.noConfusion h2)
    | [x], h =>
      rcases except_bind_error h with h1 | ⟨p1, hp1, h2⟩
      · exact absurd rfl (opFactory_error_kind h1)
      · rcases except_bind_error h2 with h3 | ⟨p2, hp2, h4⟩
        · exact absurd rfl (opFactory_error_kind h3)
        · rcases except_bind_error h4 with h5 | ⟨p3, hp3, h6⟩
          · exact absurd rfl (opFactory_error_kind h5)
          · exact absurd h6 (by intro h7; exact Except.noConfusion h7)
  case square =>
    match inputs, h with
    | [], h => exact absurd (except_error_inj h) (by intro h2; exact GErr.noConfusion h2)
    | x :: y :: r, h =>
      exact absurd (except_error_inj h) (by intro h2; exact GErr.noConfusion h2)
    | [x], h =>
      rcases except_bind_error h with h1 | ⟨p1, hp1, h2⟩
      · exact absurd rfl (opFactory_error_kind h1)
      · rcases except_bind_error h2 with h3 | ⟨p2, hp2, h4⟩
        · exact absurd rfl (opFactory_error_kind h3)
        · exact absurd h4 (by intro h5; exact Except.noConfusion h5)
  case mean =>
    match inputs, h with
    | [], h => exact absurd (except_error_inj h) (by intro h2; exact GErr.noConfusion h2)
    | x :: y :: r, h =>
      exact absurd (except_error_inj h) (by intro h2; exact GErr.noConfusion h2)
    | [x], h =>
      have h : meanBackward g x gradOut = .error GErr.noGradient := h
      unfold meanBackward at h
      cases hft : g.findTensor x with
      | none =>
        rw [hft] at h
        exact absurd (except_error_inj h) (by intro h2; exact GErr.noConfusion h2)
      | some t =>
        rw [hft] at h
        have h0 : (match t.shape with
          | Shape.mt r c => (do
              let t1 := g.tensor (Value.mt (constMat r c (1 / ((r : ℚ) * (c : ℚ)))))
              let p1 ← t1.1.mul gradOut t1.2
              Except.ok (p1.1, [p1.2]) : Except GErr (Graph × List Nat))
          | _ => .error GErr.shape) = .error GErr.noGradient := h
        cases hsh : t.shape with
        | sc =>
          rw [hsh] at h0
          exact absurd (except_error_inj h0) (by intro h2; exact GErr.noConfusion h2)
        | un =>
          rw [hsh] at h0
          exact absurd (except_error_inj h0) (by intro h2; exact GErr.noConfusion h2)
        | mt r c =>
          rw [hsh] at h0
          rcases except_bind_error h0 with h1 | ⟨p1, hp1, h2⟩
          · exact absurd rfl (opFactory_error_kind h1)
          · exact absurd h2 (by intro h3; exact Except.noConfusion h3)

theorem accumGrad_error_kind {g : Graph} {m : AccMap} {t c : Nat} {e : GErr}
    (h : accumGrad g m t c = .error e) : e ≠ GErr.noGradient := by
  unfold accumGrad at h
  cases hl : lookupAcc m t with
  | none =>
    rw [hl] at h
    exact absurd h (by intro h2; exact Except.noConfusion h2)
  | some old =>
    rw [hl] at h
    rcases except_bind_error h with h1 | ⟨p, hp, h2⟩
    · exact opFactory_error_kind h1
    · exact absurd h2 (by intro h3; exact Except.noConfusion h3)

theorem accumList_error_kind :
    ∀ {pairs : List (Nat × Nat)} {g : Graph} {m : AccMap} {e : GErr},
    accumList g m pairs = .error e → e ≠ GErr.noGradient := by
  intro pairs
  induction pairs with
  | nil =>
    intro g m e h
    exact absurd h (by intro h2; exact Except.noConfusion h2)
  | cons p rest ih =>
    intro g m e h
    obtain ⟨t, c⟩ := p
    simp only [accumList] at h
    rcases except_bind_error h with h1 | ⟨⟨g1, m1⟩, h1, h2⟩
    · exact accumGrad_error_kind h1
    · exact ih h2

theorem collectGrads_error_kind :
    ∀ {wrt : List Nat} {g : Graph} {m : AccMap} {e : GErr},
    collectGrads g m wrt = .error e → e = GErr.missing := by
  intro wrt
  induction wrt with
  | nil =>
    intro g m e h
    exact absurd h (by intro h2; exact Except.noConfusion h2)
  | cons w rest ih =>
    intro g m e h
    simp only [collectGrads] at h
    cases hl : lookupAcc m w with
    | some a =>
      rw [hl] at h
      rcases except_bind_error h with h1 | ⟨p, hp, h2⟩
      · exact ih h1
      · exact absurd h2 (by intro h3; exact Except.noConfusion h3)
    | none =>
      rw [hl] at h
      cases hft : g.findTensor w with
      | none =>
        rw [hft] at h
        exact (except_error_inj h).symm
      | some t =>
        rw [hft] at h
        rcases except_bind_error h with h1 | ⟨p, hp, h2⟩
        · exact ih h1
        · exact absurd h2 (by intro h3; exact Except.noConfusion h3)

theorem gradLoop_noGrad {g0 : Graph} (hw0 : WFstruct g0) (loss : Nat) :
    ∀ {ids : List Nat} {g : Graph} {m : AccMap},
    Extends g0 g →
    (∀ tid a, lookupAcc m tid = some a → tid < g0.nextId ∧ Reaches g0 loss tid) →
    gradLoop g m ids = .error GErr.noGradient →
    ∃ t o, Reaches g0 loss t ∧ g0.producerOf t = some o ∧
      (o.kind = OpKind.assign ∨ o.kind = OpKind.group) := by
  intro ids
  induction ids with
  | nil =>
    intro g m he hm h
    exact absurd h (by intro h2; exact Except.noConfusion h2)
  | cons tid rest ih =>
    intro g m he hm h
    simp only [gradLoop] at h
    cases hl : lookupAcc m tid with
    | none =>
      rw [hl] at h
      exact ih he hm h
    | some gid =>
      rw [hl] at h
      cases hp : g.producerOf tid with
      | none =>
        rw [hp] at h
        exact ih he hm h
      | some o =>
        rw [hp] at h
        obtain ⟨htlt, hreach⟩ := hm tid gid hl
        have hp0 : g0.producerOf tid = some o := by
          rw [← producerOf_extends_rev hw0 he htlt]
          exact hp
        rcases except_bind_error h with h1 | ⟨⟨g1, contribs⟩, h1, h⟩
        · exact ⟨tid, o, hreach, hp0, backward_error_noGrad h1⟩
        · rcases except_bind_error h with h2 | ⟨⟨g2, m2⟩, h2, h⟩
          · exact absurd rfl (accumList_error_kind h2)
          · have ho0 : o ∈ g0.ops := by
              unfold Graph.producerOf at hp0
              cases hft : g0.findTensor tid with
              | none =>
                rw [hft] at hp0
                exact absurd hp0 (by intro h5; exact Option.noConfusion h5)
              | some t =>
                rw [hft] at hp0
                have hp1 : (match t.producer with
                  | some oid => g0.findOp oid
                  | none => none) = some o := hp0
                cases hpr : t.producer with
                | none =>
                  rw [hpr] at hp1
                  exact absurd hp1 (by intro h5; exact Option.noConfusion h5)
                | some oid =>
                  rw [hpr] at hp1
                  exact (findOp_some hp1).1
            have he2 : Extends g0 g2 :=
              Extends.trans he
                (Extends.trans (backward_ok_basic h1).1 (accumList_ok_basic h2).1)
            have hm2 : ∀ x a, lookupAcc m2 x = some a →
                x < g0.nextId ∧ Reaches g0 loss x := by
              intro x a hx
              rcases accumList_keys h2 x a hx with h3 | h3
              · obtain ⟨a0, h4⟩ := h3
                exact hm x a0 h4
              · have hxin : x ∈ o.inputs := by
                  obtain ⟨p, hpmem, hpeq⟩ := List.mem_map.1 h3
                  obtain ⟨hp1, _⟩ := List.of_mem_zip hpmem
                  rw [← hpeq]
                  exact hp1
                obtain ⟨⟨t, htm, hti⟩, _⟩ := hw0.oin o ho0 x hxin
                refine ⟨by rw [← hti]; exact hw0.tlt t htm, ?_⟩
                exact Reaches.step hreach hp0 hxin
            exact ih he2 hm2 h

/-- C9 (amended): a `gradients` call fails with NoGradientError only because
some tensor reachable backward from the LOSS — regardless of `wrt` — has a
non-differentiable producer (`assign` or `group`); when no tensor reachable
from the loss has such a producer, the call never raises NoGradientError
(though other errors remain possible). -/
theorem claim_C9 {g : Graph} (hw : WFstruct g) (loss : Nat) (wrt : List Nat) :
    (g.gradients loss wrt = .error GErr.noGradient →
      ∃ t o, Reaches g loss t ∧ g.producerOf t = some o ∧
        (o.kind = OpKind.assign ∨ o.kind = OpKind.group)) ∧
    ((∀ t o, Reaches g loss t → g.producerOf t = some o →
        o.kind ≠ OpKind.assign ∧ o.kind ≠ OpKind.group) →
      g.gradients loss wrt ≠ .error GErr.noGradient) := by
  have hmain : g.gradients loss wrt = .error GErr.noGradient →
      ∃ t o, Reaches g loss t ∧ g.producerOf t = some o ∧
        (o.kind = OpKind.assign ∨ o.kind = OpKind.group) := by
    intro h
    unfold Graph.gradients at h
    cases hft : g.findTensor loss with
    | none =>
      rw [hft] at h
      exact absurd (except_error_inj h) (by intro h2; exact GErr.noConfusion h2)
    | some lt =>
      rw [hft] at h
      have he1 : Extends g (g.addLeaf (oneValue lt.shape)).1 := addLeaf_extends g _
      have hlosslt : loss < g.nextId := by
        obtain ⟨hmem, hid⟩ := findTensor_some hft
        rw [← hid]
        exact hw.tlt lt hmem
      have hseed : ∀ tid a,
          lookupAcc (setAcc [] loss (g.addLeaf (oneValue lt.shape)).2) tid = some a →
          tid < g.nextId ∧ Reaches g loss tid := by
        intro tid a hx
        rcases lookupAcc_setAcc_inv hx with h3 | h3
        · subst h3
          exact ⟨hlosslt, Reaches.refl⟩
        · rw [lookupAcc_nil] at h3
          exact absurd h3 (by intro h4; exact Option.noConfusion h4)
      rcases except_bind_error h with h1 | ⟨⟨g2, m⟩, h1, h2⟩
      · exact gradLoop_noGrad hw loss he1 hseed h1
      · exact absurd (collectGrads_error_kind h2) (by intro h3; exact GErr.noConfusion h3)
  refine ⟨hmain, ?_⟩
  intro hno heq
  obtain ⟨t, o, hr, hp, hk⟩ := hmain heq
  obtain ⟨hna, hng⟩ := hno t o hr hp
  rcases hk with hk | hk
  · exact hna hk
  · exact hng hk

/-- Counterexample to C9 as stated: in `cexGraph` the `assign` op lies on
no path from the `wrt` tensor (the first leaf) to the loss, yet
`gradients` fails with NoGradientError, because the op is reachable
backward from the loss itself. -/
theorem claim_C9_cex :
    cexGraph.gradients 5 [0] = .error GErr.noGradient ∧
    ∀ o : Op, o ∈ cexGraph.ops → (o.kind = OpKind.assign ∨ o.kind = OpKind.group) →
      ¬ OnWrtPath cexGraph 5 0 o := by
  constructor
  · rfl
  · have hre : ∀ x, Reaches cexGraph 1 x → x = 1 := by
      intro x h
      induction h with
      | refl => rfl
      | step hb hpr hin ih =>
        rw [ih] at hpr
        have h2 : cexGraph.producerOf 1 = none := rfl
        rw [h2] at hpr
        exact Option.noConfusion hpr
    intro o ho hk hpath
    have hops : cexGraph.ops =
        [{ id := 2, kind := OpKind.assign, inputs := [1, 1], out := 3 },
         { id := 4, kind := OpKind.add, inputs := [0, 3], out := 5 }] := rfl
    rw [hops] at ho
    rcases List.mem_cons.1 ho with rfl | ho2
    · obtain ⟨hr1, i, hi, hr2⟩ := hpath
      have hi1 : i = 1 := by
        rcases List.mem_cons.1 hi with rfl | hi2
        · rfl
        · rcases List.mem_cons.1 hi2 with rfl | hi3
          · rfl
          · cases hi3
      rw [hi1] at hr2
      exact Nat.noConfusion (hre 0 hr2)
    · rcases List.mem_cons.1 ho2 with rfl | ho3
      · rcases hk with hk | hk <;> exact OpKind.noConfusion hk
      · cases ho3

/-- Witness for C9 (amended) on a concrete graph: the two-node example
graph, whose only op is a differentiable `square`. -/
theorem claim_C9_witness :
    (exGraph2.gradients 2 [0] = .error GErr.noGradient →
      ∃ t o, Reaches exGraph2 2 t ∧ exGraph2.producerOf t = some o ∧
        (o.kind = OpKind.assign ∨ o.kind = OpKind.group)) ∧
    ((∀ t o, Reaches exGraph2 2 t → exGraph2.producerOf t = some o →
        o.kind ≠ OpKind.assign ∧ o.kind ≠ OpKind.group) →
      exGraph2.gradients 2 [0] ≠ .error GErr.noGradient) :=
  claim_C9
    (Built_wf (Built.factory
      (Built.leaf Built.empty (rfl : Graph.empty.tensor (Value.sc 1) = (exGraph1, 0)))
      (rfl : exGraph1.opFactory OpKind.square [0] = Except.ok (exGraph2, 2))))
    2 [0]

theorem lookupMemo_none_not_mem {m : List (Nat × Value)} {tid : Nat}
    (h : lookupMemo m tid = none) : tid ∉ memoKeys m := by
  intro hmem
  obtain ⟨p, hp, hpe⟩ := List.mem_map.1 hmem
  have hfind : m.find? (fun q => q.1 = tid) = none := by
    cases hf : m.find? (fun q => q.1 = tid) with
    | none => rfl
    | some q =>
      unfold lookupMemo at h
      rw [hf] at h
      exact absurd h (by intro h2; exact Option.noConfusion h2)
  rw [List.find?_eq_none] at hfind
  have h3 := hfind p hp
  simp at h3
  exact h3 hpe

theorem findOp_strip_eq {g g' : Graph} (h : g'.stripVals = g.stripVals) (oid : Nat) :
    g'.findOp oid = g.findOp oid := by
  unfold Graph.findOp
  have h0 := congrArg Graph.ops h
  have hos : g'.ops = g.ops := h0
  rw [hos]

theorem nodup_append_singleton {l : List Nat} {a : Nat} (hnd : l.Nodup) (hna : a ∉ l) :
    (l ++ [a]).Nodup := by
  rw [List.nodup_append]
  refine ⟨hnd, List.nodup_singleton a, ?_⟩
  intro x hx1 hx2
  rw [List.mem_singleton.1 hx2] at hx1
  exact hna hx1

theorem evalTrace (sig : ℚ → ℚ) : ∀ fuel : Nat,
    (∀ s tid v s', WFstruct s.g →
      s.trace.Nodup →
      (∀ oid2 ∈ s.trace, ∃ o2, s.g.findOp oid2 = some o2 ∧ o2.out ∈ memoKeys s.memo) →
      evalT sig fuel s tid = .ok (v, s') →
      s'.trace.Nodup ∧
      (∀ oid2 ∈ s'.trace, ∃ o2, s'.g.findOp oid2 = some o2 ∧ o2.out ∈ memoKeys s'.memo)) ∧
    (∀ s l vs s', WFstruct s.g →
      s.trace.Nodup →
      (∀ oid2 ∈ s.trace, ∃ o2, s.g.findOp oid2 = some o2 ∧ o2.out ∈ memoKeys s.memo) →
      evalArgs sig fuel s l = .ok (vs, s') →
      s'.trace.Nodup ∧
      (∀ oid2 ∈ s'.trace, ∃ o2, s'.g.findOp oid2 = some o2 ∧ o2.out ∈ memoKeys s'.memo)) := by
  intro fuel
  induction fuel with
  | zero =>
    constructor
    · intro s tid v s' _ _ _ h
      rw [evalT] at h
      exact absurd h (by intro h2; exact Except.noConfusion h2)
    · intro s l vs s' hw hnd hinv h
      cases l with
      | nil =>
        rw [evalArgs] at h
        have h2 := except_ok_inj h
        have hs : s = s' := congrArg Prod.snd h2
        subst hs
        exact ⟨hnd, hinv⟩
      | cons a rest =>
        rw [evalArgs] at h
        obtain ⟨⟨v1, s1⟩, h1, h⟩ := except_bind_ok h
        rw [evalT] at h1
        exact absurd h1 (by intro h2; exact Except.noConfusion h2)
  | succ f ih =>
    obtain ⟨ihT, ihA⟩ := ih
    have hT : ∀ s tid v s', WFstruct s.g →
        s.trace.Nodup →
        (∀ oid2 ∈ s.trace, ∃ o2, s.g.findOp oid2 = some o2 ∧ o2.out ∈ memoKeys s.memo) →
        evalT sig (f + 1) s tid = .ok (v, s') →
        s'.trace.Nodup ∧
        (∀ oid2 ∈ s'.trace, ∃ o2, s'.g.findOp oid2 = some o2 ∧ o2.out ∈ memoKeys s'.memo) := by
      intro s tid v s' hw hnd hinv h
      rw [evalT] at h
      split at h
      case _ v0 hmm =>
        have h2 := except_ok_inj h
        have hs : s = s' := congrArg Prod.snd h2
        subst hs
        exact ⟨hnd, hinv⟩
      case _ hmm =>
        split at h
        case _ hft => exact absurd h (by intro h2; exact Except.noConfusion h2)
        case _ t hft =>
          split at h
          case _ hpr =>
            split at h
            case _ v0 hv =>
              have h2 := except_ok_inj h
              have hs : ({ s with memo := (tid, v0) :: s.memo } : EvalSt) = s' :=
                congrArg Prod.snd h2
              rw [← hs]
              refine ⟨hnd, ?_⟩
              intro oid2 ho2
              obtain ⟨o2, hfo2, hmem2⟩ := hinv oid2 ho2
              exact ⟨o2, hfo2, by rw [memoKeys_cons]; exact List.mem_cons_of_mem _ hmem2⟩
            case _ hv => exact absurd h (by intro h2; exact Except.noConfusion h2)
          case _ oid hpr =>
            split at h
            case _ hfo => exact absurd h (by intro h2; exact Except.noConfusion h2)
            case _ o hfo =>
              have htm := findTensor_some hft
              obtain ⟨o', ho', hoid', hout', hlt'⟩ := hw.tprod t htm.1 oid hpr
              have hom := findOp_some hfo
              have hoeq : o = o' := by
                apply ops_id_unique hw hom.1 ho'
                rw [hom.2, hoid']
              have hidlt : oid < tid := by
                rw [htm.2] at hlt'
                exact hlt'
              have hout : o.out = tid := by
                rw [hoeq, hout', htm.2]
              have htid_notin : tid ∉ memoKeys s.memo := lookupMemo_none_not_mem hmm
              split at h
              case _ hk =>
                split at h
                case _ tgt src hinp =>
                  obtain ⟨⟨v1, s1⟩, h1, h⟩ := except_bind_ok h
                  rw [applyAssign] at h
                  have h2 := except_ok_inj h
                  have hs : _ = s' := congrArg Prod.snd h2
                  rw [← hs]
                  obtain ⟨e1, ⟨A1, hm1, hk1⟩, ⟨D1, ht1⟩, _⟩ :=
                    (evalMaster sig f).1 s src v1 s1 hw h1
                  obtain ⟨hnd1, hinv1⟩ := ihT s src v1 s1 hw hnd hinv h1
                  have hsrc : src < tid := by
                    have := (hw.oin o hom.1 src (by rw [hinp]; simp)).2
                    rw [hom.2] at this
                    omega
                  have htid1 : tid ∉ memoKeys s1.memo := by
                    rw [hm1, memoKeys_append]
                    intro hmem
                    rcases List.mem_append.1 hmem with hka | hka
                    · have := hk1 tid hka
                      omega
                    · exact htid_notin hka
                  have honot : oid ∉ s1.trace := by
                    intro hoin
                    obtain ⟨o2, hfo2, hmem2⟩ := hinv1 oid hoin
                    rw [findOp_strip_eq e1, hfo] at hfo2
                    have ho2eq : o = o2 := Option.some.inj hfo2
                    rw [← ho2eq, hout] at hmem2
                    exact htid1 hmem2
                  refine ⟨nodup_append_singleton hnd1 honot, ?_⟩
                  intro oid2 ho2
                  rcases List.mem_append.1 ho2 with hleft | hright
                  · obtain ⟨o2, hfo2, hmem2⟩ := hinv1 oid2 hleft
                    refine ⟨o2, ?_, ?_⟩
                    · show ((s1.g.setValue tgt v1).setValue tid v1).findOp oid2 = some o2
                      rw [findOp_setValue, findOp_setValue]
                      exact hfo2
                    · show o2.out ∈ memoKeys ((tid, v1) :: s1.memo)
                      rw [memoKeys_cons]
                      exact List.mem_cons_of_mem _ hmem2
                  · rw [List.mem_singleton.1 hright]
                    refine ⟨o, ?_, ?_⟩
                    · show ((s1.g.setValue tgt v1).setValue tid v1).findOp oid = some o
                      rw [findOp_setValue, findOp_setValue, findOp_strip_eq e1]
                      exact hfo
                    · show o.out ∈ memoKeys ((tid, v1) :: s1.memo)
                      rw [hout, memoKeys_cons]
                      exact List.mem_cons_self _ _
                case _ hinp => exact absurd h (by intro h2; exact Except.noConfusion h2)
              case _ k hk =>
                obtain ⟨⟨vs1, s1⟩, h1, h⟩ := except_bind_ok h
                rw [applyForward] at h
                split at h
                case _ v0 hfw =>
                  have h2 := except_ok_inj h
                  have hs : _ = s' := congrArg Prod.snd h2
                  rw [← hs]
                  obtain ⟨e1, ⟨A1, hm1, hk1⟩, ⟨D1, ht1⟩⟩ :=
                    (evalMaster sig f).2 s o.inputs vs1 s1 hw h1
                  obtain ⟨hnd1, hinv1⟩ := ihA s o.inputs vs1 s1 hw hnd hinv h1
                  have htid1 : tid ∉ memoKeys s1.memo := by
                    rw [hm1, memoKeys_append]
                    intro hmem
                    rcases List.mem_append.1 hmem with hka | hka
                    · obtain ⟨a, ha, hle⟩ := hk1 tid hka
                      have := (hw.oin o hom.1 a ha).2
                      rw [hom.2] at this
                      omega
                    · exact htid_notin hka
                  have honot : oid ∉ s1.trace := by
                    intro hoin
                    obtain ⟨o2, hfo2, hmem2⟩ := hinv1 oid hoin
                    rw [findOp_strip_eq e1, hfo] at hfo2
                    have ho2eq : o = o2 := Option.some.inj hfo2
                    rw [← ho2eq, hout] at hmem2
                    exact htid1 hmem2
                  refine ⟨nodup_append_singleton hnd1 honot, ?_⟩
                  intro oid2 ho2
                  rcases List.mem_append.1 ho2 with hleft | hright
                  · obtain ⟨o2, hfo2, hmem2⟩ := hinv1 oid2 hleft
                    refine ⟨o2, ?_, ?_⟩
                    · show (s1.g.setValue tid v0).findOp oid2 = some o2
                      rw [findOp_setValue]
                      exact hfo2
                    · show o2.out ∈ memoKeys ((tid, v0) :: s1.memo)
                      rw [memoKeys_cons]
                      exact List.mem_cons_of_mem _ hmem2
                  · rw [List.mem_singleton.1 hright]
                    refine ⟨o, ?_, ?_⟩
                    · show (s1.g.setValue tid v0).findOp oid = some o
                      rw [findOp_setValue, findOp_strip_eq e1]
                      exact hfo
                    · show o.out ∈ memoKeys ((tid, v0) :: s1.memo)
                      rw [hout, memoKeys_cons]
                      exact List.mem_cons_self _ _
                case _ hfw => exact absurd h (by intro h2; exact Except.noConfusion h2)
    refine ⟨hT, ?_⟩
    intro s l
    induction l generalizing s with
    | nil =>
      intro vs s' hw hnd hinv h
      rw [evalArgs] at h
      have h2 := except_ok_inj h
      have hs : s = s' := congrArg Prod.snd h2
      subst hs
      exact ⟨hnd, hinv⟩
    | cons a rest ihl =>
      intro vs s' hw hnd hinv h
      rw [evalArgs] at h
      obtain ⟨⟨v1, s1⟩, h1, h⟩ := except_bind_ok h
      obtain ⟨⟨vs2, s2⟩, h2, h⟩ := except_bind_ok h
      have h3 := except_ok_inj h
      have hs : s2 = s' := congrArg Prod.snd h3
      subst hs
      obtain ⟨e1, _, _, _⟩ := (evalMaster sig (f + 1)).1 s a v1 s1 hw h1
      obtain ⟨hnd1, hinv1⟩ := hT s a v1 s1 hw hnd hinv h1
      have hw1 : WFstruct s1.g := WFstruct_of_stripVals_eq e1.symm hw
      exact ihl s1 vs2 s2 hw1 hnd1 hinv1 h2

theorem runTargets_trace (sig : ℚ → ℚ) (fuel : Nat) :
    ∀ {ts : List Nat} {s : EvalSt} {vs : List Value} {s' : EvalSt},
    WFstruct s.g →
    s.trace.Nodup →
    (∀ oid2 ∈ s.trace, ∃ o2, s.g.findOp oid2 = some o2 ∧ o2.out ∈ memoKeys s.memo) →
    runTargets sig fuel s ts = .ok (vs, s') →
    s'.trace.Nodup := by
  intro ts
  induction ts with
  | nil =>
    intro s vs s' hw hnd hinv h
    rw [runTargets] at h
    have h2 := except_ok_inj h
    have hs : s = s' := congrArg Prod.snd h2
    rw [← hs]
    exact hnd
  | cons t rest ih =>
    intro s vs s' hw hnd hinv h
    rw [runTargets] at h
    obtain ⟨⟨v1, s1⟩, h1, h⟩ := except_bind_ok h
    obtain ⟨⟨vs2, s2⟩, h2, h⟩ := except_bind_ok h
    have h3 := except_ok_inj h
    have hs : s2 = s' := congrArg Prod.snd h3
    obtain ⟨e1, _, _, _⟩ := (evalMaster sig fuel).1 s t v1 s1 hw h1
    obtain ⟨hnd1, hinv1⟩ := (evalTrace sig fuel).1 s t v1 s1 hw hnd hinv h1
    have hw1 : WFstruct s1.g := WFstruct_of_stripVals_eq e1.symm hw
    rw [← hs]
    exact ih hw1 hnd1 hinv1 h2

/-- C5: within one session run, a memoized tensor is returned as-is with
no re-resolution and no state change at all (in particular even after a
later `assign` mutated one of its transitive inputs); over a whole run
from the fresh per-call state, every producer op is invoked at most once
(the invocation trace has no duplicates); and `Session.run` always
evaluates against a freshly created empty memo table, so no memo entry
survives from one call to the next. -/
theorem claim_C5 (sig : ℚ → ℚ) (fuel : Nat) :
    (∀ s : EvalSt, ∀ tid v, lookupMemo s.memo tid = some v →
      evalT sig (fuel + 1) s tid = .ok (v, s)) ∧
    (∀ g ts vs s', WFstruct g →
      runTargets sig fuel { g := g, memo := [], trace := [] } ts = .ok (vs, s') →
      s'.trace.Nodup) ∧
    (∀ g ts vs g2, sessionRun sig fuel g ts = .ok (vs, g2) ↔
      ∃ s', runTargets sig fuel { g := g, memo := [], trace := [] } ts = .ok (vs, s') ∧
        s'.g = g2) := by
  refine ⟨?_, ?_, ?_⟩
  · intro s tid v hmem
    rw [evalT]
    rw [hmem]
  · intro g ts vs s' hw h
    exact runTargets_trace sig fuel hw List.nodup_nil (by intro o2 ho2; cases ho2) h
  · intro g ts vs g2
    unfold sessionRun
    cases hrt : runTargets sig fuel { g := g, memo := [], trace := [] } ts with
    | error e =>
      constructor
      · intro h
        exact absurd h (by intro h2; exact Except.noConfusion h2)
      · intro ⟨s', h1, h2⟩
        exact absurd h1 (by intro h3; exact Except.noConfusion h3)
    | ok p =>
      obtain ⟨vs1, s1⟩ := p
      constructor
      · intro h
        have h2 := except_ok_inj h
        have hv : vs1 = vs := congrArg Prod.fst h2
        have hg : s1.g = g2 := congrArg Prod.snd h2
        subst hv
        exact ⟨s1, rfl, hg⟩
      · intro ⟨s', h1, h2⟩
        have h3 := except_ok_inj h1
        have hv : vs1 = vs := congrArg Prod.fst h3
        have hseq : s1 = s' := congrArg Prod.snd h3
        subst hv
        show (Except.ok (vs1, s1.g) : Except EErr (List Value × Graph)) = Except.ok (vs1, g2)
        rw [hseq, h2]

/-- Witness for C5 at a concrete state: a memo entry (even one differing
from the stored leaf value) is returned unchanged without touching the
state, and a duplicate-target run from the fresh state yields a
duplicate-free trace. -/
theorem claim_C5_witness :
    (evalT (fun q => q) 2 { g := exGraph1, memo := [(0, Value.sc 5)], trace := [] } 0 =
      .ok (Value.sc 5, { g := exGraph1, memo := [(0, Value.sc 5)], trace := [] })) ∧
    (∀ vs s', runTargets (fun q => q) 1 { g := exGraph1, memo := [], trace := [] } [0, 0] =
      .ok (vs, s') → s'.trace.Nodup) :=
  ⟨(claim_C5 (fun q => q) 1).1 { g := exGraph1, memo := [(0, Value.sc 5)], trace := [] } 0
      (Value.sc 5) (by decide),
   fun vs s' h => (claim_C5 (fun q => q) 1).2.1 exGraph1 [0, 0] vs s'
      (Built_wf (Built.leaf (g := Graph.empty) (v := Value.sc 1) Built.empty rfl)) h⟩

theorem find?_strip_aux :
    ∀ (l l' : List Tensor),
    l.map (fun t => ({ t with value := none } : Tensor)) =
      l'.map (fun t => ({ t with value := none } : Tensor)) →
    ∀ u : Nat,
    Option.map (fun t => ({ t with value := none } : Tensor))
      (l.find? (fun t => t.id = u)) =
    Option.map (fun t => ({ t with value := none } : Tensor))
      (l'.find? (fun t => t.id = u)) := by
  intro l
  induction l with
  | nil =>
    intro l' h u
    have h2 : l'.map (fun t => ({ t with value := none } : Tensor)) = [] := h.symm
    rw [List.map_eq_nil_iff] at h2
    subst h2
    rfl
  | cons a as ih =>
    intro l' h u
    cases l' with
    | nil => exact absurd h (by intro h2; exact List.noConfusion h2)
    | cons b bs =>
      rw [List.map_cons, List.map_cons] at h
      have hab : ({ a with value := none } : Tensor) = { b with value := none } := by
        injection h
      have htl : as.map (fun t => ({ t with value := none } : Tensor)) =
          bs.map (fun t => ({ t with value := none } : Tensor)) := by
        injection h
      obtain ⟨hid, hpr, hsh⟩ := strip_eq_fields hab
      by_cases hp : a.id = u
      · rw [List.find?_cons_of_pos _ (by simp [hp]),
          List.find?_cons_of_pos _ (by simp [← hid, hp])]
        simpa using hab
      · rw [List.find?_cons_of_neg _ (by simp [hp]),
          List.find?_cons_of_neg _ (by simp [← hid, hp])]
        exact ih bs htl u

theorem findTensor_strip_some {g g' : Graph} (h : g'.stripVals = g.stripVals)
    {u : Nat} {t : Tensor} (hft : g.findTensor u = some t) :
    ∃ t1, g'.findTensor u = some t1 ∧ t1.id = t.id ∧ t1.producer = t.producer ∧
      t1.shape = t.shape := by
  have h0 := congrArg Graph.tensors h
  have hts : g'.tensors.map (fun t => ({ t with value := none } : Tensor)) =
      g.tensors.map (fun t => ({ t with value := none } : Tensor)) := h0
  have h2 := find?_strip_aux g'.tensors g.tensors hts u
  unfold Graph.findTensor at hft ⊢
  rw [hft] at h2
  cases hft' : List.find? (fun t => t.id = u) g'.tensors with
  | none =>
    rw [hft'] at h2
    exact absurd h2 (by intro h3; exact Option.noConfusion h3)
  | some t1 =>
    rw [hft'] at h2
    have h3 : ({ t1 with value := none } : Tensor) = { t with value := none } := by
      injection h2
    obtain ⟨h4, h5, h6⟩ := strip_eq_fields h3
    exact ⟨t1, rfl, h4, h5, h6⟩

theorem ops_strip_eq {g g' : Graph} (h : g'.stripVals = g.stripVals) : g'.ops = g.ops := by
  have h0 := congrArg Graph.ops h
  exact h0

theorem findTensor_setValue_ne {g : Graph} {u tid : Nat} {t : Tensor} (v : Value)
    (hft : g.findTensor u = some t) (hne : t.id ≠ tid) :
    (g.setValue tid v).findTensor u = some t := by
  rw [findTensor_setValue, hft]
  show some (if t.id = tid then { t with value := some v } else t) = some t
  rw [if_neg hne]

theorem evalLocal (sig : ℚ → ℚ) : ∀ fuel : Nat,
    (∀ s tid v s', WFstruct s.g → evalT sig fuel s tid = .ok (v, s') →
      ∀ u t t', s.g.findTensor u = some t → s'.g.findTensor u = some t' →
        t'.value ≠ t.value →
        t.producer ≠ none ∨
        ∃ o ∈ s.g.ops, o.kind = OpKind.assign ∧ ∃ src, o.inputs = [u, src]) ∧
    (∀ s l vs s', WFstruct s.g → evalArgs sig fuel s l = .ok (vs, s') →
      ∀ u t t', s.g.findTensor u = some t → s'.g.findTensor u = some t' →
        t'.value ≠ t.value →
        t.producer ≠ none ∨
        ∃ o ∈ s.g.ops, o.kind = OpKind.assign ∧ ∃ src, o.inputs = [u, src]) := by
  intro fuel
  induction fuel with
  | zero =>
    constructor
    · intro s tid v s' _ h
      rw [evalT] at h
      exact absurd h (by intro h2; exact Except.noConfusion h2)
    · intro s l vs s' hw h
      cases l with
      | nil =>
        rw [evalArgs] at h
        have h2 := except_ok_inj h
        have hs : s = s' := congrArg Prod.snd h2
        subst hs
        intro u t t' hft hft' hne
        rw [hft] at hft'
        exact absurd (congrArg (fun x => Option.map Tensor.value x) hft')
          (by intro h3; have h4 : some t.value = some t'.value := h3; injection h4 with h5;
              exact hne h5.symm)
      | cons a rest =>
        rw [evalArgs] at h
        obtain ⟨⟨v1, s1⟩, h1, h⟩ := except_bind_ok h
        rw [evalT] at h1
        exact absurd h1 (by intro h2; exact Except.noConfusion h2)
  | succ f ih =>
    obtain ⟨ihT, ihA⟩ := ih
    have hsame : ∀ (s s' : EvalSt), s.g = s'.g →
        ∀ u (t t' : Tensor), s.g.findTensor u = some t → s'.g.findTensor u = some t' →
        t'.value ≠ t.value → False := by
      intro s s' hgeq u t t' hft hft' hne
      rw [← hgeq, hft] at hft'
      have h4 : t = t' := Option.some.inj hft'
      exact hne (congrArg Tensor.value h4).symm
    have hT : ∀ s tid v s', WFstruct s.g → evalT sig (f + 1) s tid = .ok (v, s') →
        ∀ u t t', s.g.findTensor u = some t → s'.g.findTensor u = some t' →
          t'.value ≠ t.value →
          t.producer ≠ none ∨
          ∃ o ∈ s.g.ops, o.kind = OpKind.assign ∧ ∃ src, o.inputs = [u, src] := by
      intro s tid v s' hw h
      rw [evalT] at h
      split at h
      case _ v0 hmm =>
        have h2 := except_ok_inj h
        have hs : s = s' := congrArg Prod.snd h2
        subst hs
        intro u t t' hft hft' hne
        exact (hsame s s rfl u t t' hft hft' hne).elim
      case _ hmm =>
        split at h
        case _ hft0 => exact absurd h (by intro h2; exact Except.noConfusion h2)
        case _ t0 hft0 =>
          split at h
          case _ hpr =>
            split at h
            case _ v0 hv =>
              have h2 := except_ok_inj h
              have hs : ({ s with memo := (tid, v0) :: s.memo } : EvalSt) = s' :=
                congrArg Prod.snd h2
              intro u t t' hft hft' hne
              exact (hsame s s' (by rw [← hs]) u t t' hft hft' hne).elim
            case _ hv => exact absurd h (by intro h2; exact Except.noConfusion h2)
          case _ oid hpr =>
            split at h
            case _ hfo => exact absurd h (by intro h2; exact Except.noConfusion h2)
            case _ o hfo =>
              split at h
              case _ hk =>
                split at h
                case _ tgt src hinp =>
                  obtain ⟨⟨v1, s1⟩, h1, h⟩ := except_bind_ok h
                  rw [applyAssign] at h
                  have h2 := except_ok_inj h
                  have hs : _ = s' := congrArg Prod.snd h2
                  obtain ⟨e1, _, _, _⟩ := (evalMaster sig f).1 s src v1 s1 hw h1
                  intro u t t' hft hft' hne
                  obtain ⟨t1, hft1, hid1, hpr1, _⟩ := findTensor_strip_some e1 hft
                  have htid : t1.id = u := (findTensor_some hft1).2
                  have ht0id : t0.id = tid := (findTensor_some hft0).2
                  by_cases hutid : u = tid
                  · subst hutid
                    rw [hft0] at hft
                    have ht0t : t0 = t := Option.some.inj hft
                    rw [← ht0t]
                    left
                    rw [hpr]
                    intro h5
                    exact Option.noConfusion h5
                  · by_cases hutgt : u = tgt
                    · subst hutgt
                      right
                      exact ⟨o, (findOp_some hfo).1, hk, src, by rw [hinp]⟩
                    · by_cases hval : t1.value = t.value
                      · exfalso
                        have hfts' : s'.g.findTensor u = some t1 := by
                          rw [← hs]
                          show ((s1.g.setValue tgt v1).setValue tid v1).findTensor u = some t1
                          exact findTensor_setValue_ne v1
                            (findTensor_setValue_ne v1 hft1 (by rw [htid]; exact hutgt))
                            (by rw [htid]; exact hutid)
                        rw [hfts'] at hft'
                        have h4 : t1 = t' := Option.some.inj hft'
                        rw [← h4] at hne
                        exact hne hval
                      · exact ihT s src v1 s1 hw h1 u t t1 hft hft1 hval
                case _ hinp => exact absurd h (by intro h2; exact Except.noConfusion h2)
              case _ k hk =>
                obtain ⟨⟨vs1, s1⟩, h1, h⟩ := except_bind_ok h
                rw [applyForward] at h
                split at h
                case _ v0 hfw =>
                  have h2 := except_ok_inj h
                  have hs : _ = s' := congrArg Prod.snd h2
                  obtain ⟨e1, _, _⟩ := (evalMaster sig f).2 s o.inputs vs1 s1 hw h1
                  intro u t t' hft hft' hne
                  obtain ⟨t1, hft1, hid1, hpr1, _⟩ := findTensor_strip_some e1 hft
                  have htid : t1.id = u := (findTensor_some hft1).2
                  by_cases hutid : u = tid
                  · subst hutid
                    rw [hft0] at hft
                    have ht0t : t0 = t := Option.some.inj hft
                    rw [← ht0t]
                    left
                    rw [hpr]
                    intro h5
                    exact Option.noConfusion h5
                  · by_cases hval : t1.value = t.value
                    · exfalso
                      have hfts' : s'.g.findTensor u = some t1 := by
                        rw [← hs]
                        show (s1.g.setValue tid v0).findTensor u = some t1
                        exact findTensor_setValue_ne v0 hft1 (by rw [htid]; exact hutid)
                      rw [hfts'] at hft'
                      have h4 : t1 = t' := Option.some.inj hft'
                      rw [← h4] at hne
                      exact hne hval
                    · exact ihA s o.inputs vs1 s1 hw h1 u t t1 hft hft1 hval
                case _ hfw => exact absurd h (by intro h2; exact Except.noConfusion h2)
    refine ⟨hT, ?_⟩
    intro s l
    induction l generalizing s with
    | nil =>
      intro vs s' hw h
      rw [evalArgs] at h
      have h2 := except_ok_inj h
      have hs : s = s' := congrArg Prod.snd h2
      subst hs
      intro u t t' hft hft' hne
      exact (hsame s s rfl u t t' hft hft' hne).elim
    | cons a rest ihl =>
      intro vs s' hw h
      rw [evalArgs] at h
      obtain ⟨⟨v1, s1⟩, h1, h⟩ := except_bind_ok h
      obtain ⟨⟨vs2, s2⟩, h2, h⟩ := except_bind_ok h
      have h3 := except_ok_inj h
      have hs : s2 = s' := congrArg Prod.snd h3
      subst hs
      obtain ⟨e1, _, _, _⟩ := (evalMaster sig (f + 1)).1 s a v1 s1 hw h1
      have hw1 : WFstruct s1.g := WFstruct_of_stripVals_eq e1.symm hw
      intro u t t' hft hft' hne
      obtain ⟨t1, hft1, hid1, hpr1, _⟩ := findTensor_strip_some e1 hft
      by_cases hval : t1.value = t.value
      · have hrec := ihl s1 vs2 s2 hw1 h2 u t1 t' hft1 hft' (by rw [hval]; exact hne)
        rcases hrec with hleft | ⟨o2, ho2, hk2, src2, hin2⟩
        · left
          rw [← hpr1]
          exact hleft
        · right
          refine ⟨o2, ?_, hk2, src2, hin2⟩
          rw [← ops_strip_eq e1]
          exact ho2
      · exact hT s a v1 s1 hw h1 u t t1 hft hft1 hval

theorem evalAssign_spec (sig : ℚ → ℚ) (f : Nat) {s : EvalSt} {tid : Nat} {v : Value}
    {s' : EvalSt} {t : Tensor} {oid : Nat} {o : Op} {tgt src : Nat}
    (hmm : lookupMemo s.memo tid = none)
    (hft : s.g.findTensor tid = some t) (hpr : t.producer = some oid)
    (hfo : s.g.findOp oid = some o) (hk : o.kind = OpKind.assign)
    (hinp : o.inputs = [tgt, src])
    (h : evalT sig (f + 1) s tid = .ok (v, s')) :
    ∃ s1, evalT sig f s src = .ok (v, s1) ∧
      s'.g = (s1.g.setValue tgt v).setValue tid v ∧
      s'.memo = (tid, v) :: s1.memo ∧ s'.trace = s1.trace ++ [oid] := by
  rw [evalT] at h
  split at h
  case _ v0 hmm2 =>
    rw [hmm] at hmm2
    exact absurd hmm2 (by intro h2; exact Option.noConfusion h2)
  case _ hmm2 =>
    split at h
    case _ hft2 =>
      rw [hft] at hft2
      exact absurd hft2 (by intro h2; exact Option.noConfusion h2)
    case _ t2 hft2 =>
      rw [hft] at hft2
      have ht2 : t2 = t := (Option.some.inj hft2).symm
      split at h
      case _ hpr2 =>
        rw [ht2, hpr] at hpr2
        exact absurd hpr2 (by intro h2; exact Option.noConfusion h2)
      case _ oid2 hpr2 =>
        rw [ht2, hpr] at hpr2
        have hoid2 : oid2 = oid := (Option.some.inj hpr2).symm
        split at h
        case _ hfo2 =>
          rw [hoid2, hfo] at hfo2
          exact absurd hfo2 (by intro h2; exact Option.noConfusion h2)
        case _ o2 hfo2 =>
          rw [hoid2, hfo] at hfo2
          have ho2 : o2 = o := (Option.some.inj hfo2).symm
          split at h
          case _ =>
            split at h
            case _ tgt2 src2 hinp2 =>
              rw [ho2, hinp] at hinp2
              have htgt2 : tgt = tgt2 := by injection hinp2 with h5 h6
              have hsrc2 : src = src2 := by
                injection hinp2 with h5 h6
                injection h6 with h7 h8
              subst hoid2
              obtain ⟨⟨v1, s1⟩, h1, h2⟩ := except_bind_ok h
              rw [applyAssign] at h2
              have h3 := except_ok_inj h2
              have hv : v1 = v := congrArg Prod.fst h3
              have hs : _ = s' := congrArg Prod.snd h3
              subst hv
              refine ⟨s1, by rw [hsrc2]; exact h1, ?_, ?_, ?_⟩
              · have := congrArg EvalSt.g hs
                rw [← this, ← htgt2]
              · have := congrArg EvalSt.memo hs
                rw [← this]
              · have := congrArg EvalSt.trace hs
                rw [← this]
            case _ hinp2 =>
              exact absurd h (by intro h2; exact Except.noConfusion h2)
          case _ k hk2 =>
            exact absurd (by rw [ho2]; exact hk) hk2

/-- C7 (amended): resolving `assign(target, source)` resolves the source,
overwrites the target's stored value with the resolved value, writes the
same value back into its own output tensor, and returns it; evaluation
never deletes or structurally mutates a node (graph structure is
preserved); and a stored value can change only at a tensor that has a
producer (every resolved op writes its result back into its own output
tensor — so `assign` is NOT the only mutation) or at the target of an
`assign` op of the graph. -/
theorem claim_C7 (sig : ℚ → ℚ) (fuel : Nat) :
    (∀ s tid v s' t oid o tgt src,
      lookupMemo s.memo tid = none →
      s.g.findTensor tid = some t → t.producer = some oid →
      s.g.findOp oid = some o → o.kind = OpKind.assign → o.inputs = [tgt, src] →
      evalT sig (fuel + 1) s tid = .ok (v, s') →
      ∃ s1, evalT sig fuel s src = .ok (v, s1) ∧
        s'.g = (s1.g.setValue tgt v).setValue tid v ∧
        s'.memo = (tid, v) :: s1.memo ∧ s'.trace = s1.trace ++ [oid]) ∧
    (∀ g ts vs g', WFstruct g → sessionRun sig fuel g ts = .ok (vs, g') →
      g'.stripVals = g.stripVals) ∧
    (∀ s tid v s', WFstruct s.g → evalT sig fuel s tid = .ok (v, s') →
      ∀ u t t', s.g.findTensor u = some t → s'.g.findTensor u = some t' →
        t'.value ≠ t.value →
        t.producer ≠ none ∨
        ∃ o ∈ s.g.ops, o.kind = OpKind.assign ∧ ∃ src, o.inputs = [u, src]) :=
  ⟨fun s tid v s' t oid o tgt src h1 h2 h3 h4 h5 h6 h7 =>
      evalAssign_spec sig fuel h1 h2 h3 h4 h5 h6 h7,
   fun g ts vs g' hw h => sessionRun_strip hw h,
   fun s tid v s' hw h => (evalLocal sig fuel).1 s tid v s' hw h⟩

/-- Counterexample to C7 as stated: evaluating a graph that contains no
`assign` at all still mutates a stored value — the `group` op's result is
written back into its own output tensor. -/
theorem claim_C7_cex :
    sessionRun (fun q => q) (3 + 1) gexGraph [2] =
      .ok ([Value.un], gexGraph.setValue 2 Value.un) ∧
    gexGraph.findTensor 2 =
      some { id := 2, producer := some 1, value := none, shape := Shape.un } ∧
    (gexGraph.setValue 2 Value.un).findTensor 2 =
      some { id := 2, producer := some 1, value := some Value.un, shape := Shape.un } ∧
    (∀ o ∈ gexGraph.ops, o.kind ≠ OpKind.assign) := by
  have hleaf : evalT (fun q => q) (2 + 1) { g := gexGraph, memo := [], trace := [] } 0 =
      .ok (Value.sc 1, { g := gexGraph, memo := [(0, Value.sc 1)], trace := [] }) := by
    rw [evalT]
    rfl
  have hnil : evalArgs (fun q => q) (2 + 1)
      { g := gexGraph, memo := [(0, Value.sc 1)], trace := [] } [] =
      .ok ([], { g := gexGraph, memo := [(0, Value.sc 1)], trace := [] }) := by
    rw [evalArgs]
  have hargs : evalArgs (fun q => q) (2 + 1) { g := gexGraph, memo := [], trace := [] } [0] =
      .ok ([Value.sc 1], { g := gexGraph, memo := [(0, Value.sc 1)], trace := [] }) := by
    rw [evalArgs, hleaf, except_ok_bind_red]
    show (evalArgs (fun q => q) (2 + 1)
        { g := gexGraph, memo := [(0, Value.sc 1)], trace := [] } [] >>=
      fun p =>
        match p with
        | (vs, s2) => Except.ok (Value.sc 1 :: vs, s2)) = _
    rw [hnil, except_ok_bind_red]
  have hout : evalT (fun q => q) (3 + 1) { g := gexGraph, memo := [], trace := [] } 2 =
      .ok (Value.un, { g := gexGraph.setValue 2 Value.un, memo := [(2, Value.un), (0, Value.sc 1)], trace := [1] }) := by
    rw [evalT]
    show (evalArgs (fun q => q) (2 + 1) { g := gexGraph, memo := [], trace := [] }
        [0]).bind (applyForward (fun q => q) OpKind.group 1 2) = _
    rw [hargs]
    rfl
  have hrtnil : runTargets (fun q => q) (3 + 1) { g := gexGraph.setValue 2 Value.un, memo := [(2, Value.un), (0, Value.sc 1)], trace := [1] } [] =
      .ok ([], { g := gexGraph.setValue 2 Value.un, memo := [(2, Value.un), (0, Value.sc 1)], trace := [1] }) := by
    rw [runTargets]
  have hrt : runTargets (fun q => q) (3 + 1) { g := gexGraph, memo := [], trace := [] } [2] =
      .ok ([Value.un], { g := gexGraph.setValue 2 Value.un, memo := [(2, Value.un), (0, Value.sc 1)], trace := [1] }) := by
    rw [runTargets, hout, except_ok_bind_red]
    show (runTargets (fun q => q) (3 + 1) { g := gexGraph.setValue 2 Value.un, memo := [(2, Value.un), (0, Value.sc 1)], trace := [1] } [] >>=
      fun p =>
        match p with
        | (vs, s2) => Except.ok (Value.un :: vs, s2)) = _
    rw [hrtnil, except_ok_bind_red]
  refine ⟨?_, rfl, rfl, ?_⟩
  · unfold sessionRun
    rw [hrt]
  · intro o ho
    have hops : gexGraph.ops =
        [{ id := 1, kind := OpKind.group, inputs := [0], out := 2 }] := rfl
    rw [hops] at ho
    rcases List.mem_cons.1 ho with rfl | ho2
    · intro h2
      exact OpKind.noConfusion h2
    · cases ho2

/-- Witness for C7 (amended) at concrete inputs: the `assign` op of the
counterexample graph for C9, and structure preservation of a run on the
one-leaf example graph. -/
theorem claim_C7_witness :
    (∀ v s', evalT (fun q => q) 2 { g := cexGraph, memo := [], trace := [] } 3 = .ok (v, s') →
      ∃ s1, evalT (fun q => q) 1 { g := cexGraph, memo := [], trace := [] } 1 = .ok (v, s1) ∧
        s'.g = (s1.g.setValue 1 v).setValue 3 v ∧
        s'.memo = (3, v) :: s1.memo ∧ s'.trace = s1.trace ++ [2]) ∧
    (∀ vs g', sessionRun (fun q => q) 1 exGraph1 [0] = .ok (vs, g') →
      g'.stripVals = exGraph1.stripVals) :=
  ⟨fun v s' h7 => (claim_C7 (fun q => q) 1).1 { g := cexGraph, memo := [], trace := [] } 3 v s'
      { id := 3, producer := some 2, value := none, shape := Shape.sc } 2
      { id := 2, kind := OpKind.assign, inputs := [1, 1], out := 3 } 1 1
      rfl rfl rfl rfl rfl rfl h7,
   fun vs g' h => (claim_C7 (fun q => q) 1).2.1 exGraph1 [0] vs g'
      (Built_wf (Built.leaf (g := Graph.empty) (v := Value.sc 1) Built.empty rfl)) h⟩

/-- C4 (amended): in one `Session.run` call over `[a, b]`, the first target
is resolved against the fresh per-call state on the pre-call graph, and the
second target is resolved in the state the first left behind — so an
`assign` listed first is visible to a later loss through the mutated graph,
EXCEPT that if the loss was already memoized while resolving the first
target, the memoized (pre-update) value is returned instead; with the loss
listed first, it always reflects the pre-update graph. -/
theorem claim_C4 (sig : ℚ → ℚ) (fuel : Nat) :
    ∀ g a b vs g', sessionRun sig fuel g [a, b] = .ok (vs, g') →
      ∃ va vb s1 s2, vs = [va, vb] ∧
        evalT sig fuel { g := g, memo := [], trace := [] } a = .ok (va, s1) ∧
        evalT sig fuel s1 b = .ok (vb, s2) ∧ g' = s2.g ∧
        (∀ w, lookupMemo s1.memo b = some w → vb = w ∧ s2 = s1) := by
  intro g a b vs g' h
  unfold sessionRun at h
  cases hrt : runTargets sig fuel { g := g, memo := [], trace := [] } [a, b] with
  | error e =>
    rw [hrt] at h
    exact absurd h (by intro h2; exact Except.noConfusion h2)
  | ok p =>
    rw [hrt] at h
    obtain ⟨vs1, sfin⟩ := p
    have h2 := except_ok_inj h
    have hvs : vs1 = vs := congrArg Prod.fst h2
    have hg : sfin.g = g' := congrArg Prod.snd h2
    rw [runTargets] at hrt
    obtain ⟨⟨v1, s1⟩, h1, hrt⟩ := except_bind_ok hrt
    obtain ⟨⟨vs2, s2⟩, h2b, hrt⟩ := except_bind_ok hrt
    rw [runTargets] at h2b
    obtain ⟨⟨v2, s2b⟩, h2c, h2b⟩ := except_bind_ok h2b
    obtain ⟨⟨vs3, s3⟩, h3, h2b⟩ := except_bind_ok h2b
    rw [runTargets] at h3
    have h4 := except_ok_inj h3
    have hvs3 : ([] : List Value) = vs3 := congrArg Prod.fst h4
    have hs3 : s2b = s3 := congrArg Prod.snd h4
    have h5 := except_ok_inj h2b
    have hvs2 : v2 :: vs3 = vs2 := congrArg Prod.fst h5
    have hs2 : s3 = s2 := congrArg Prod.snd h5
    have h6 := except_ok_inj hrt
    have hvs1 : v1 :: vs2 = vs1 := congrArg Prod.fst h6
    have hsfin : s2 = sfin := congrArg Prod.snd h6
    refine ⟨v1, v2, s1, s2b, ?_, h1, h2c, ?_, ?_⟩
    · rw [← hvs, ← hvs1, ← hvs2, ← hvs3]
    · rw [← hg, ← hsfin, ← hs2, ← hs3]
    · intro w hm
      cases fuel with
      | zero =>
        rw [evalT] at h2c
        exact absurd h2c (by intro h7; exact Except.noConfusion h7)
      | succ f =>
        rw [evalT] at h2c
        split at h2c
        case _ v0 hmm2 =>
          rw [hm] at hmm2
          have hv0 : w = v0 := Option.some.inj hmm2
          have h7 := except_ok_inj h2c
          have hv2 : v0 = v2 := congrArg Prod.fst h7
          have hs : s1 = s2b := congrArg Prod.snd h7
          exact ⟨by rw [← hv2, ← hv0], hs.symm⟩
        case _ hmm2 =>
          rw [hm] at hmm2
          exact absurd hmm2 (by intro h7; exact Option.noConfusion h7)

/-- Witness for C4 (amended) at a concrete call on the one-leaf graph:
running `[0, 0]` resolves the leaf once, serves the second target from the
memo and leaves the graph unchanged. -/
theorem claim_C4_witness :
    ∃ va vb s1 s2, ([Value.sc 1, Value.sc 1] : List Value) = [va, vb] ∧
      evalT (fun q => q) (0 + 1) { g := exGraph1, memo := [], trace := [] } 0 = .ok (va, s1) ∧
      evalT (fun q => q) (0 + 1) s1 0 = .ok (vb, s2) ∧ exGraph1 = s2.g ∧
      (∀ w, lookupMemo s1.memo 0 = some w → vb = w ∧ s2 = s1) := by
  have hA : evalT (fun q => q) (0 + 1) { g := exGraph1, memo := [], trace := [] } 0 =
      .ok (Value.sc 1, { g := exGraph1, memo := [(0, Value.sc 1)], trace := [] }) := by
    rw [evalT]
    rfl
  have hB : evalT (fun q => q) (0 + 1) { g := exGraph1, memo := [(0, Value.sc 1)], trace := [] } 0 =
      .ok (Value.sc 1, { g := exGraph1, memo := [(0, Value.sc 1)], trace := [] }) := by
    rw [evalT]
    rfl
  have hrtnil : runTargets (fun q => q) (0 + 1) { g := exGraph1, memo := [(0, Value.sc 1)], trace := [] } [] =
      .ok ([], { g := exGraph1, memo := [(0, Value.sc 1)], trace := [] }) := by
    rw [runTargets]
  have hrt1 : runTargets (fun q => q) (0 + 1) { g := exGraph1, memo := [(0, Value.sc 1)], trace := [] } [0] =
      .ok ([Value.sc 1], { g := exGraph1, memo := [(0, Value.sc 1)], trace := [] }) := by
    rw [runTargets, hB, except_ok_bind_red]
    show (runTargets (fun q => q) (0 + 1) { g := exGraph1, memo := [(0, Value.sc 1)], trace := [] } [] >>=
      fun p =>
        match p with
        | (vs, s2) => Except.ok (Value.sc 1 :: vs, s2)) = _
    rw [hrtnil, except_ok_bind_red]
  have hrt : runTargets (fun q => q) (0 + 1) { g := exGraph1, memo := [], trace := [] } [0, 0] =
      .ok ([Value.sc 1, Value.sc 1], { g := exGraph1, memo := [(0, Value.sc 1)], trace := [] }) := by
    rw [runTargets, hA, except_ok_bind_red]
    show (runTargets (fun q => q) (0 + 1) { g := exGraph1, memo := [(0, Value.sc 1)], trace := [] } [0] >>=
      fun p =>
        match p with
        | (vs, s2) => Except.ok (Value.sc 1 :: vs, s2)) = _
    rw [hrt1, except_ok_bind_red]
  have hrun : sessionRun (fun q => q) (0 + 1) exGraph1 [0, 0] =
      .ok ([Value.sc 1, Value.sc 1], exGraph1) := by
    unfold sessionRun
    rw [hrt]
  exact claim_C4 (fun q => q) (0 + 1) exGraph1 0 0 [Value.sc 1, Value.sc 1] exGraph1 hrun

/-- Counterexample to C4 as stated: with the `assign` update target listed
BEFORE the loss target in one run, the returned loss is the pre-update
value `c4VT` of the loss node (memoized while resolving the update's
source), not the loss of the post-update parameter — a fresh resolution of
the same loss node on the returned graph yields `c4M ≠ c4VT`. -/
theorem claim_C4_cex :
    sessionRun (fun q => q) (3 + 1) c4Graph [4, 2] = .ok ([c4VT, c4VT], c4After) ∧
    (∃ t, c4After.findTensor 0 = some t ∧ t.value = some c4VT) ∧
    sessionRun (fun q => q) (3 + 1) c4After [2] = .ok ([c4M], c4After.setValue 2 c4M) ∧
    c4VT ≠ c4M := by
  have h0 : evalT (fun q => q) (1 + 1) { g := c4Graph, memo := [], trace := [] } 0 =
      .ok (c4M, { g := c4Graph, memo := [(0, c4M)], trace := [] }) := by
    rw [evalT]
    rfl
  have hanil : evalArgs (fun q => q) (1 + 1) { g := c4Graph, memo := [(0, c4M)], trace := [] } [] =
      .ok ([], { g := c4Graph, memo := [(0, c4M)], trace := [] }) := by
    rw [evalArgs]
  have hargs : evalArgs (fun q => q) (1 + 1) { g := c4Graph, memo := [], trace := [] } [0] =
      .ok ([c4M], { g := c4Graph, memo := [(0, c4M)], trace := [] }) := by
    rw [evalArgs, h0, except_ok_bind_red]
    show (evalArgs (fun q => q) (1 + 1) { g := c4Graph, memo := [(0, c4M)], trace := [] } [] >>=
      fun p =>
        match p with
        | (vs, s2) => Except.ok (c4M :: vs, s2)) = _
    rw [hanil, except_ok_bind_red]
  have h2 : evalT (fun q => q) (2 + 1) { g := c4Graph, memo := [], trace := [] } 2 =
      .ok (c4VT, { g := c4Graph.setValue 2 c4VT, memo := [(2, c4VT), (0, c4M)], trace := [1] }) := by
    rw [evalT]
    show (evalArgs (fun q => q) (1 + 1) { g := c4Graph, memo := [], trace := [] } [0]).bind
      (applyForward (fun q => q) OpKind.transpose 1 2) = _
    rw [hargs]
    rfl
  have h4 : evalT (fun q => q) (3 + 1) { g := c4Graph, memo := [], trace := [] } 4 =
      .ok (c4VT, { g := c4After, memo := [(4, c4VT), (2, c4VT), (0, c4M)], trace := [1, 3] }) := by
    rw [evalT]
    show (evalT (fun q => q) (2 + 1) { g := c4Graph, memo := [], trace := [] } 2).bind
      (applyAssign 0 4 3) = _
    rw [h2]
    rfl
  have hhit : evalT (fun q => q) (3 + 1) { g := c4After, memo := [(4, c4VT), (2, c4VT), (0, c4M)], trace := [1, 3] } 2 =
      .ok (c4VT, { g := c4After, memo := [(4, c4VT), (2, c4VT), (0, c4M)], trace := [1, 3] }) := by
    rw [evalT]
    rfl
  have hrtnil1 : runTargets (fun q => q) (3 + 1) { g := c4After, memo := [(4, c4VT), (2, c4VT), (0, c4M)], trace := [1, 3] } [] =
      .ok ([], { g := c4After, memo := [(4, c4VT), (2, c4VT), (0, c4M)], trace := [1, 3] }) := by
    rw [runTargets]
  have hrt2 : runTargets (fun q => q) (3 + 1) { g := c4After, memo := [(4, c4VT), (2, c4VT), (0, c4M)], trace := [1, 3] } [2] =
      .ok ([c4VT], { g := c4After, memo := [(4, c4VT), (2, c4VT), (0, c4M)], trace := [1, 3] }) := by
    rw [runTargets, hhit, except_ok_bind_red]
    show (runTargets (fun q => q) (3 + 1) { g := c4After, memo := [(4, c4VT), (2, c4VT), (0, c4M)], trace := [1, 3] } [] >>=
      fun p =>
        match p with
        | (vs, s2) => Except.ok (c4VT :: vs, s2)) = _
    rw [hrtnil1, except_ok_bind_red]
  have hrt1 : runTargets (fun q => q) (3 + 1) { g := c4Graph, memo := [], trace := [] } [4, 2] =
      .ok ([c4VT, c4VT], { g := c4After, memo := [(4, c4VT), (2, c4VT), (0, c4M)], trace := [1, 3] }) := by
    rw [runTargets, h4, except_ok_bind_red]
    show (runTargets (fun q => q) (3 + 1) { g := c4After, memo := [(4, c4VT), (2, c4VT), (0, c4M)], trace := [1, 3] } [2] >>=
      fun p =>
        match p with
        | (vs, s2) => Except.ok (c4VT :: vs, s2)) = _
    rw [hrt2, except_ok_bind_red]
  have h0b : evalT (fun q => q) (2 + 1) { g := c4After, memo := [], trace := [] } 0 =
      .ok (c4VT, { g := c4After, memo := [(0, c4VT)], trace := [] }) := by
    rw [evalT]
    rfl
  have hanilb : evalArgs (fun q => q) (2 + 1) { g := c4After, memo := [(0, c4VT)], trace := [] } [] =
      .ok ([], { g := c4After, memo := [(0, c4VT)], trace := [] }) := by
    rw [evalArgs]
  have hargsb : evalArgs (fun q => q) (2 + 1) { g := c4After, memo := [], trace := [] } [0] =
      .ok ([c4VT], { g := c4After, memo := [(0, c4VT)], trace := [] }) := by
    rw [evalArgs, h0b, except_ok_bind_red]
    show (evalArgs (fun q => q) (2 + 1) { g := c4After, memo := [(0, c4VT)], trace := [] } [] >>=
      fun p =>
        match p with
        | (vs, s2) => Except.ok (c4VT :: vs, s2)) = _
    rw [hanilb, except_ok_bind_red]
  have h2b : evalT (fun q => q) (3 + 1) { g := c4After, memo := [], trace := [] } 2 =
      .ok (c4M, { g := c4After.setValue 2 c4M, memo := [(2, c4M), (0, c4VT)], trace := [1] }) := by
    rw [evalT]
    show (evalArgs (fun q => q) (2 + 1) { g := c4After, memo := [], trace := [] } [0]).bind
      (applyForward (fun q => q) OpKind.transpose 1 2) = _
    rw [hargsb]
    rfl
  have hrtnilb : runTargets (fun q => q) (3 + 1) { g := c4After.setValue 2 c4M, memo := [(2, c4M), (0, c4VT)], trace := [1] } [] =
      .ok ([], { g := c4After.setValue 2 c4M, memo := [(2, c4M), (0, c4VT)], trace := [1] }) := by
    rw [runTargets]
  have hrtb : runTargets (fun q => q) (3 + 1) { g := c4After, memo := [], trace := [] } [2] =
      .ok ([c4M], { g := c4After.setValue 2 c4M, memo := [(2, c4M), (0, c4VT)], trace := [1] }) := by
    rw [runTargets, h2b, except_ok_bind_red]
    show (runTargets (fun q => q) (3 + 1) { g := c4After.setValue 2 c4M, memo := [(2, c4M), (0, c4VT)], trace := [1] } [] >>=
      fun p =>
        match p with
        | (vs, s2) => Except.ok (c4M :: vs, s2)) = _
    rw [hrtnilb, except_ok_bind_red]
  refine ⟨?_, ?_, ?_, by decide⟩
  · unfold sessionRun
    rw [hrt1]
  · exact ⟨{ id := 0, producer := none, value := some c4VT, shape := Shape.mt 2 2 },
      rfl, rfl⟩
  · unfold sessionRun
    rw [hrtb]

theorem producerOf_addOpNode_new {g : Graph} (hw : WFstruct g) (k : OpKind)
    (args : List Nat) (s : Shape) :
    (g.addOpNode k args s).1.producerOf (g.addOpNode k args s).2 =
      some { id := g.nextId, kind := k, inputs := args, out := g.nextId + 1 } := by
  unfold Graph.producerOf
  rw [show (g.addOpNode k args s).2 = g.nextId + 1 from rfl,
    addOpNode_findTensor_new hw k args s]
  show (g.addOpNode k args s).1.findOp g.nextId = _
  exact addOpNode_findOp_new hw k args s

theorem addOpNode_out_lt (g : Graph) (k : OpKind) (args : List Nat) (s : Shape) :
    (g.addOpNode k args s).2 < (g.addOpNode k args s).1.nextId := by
  show g.nextId + 1 < g.nextId + 2
  omega

/-- C10: the driver's single update target is a `group` of one `assign` per
parameter, in the parameter order [weights0, weights1], each setting the
parameter to the `sub` of itself and its own synthesized gradient — a
gradient-descent step with step size exactly one and no learning-rate
coefficient. -/
theorem claim_C10 {w0 w1 : Mat} {out : DriverOut} (h : buildDriver w0 w1 = .ok out) :
    ∃ og oa0 os0 oa1 os1 sA0 sA1 n0 n1 gr0 gr1,
      out.gradIds = [gr0, gr1] ∧
      out.g.producerOf out.updateId = some og ∧
      og.kind = OpKind.group ∧ og.inputs = [sA0, sA1] ∧
      out.g.producerOf sA0 = some oa0 ∧ oa0.kind = OpKind.assign ∧
      oa0.inputs = [out.w0Id, n0] ∧
      out.g.producerOf n0 = some os0 ∧ os0.kind = OpKind.sub ∧
      os0.inputs = [out.w0Id, gr0] ∧
      out.g.producerOf sA1 = some oa1 ∧ oa1.kind = OpKind.assign ∧
      oa1.inputs = [out.w1Id, n1] ∧
      out.g.producerOf n1 = some os1 ∧ os1.kind = OpKind.sub ∧
      os1.inputs = [out.w1Id, gr1] := by
  unfold buildDriver at h
  obtain ⟨⟨g5, d0⟩, h5, h⟩ := except_bind_ok h
  obtain ⟨⟨g6, a0⟩, h6, h⟩ := except_bind_ok h
  obtain ⟨⟨g7, d1⟩, h7, h⟩ := except_bind_ok h
  obtain ⟨⟨g8, a1⟩, h8, h⟩ := except_bind_ok h
  obtain ⟨⟨g9, ty⟩, h9, h⟩ := except_bind_ok h
  obtain ⟨⟨g10, df⟩, h10, h⟩ := except_bind_ok h
  obtain ⟨⟨g11, sq⟩, h11, h⟩ := except_bind_ok h
  obtain ⟨⟨g12, loss⟩, h12, h⟩ := except_bind_ok h
  obtain ⟨⟨g13, grads⟩, h13, h⟩ := except_bind_ok h
  have hw4 : WFstruct ((((Graph.empty.tensor
      (Value.mt [[0, 0], [0, 1], [1, 0], [1, 1]])).1.tensor
      (Value.mt [[0, 1, 1, 0]])).1.tensor (Value.mt w0)).1.tensor (Value.mt w1)).1 :=
    addLeaf_wf (addLeaf_wf (addLeaf_wf (addLeaf_wf WFstruct_empty _) _) _) _
  have hw5 : WFstruct g5 := opFactory_wf hw4 h5
  have hw6 : WFstruct g6 := opFactory_wf hw5 h6
  have hw7 : WFstruct g7 := opFactory_wf hw6 h7
  have hw8 : WFstruct g8 := opFactory_wf hw7 h8
  have hw9 : WFstruct g9 := opFactory_wf hw8 h9
  have hw10 : WFstruct g10 := opFactory_wf hw9 h10
  have hw11 : WFstruct g11 := opFactory_wf hw10 h11
  have hw12 : WFstruct g12 := opFactory_wf hw11 h12
  have hw13 : WFstruct g13 := (gradients_ok_basic h13).2.1 hw12
  match grads, h with
  | [gr0, gr1], h =>
    obtain ⟨⟨g14, n0⟩, h14, h⟩ := except_bind_ok h
    obtain ⟨⟨g15, s0⟩, h15, h⟩ := except_bind_ok h
    obtain ⟨⟨g16, n1⟩, h16, h⟩ := except_bind_ok h
    obtain ⟨⟨g17, s1⟩, h17, h⟩ := except_bind_ok h
    obtain ⟨⟨g18, upd⟩, h18, h⟩ := except_bind_ok h
    obtain rfl : _ = out := except_ok_inj h
    obtain ⟨sh14, o14, _, _, heq14⟩ := opFactory_ok_spec h14
    have hg14 := congrArg Prod.fst heq14
    have hn0 := congrArg Prod.snd heq14
    simp only at hg14 hn0
    subst hg14
    subst hn0
    have hw14 := opFactory_wf hw13 h14
    obtain ⟨sh15, o15, _, _, heq15⟩ := opFactory_ok_spec h15
    have hg15 := congrArg Prod.fst heq15
    have hs0 := congrArg Prod.snd heq15
    simp only at hg15 hs0
    subst hg15
    subst hs0
    have hw15 := opFactory_wf hw14 h15
    obtain ⟨sh16, o16, _, _, heq16⟩ := opFactory_ok_spec h16
    have hg16 := congrArg Prod.fst heq16
    have hn1 := congrArg Prod.snd heq16
    simp only at hg16 hn1
    subst hg16
    subst hn1
    have hw16 := opFactory_wf hw15 h16
    obtain ⟨sh17, o17, _, _, heq17⟩ := opFactory_ok_spec h17
    have hg17 := congrArg Prod.fst heq17
    have hs1 := congrArg Prod.snd heq17
    simp only at hg17 hs1
    subst hg17
    subst hs1
    have hw17 := opFactory_wf hw16 h17
    obtain ⟨sh18, o18, _, _, heq18⟩ := opFactory_ok_spec h18
    have hg18 := congrArg Prod.fst heq18
    have hupd := congrArg Prod.snd heq18
    simp only at hg18 hupd
    subst hg18
    subst hupd
    have he15 := Extends.trans (opFactory_extends h16)
      (Extends.trans (opFactory_extends h17) (opFactory_extends h18))
    have he14 := Extends.trans (opFactory_extends h15) he15
    have he16 := Extends.trans (opFactory_extends h17) (opFactory_extends h18)
    have he17 := opFactory_extends h18
    exact ⟨_, _, _, _, _, _, _, _, _, gr0, gr1, rfl,
      producerOf_addOpNode_new hw17 OpKind.group _ o18, rfl, rfl,
      (by rw [producerOf_extends_rev hw15 he15 (addOpNode_out_lt _ _ _ _)]
          exact producerOf_addOpNode_new hw14 OpKind.assign _ o15), rfl, rfl,
      (by rw [producerOf_extends_rev hw14 he14 (addOpNode_out_lt _ _ _ _)]
          exact producerOf_addOpNode_new hw13 OpKind.sub _ o14), rfl, rfl,
      (by rw [producerOf_extends_rev hw17 he17 (addOpNode_out_lt _ _ _ _)]
          exact producerOf_addOpNode_new hw16 OpKind.assign _ o17), rfl, rfl,
      (by rw [producerOf_extends_rev hw16 he16 (addOpNode_out_lt _ _ _ _)]
          exact producerOf_addOpNode_new hw15 OpKind.sub _ o16), rfl, rfl⟩

/-- Witness for C10 at concrete weights: the 2-by-4 and 4-by-1 all-ones
matrices, for which the driver build succeeds. -/
theorem claim_C10_witness :
    ∃ out : DriverOut,
      buildDriver [[1, 1, 1, 1], [1, 1, 1, 1]] [[1], [1], [1], [1]] = .ok out ∧
      (∃ og oa0 os0 oa1 os1 sA0 sA1 n0 n1 gr0 gr1,
        out.gradIds = [gr0, gr1] ∧
        out.g.producerOf out.updateId = some og ∧
        og.kind = OpKind.group ∧ og.inputs = [sA0, sA1] ∧
        out.g.producerOf sA0 = some oa0 ∧ oa0.kind = OpKind.assign ∧
        oa0.inputs = [out.w0Id, n0] ∧
        out.g.producerOf n0 = some os0 ∧ os0.kind = OpKind.sub ∧
        os0.inputs = [out.w0Id, gr0] ∧
        out.g.producerOf sA1 = some oa1 ∧ oa1.kind = OpKind.assign ∧
        oa1.inputs = [out.w1Id, n1] ∧
        out.g.producerOf n1 = some os1 ∧ os1.kind = OpKind.sub ∧
        os1.inputs = [out.w1Id, gr1]) := by
  obtain ⟨out0, hout⟩ : ∃ o2 : DriverOut,
      buildDriver [[1, 1, 1, 1], [1, 1, 1, 1]] [[1], [1], [1], [1]] = .ok o2 := ⟨_, rfl⟩
  exact ⟨out0, hout, claim_C10 hout⟩

end Diff
